import Mathlib

/-!
# ADuCM3029 I2C master driver (`ADuCM3029/Basics/I2C/i2c.c`)

A shallow embedding of `i2c_init`, `i2c_write` and `i2c_read`.

* The memory-mapped register block is an explicit record, threaded through
  every operation together with a log of the register accesses.
* The hardware is an oracle: `Hw.MSTAT k` is the value returned by the
  `k`-th read of the status register, `Hw.MRX k` the value returned by the
  `k`-th read of the receive register.  Any behaviour of the peripheral during
  one call is such a pair of sequences.
* The header `i2c.h` and the device header are not part of the sources, so
  the constants they define (`I2C_TIMEOUT`, the `BITP_...` bit positions, the
  width of the registers) are fields of `Consts`.
* `double` and `float` arithmetic is IEEE-754 round-to-nearest-even on exact
  rationals (`fl 53`, `fl 24`), without exponent bounds: every value the
  driver computes from two 32-bit frequencies is far from overflow and from
  the subnormal range.
-/

namespace I2C

/-! ## Constants of the missing headers -/

/-- Constants declared in `i2c.h` and in the device header. -/
structure Consts where
  I2C_TIMEOUT : Nat
  REG_BITS : Nat
  BITP_I2C_MSTAT_TCOMP : Nat
  BITP_I2C_MSTAT_MTXREQ : Nat
  BITP_I2C_MSTAT_MRXREQ : Nat
  BITP_I2C_MSTAT_MSTOP : Nat
  BITP_I2C_MSTAT_MBUSY : Nat
  BITP_I2C_MCTL_MASEN : Nat
  BITP_I2C_STAT_MFLUSH : Nat
  BITP_I2C_DIV_HIGH : Nat
  BITP_I2C_DIV_LOW : Nat

/-- The values of the ADuCM3029 device header, with a short countdown. -/
def devConsts (timeout : Nat) : Consts where
  I2C_TIMEOUT := timeout
  REG_BITS := 16
  BITP_I2C_MSTAT_TCOMP := 8
  BITP_I2C_MSTAT_MTXREQ := 2
  BITP_I2C_MSTAT_MRXREQ := 3
  BITP_I2C_MSTAT_MSTOP := 11
  BITP_I2C_MSTAT_MBUSY := 6
  BITP_I2C_MCTL_MASEN := 0
  BITP_I2C_STAT_MFLUSH := 9
  BITP_I2C_DIV_HIGH := 8
  BITP_I2C_DIV_LOW := 0

inductive i2c_status_t where
  | I2C_SUCCESS
  | I2C_FAILURE
  | I2C_WRONG_FREQUENCY
  | I2C_SILICON_ANOMALY_21000011
  deriving DecidableEq, Repr

inductive i2c_stop_bit_t where
  | I2C_NO_STOP_BIT
  | I2C_STOP_BIT
  deriving DecidableEq, Repr

/-- The fields of `I2C_parameters_t`; ports are port numbers, and
`i2cInstance` is the register block of the machine. -/
structure I2C_parameters_t where
  sdaPort : Nat
  sclPort : Nat
  sda : Nat
  scl : Nat
  freq : Nat
  pclkFrequency : Nat
  addr : Nat

/-! ## Registers, access log, machine state -/

inductive Reg where
  | MCTL | STAT | MTX | MRX | MRXCNT | ADDR1 | ADDR2 | DIV
  deriving DecidableEq, Repr

/-- One access to the register block.  `poll bit v` is a read of `MSTAT`
that returned `v`, made by a loop that tests bit `bit`. -/
inductive Event where
  | poll (bit : Nat) (v : Nat)
  | read (r : Reg) (v : Nat)
  | write (r : Reg) (v : Nat)
  deriving DecidableEq, Repr

/-- The register block `ADI_I2C_TypeDef` (the registers the driver uses). -/
structure I2C_TypeDef where
  MCTL : Nat
  STAT : Nat
  MTX : Nat
  MRXCNT : Nat
  ADDR1 : Nat
  ADDR2 : Nat
  DIV : Nat
  deriving DecidableEq, Repr

/-- Hardware behaviour: the values the volatile read-only registers return,
indexed by the number of earlier reads of the same register. -/
structure Hw where
  MSTAT : Nat → Nat
  MRX : Nat → Nat

structure Machine where
  i2c : I2C_TypeDef
  gpCFG : Nat → Nat
  gpDS : Nat → Nat
  nMSTAT : Nat
  nMRX : Nat
  trace : List Event

/-! ## Machine words -/

/-- The value of `1U << bit`. -/
def bitMask (bit : Nat) : Nat := (1 <<< bit) % 2 ^ 32

/-- The test `( v & ( 1U << bit ) ) == ( 1U << bit )`. -/
def bitIs (v bit : Nat) : Bool := (v &&& bitMask bit) == bitMask bit

/-- The value of `~x` for a 32-bit `x`. -/
def not32 (x : Nat) : Nat := (2 ^ 32 - 1) ^^^ (x % 2 ^ 32)

/-- The value of `n - 1UL` for a 32-bit `n`: it wraps to `2 ^ 32 - 1` at 0. -/
def pred32 (n : Nat) : Nat := if n = 0 then 2 ^ 32 - 1 else n - 1

/-- A value stored into a register of the block. -/
def toReg (c : Consts) (v : Nat) : Nat := v % 2 ^ c.REG_BITS

def logEv (e : Event) (s : Machine) : Machine :=
  { s with trace := s.trace ++ [e] }

/-- One read of `MSTAT` by a loop testing `bit`. -/
def rdMSTAT (hw : Hw) (bit : Nat) (s : Machine) : Nat × Machine :=
  (hw.MSTAT s.nMSTAT,
   { s with nMSTAT := s.nMSTAT + 1, trace := s.trace ++ [Event.poll bit (hw.MSTAT s.nMSTAT)] })

/-- One read of `MRX`. -/
def rdMRX (hw : Hw) (s : Machine) : Nat × Machine :=
  (hw.MRX s.nMRX,
   { s with nMRX := s.nMRX + 1, trace := s.trace ++ [Event.read Reg.MRX (hw.MRX s.nMRX)] })

def wrMCTL (c : Consts) (v : Nat) (s : Machine) : Machine :=
  { s with i2c := { s.i2c with MCTL := toReg c v }, trace := s.trace ++ [Event.write Reg.MCTL (toReg c v)] }

def wrSTAT (c : Consts) (v : Nat) (s : Machine) : Machine :=
  { s with i2c := { s.i2c with STAT := toReg c v }, trace := s.trace ++ [Event.write Reg.STAT (toReg c v)] }

def wrMTX (c : Consts) (v : Nat) (s : Machine) : Machine :=
  { s with i2c := { s.i2c with MTX := toReg c v }, trace := s.trace ++ [Event.write Reg.MTX (toReg c v)] }

def wrMRXCNT (c : Consts) (v : Nat) (s : Machine) : Machine :=
  { s with i2c := { s.i2c with MRXCNT := toReg c v }, trace := s.trace ++ [Event.write Reg.MRXCNT (toReg c v)] }

def wrADDR1 (c : Consts) (v : Nat) (s : Machine) : Machine :=
  { s with i2c := { s.i2c with ADDR1 := toReg c v }, trace := s.trace ++ [Event.write Reg.ADDR1 (toReg c v)] }

def wrADDR2 (c : Consts) (v : Nat) (s : Machine) : Machine :=
  { s with i2c := { s.i2c with ADDR2 := toReg c v }, trace := s.trace ++ [Event.write Reg.ADDR2 (toReg c v)] }

def wrDIV (c : Consts) (v : Nat) (s : Machine) : Machine :=
  { s with i2c := { s.i2c with DIV := toReg c v }, trace := s.trace ++ [Event.write Reg.DIV (toReg c v)] }

/-- The statement `MCTL |= ( 1U << BITP_I2C_MCTL_MASEN )`. -/
def enableMaster (c : Consts) (s : Machine) : Machine :=
  wrMCTL c (s.i2c.MCTL ||| bitMask c.BITP_I2C_MCTL_MASEN) (logEv (Event.read Reg.MCTL s.i2c.MCTL) s)

/-- The statement `MCTL &= ~( 1U << BITP_I2C_MCTL_MASEN )`. -/
def disableMaster (c : Consts) (s : Machine) : Machine :=
  wrMCTL c (s.i2c.MCTL &&& not32 (bitMask c.BITP_I2C_MCTL_MASEN)) (logEv (Event.read Reg.MCTL s.i2c.MCTL) s)

/-- The two statements `STAT |= MFLUSH; STAT &= ~MFLUSH`. -/
def flushTx (c : Consts) (s : Machine) : Machine :=
  let s1 := wrSTAT c (s.i2c.STAT ||| bitMask c.BITP_I2C_STAT_MFLUSH) (logEv (Event.read Reg.STAT s.i2c.STAT) s)
  wrSTAT c (s1.i2c.STAT &&& not32 (bitMask c.BITP_I2C_STAT_MFLUSH)) (logEv (Event.read Reg.STAT s1.i2c.STAT) s1)

/-! ## Bounded waits -/

/-- The loop `while ( ( MSTAT & m ) <test> m && ( timeout > 0UL ) ) timeout--;`
started with the countdown at `timeout`.  The loop goes on while the tested
bit reads as `spin`; the status register is read before the countdown is
looked at.  The result is the final countdown. -/
def pollWhile (hw : Hw) (bit : Nat) (spin : Bool) : Nat → Machine → Nat × Machine
  | 0, s => (0, (rdMSTAT hw bit s).2)
  | t + 1, s =>
    if bitIs (rdMSTAT hw bit s).1 bit = spin then pollWhile hw bit spin t (rdMSTAT hw bit s).2
    else (t + 1, (rdMSTAT hw bit s).2)

/-- The initial value of the `uint32_t` countdowns. -/
def timeout0 (c : Consts) : Nat := c.I2C_TIMEOUT % 2 ^ 32

/-! ## i2c_write -/

/-- The body of the `for` loop of `i2c_write`, run `n` more times; `k` is the
offset `i2c_buff` has reached and the third argument is `i2c_timeout1`. -/
def txLoop (c : Consts) (hw : Hw) (i2c_buff : Nat → Nat) : Nat → Nat → Nat → Machine → Nat × Machine
  | 0, _, t1, s => (t1, s)
  | n + 1, k, _, s =>
    let w := pollWhile hw c.BITP_I2C_MSTAT_MTXREQ false (timeout0 c) s
    txLoop c hw i2c_buff n (k + 1) w.1 (wrMTX c (i2c_buff k) w.2)

/-- The stop sequence of `i2c_write`: the two waits and the master disable.
Returns `i2c_timeout2`, `i2c_timeout3` and the machine. -/
def stopPhase (c : Consts) (hw : Hw) (s : Machine) : Nat × Nat × Machine :=
  let w2 := pollWhile hw c.BITP_I2C_MSTAT_MSTOP false (timeout0 c) s
  let w3 := pollWhile hw c.BITP_I2C_MSTAT_MBUSY true (timeout0 c) w2.2
  (w2.1, w3.1, disableMaster c w3.2)

/-- The final check of `i2c_write`. -/
def writeStatus (t1 t2 t3 : Nat) : i2c_status_t :=
  if t1 < 1 ∨ t2 < 1 ∨ t3 < 1 then i2c_status_t.I2C_FAILURE else i2c_status_t.I2C_SUCCESS

/-- The statements of `i2c_write` before its `for` loop: master enable,
flush, first byte into `MTX`, then the two address registers. -/
def writeStart (c : Consts) (p : I2C_parameters_t) (i2c_buff : Nat → Nat) (s : Machine) : Machine :=
  let s1 := flushTx c (enableMaster c s)
  let s2 := wrMTX c (i2c_buff 0) s1
  wrADDR1 c (((p.addr <<< 1) &&& 0xFE) % 256) (wrADDR2 c 0 s2)

/-- The function `i2c_write`.  `i2c_buff k` is the byte at `i2c_buff[k]`,
`i2c_data_length` is a `uint32_t`; the loop bound is
`i2c_data_length - 1UL` in 32-bit arithmetic. -/
def i2c_write (c : Consts) (hw : Hw) (p : I2C_parameters_t) (i2c_buff : Nat → Nat)
    (i2c_data_length : Nat) (i2c_generate_stop : i2c_stop_bit_t) (s : Machine) :
    i2c_status_t × Machine :=
  let l := txLoop c hw i2c_buff (pred32 i2c_data_length) 1 (timeout0 c)
    (writeStart c p i2c_buff s)
  match i2c_generate_stop with
  | i2c_stop_bit_t.I2C_STOP_BIT =>
    let e := stopPhase c hw l.2
    (writeStatus l.1 e.1 e.2.1, e.2.2)
  | i2c_stop_bit_t.I2C_NO_STOP_BIT =>
    (writeStatus l.1 (timeout0 c) (timeout0 c), l.2)

/-! ## i2c_read -/

/-- The body of the `for` loop of `i2c_read`, run `n` more times; `k` is the
offset `i2c_buff` has reached, `out` the caller's buffer and the third
argument `i2c_timeout1`. -/
def rxLoop (c : Consts) (hw : Hw) : Nat → Nat → Nat → (Nat → Nat) → Machine → Nat × (Nat → Nat) × Machine
  | 0, _, t1, out, s => (t1, out, s)
  | n + 1, k, _, out, s =>
    let w := pollWhile hw c.BITP_I2C_MSTAT_MRXREQ false (timeout0 c) s
    let r := rdMRX hw w.2
    rxLoop c hw n (k + 1) w.1 (Function.update out k (r.1 % 256)) r.2

/-- The final check of `i2c_read`. -/
def readStatus (t1 t2 : Nat) : i2c_status_t :=
  if t1 < 1 ∨ t2 < 1 then i2c_status_t.I2C_FAILURE else i2c_status_t.I2C_SUCCESS

/-- The statements of `i2c_read` before its `for` loop: the receive
counter, then the two address registers. -/
def readStart (c : Consts) (p : I2C_parameters_t) (i2c_data_length : Nat) (s : Machine) : Machine :=
  let s1 := wrMRXCNT c (pred32 i2c_data_length) s
  wrADDR1 c (((p.addr <<< 1) ||| 0x01) % 256) (wrADDR2 c 0 s1)

/-- The function `i2c_read`.  `out` is the caller's buffer before the call;
the result holds the buffer after it; `i2c_data_length` is a `uint32_t`. -/
def i2c_read (c : Consts) (hw : Hw) (p : I2C_parameters_t) (out : Nat → Nat)
    (i2c_data_length : Nat) (s : Machine) : i2c_status_t × (Nat → Nat) × Machine :=
  let l := rxLoop c hw i2c_data_length 0 (timeout0 c) out (readStart c p i2c_data_length s)
  let w := pollWhile hw c.BITP_I2C_MSTAT_MBUSY true (timeout0 c) l.2.2
  (readStatus l.1 w.1, l.2.1, disableMaster c w.2)

/-! ## Floating point -/

/-- Rounding of a rational to the nearest integer, ties to the even one. -/
def roundEven (x : ℚ) : ℤ :=
  if Int.fract x < 1 / 2 then ⌊x⌋
  else if 1 / 2 < Int.fract x then ⌊x⌋ + 1
  else if ⌊x⌋ % 2 = 0 then ⌊x⌋
  else ⌊x⌋ + 1

/-- The unit in the last place of the binade of `x` for a significand of `p`
bits: `2 ^ (e - p + 1)` where `2 ^ e ≤ |x| < 2 ^ (e + 1)`. -/
def ulp (p : ℕ) (x : ℚ) : ℚ := 2 ^ (Int.log 2 |x| - (p : ℤ) + 1)

/-- IEEE-754 round-to-nearest-even to a significand of `p` bits (`p = 53`
for `double`, `p = 24` for `float`), with unbounded exponent: `x` is scaled
by the unit in the last place of its binade, rounded to an integer and scaled
back. -/
def fl (p : ℕ) (x : ℚ) : ℚ :=
  if x = 0 then 0 else (roundEven (x / ulp p x) : ℚ) * ulp p x

/-- The conversion `(uint8_t) r` of a finite floating value: the fractional
part is discarded; the conversion is undefined when the integral part is
not a value of `uint8_t`. -/
def toUInt8 (r : ℚ) : Option Nat :=
  if -1 < r ∧ r < 256 then some (if 0 ≤ r then ⌊r⌋.toNat else 0) else none

/-- The value assigned to `i2cHigh`:
`(uint8_t)( (float)( ( pclkFrequency / ( 2.0 * freq ) ) + 0.5 ) - 2.0 )`.
The conversions of the two `uint32_t` operands to `double`, the product
`2.0 * freq` and the constants are exact; the quotient, the sum and the
difference are rounded to `double`, the cast rounds to `float`.  For
`freq = 0` the quotient is infinite or not a number and the conversion to
`uint8_t` is undefined. -/
def i2cHighOf (pclkFrequency freq : Nat) : Option Nat :=
  if freq = 0 then none
  else toUInt8 (fl 53 (fl 24 (fl 53 (fl 53 ((pclkFrequency : ℚ) / (2 * (freq : ℚ))) + 1 / 2)) - 2))

/-- The value assigned to `i2cLow`: `i2cHigh + 1U` stored in a `uint8_t`. -/
def i2cLowOf (i2cHigh : Nat) : Nat := (i2cHigh + 1) % 256

/-! ## i2c_init -/

/-- Ways in which a call does not return a status. -/
inductive Fault where
  | hang
  | undefinedConversion
  deriving DecidableEq, Repr

/-- The pin multiplexing and drive strength statements of `i2c_init`; the
two port registers are taken as 32-bit words. -/
def pinSetup (p : I2C_parameters_t) (s : Machine) : Machine :=
  let sclSh := (p.scl <<< 1) % 2 ^ 32
  let sdaSh := (p.sda <<< 1) % 2 ^ 32
  let cfg1 := Function.update s.gpCFG p.sclPort ((s.gpCFG p.sclPort &&& not32 (3 <<< sclSh)) % 2 ^ 32)
  let cfg2 := Function.update cfg1 p.sclPort ((cfg1 p.sclPort ||| (1 <<< sclSh) % 2 ^ 32) % 2 ^ 32)
  let cfg3 := Function.update cfg2 p.sdaPort ((cfg2 p.sdaPort &&& not32 (3 <<< sdaSh)) % 2 ^ 32)
  let cfg4 := Function.update cfg3 p.sdaPort ((cfg3 p.sdaPort ||| (1 <<< sdaSh) % 2 ^ 32) % 2 ^ 32)
  let ds1 := Function.update s.gpDS p.sclPort ((s.gpDS p.sclPort ||| bitMask p.scl) % 2 ^ 32)
  let ds2 := Function.update ds1 p.sdaPort ((ds1 p.sdaPort ||| bitMask p.sda) % 2 ^ 32)
  { s with gpCFG := cfg4, gpDS := ds2 }

/-- The loop `while ( ( MSTAT & TCOMP ) == TCOMP );` of `i2c_init`, which has
no countdown: `none` when the bit is still set after `fuel` reads. -/
def waitTCOMP (c : Consts) (hw : Hw) : Nat → Machine → Option Machine
  | 0, _ => none
  | fuel + 1, s =>
    if bitIs (rdMSTAT hw c.BITP_I2C_MSTAT_TCOMP s).1 c.BITP_I2C_MSTAT_TCOMP then
      waitTCOMP c hw fuel (rdMSTAT hw c.BITP_I2C_MSTAT_TCOMP s).2
    else some (rdMSTAT hw c.BITP_I2C_MSTAT_TCOMP s).2

/-- The divider check and the programming of `DIV`, for a computed
`i2cHigh`, on the machine reached after the master disable. -/
def initDividers (c : Consts) (i2cHigh : Nat) (s : Machine) : i2c_status_t × Machine :=
  if i2cHigh + i2cLowOf i2cHigh > 15 then
    if i2cHigh > 0 ∧ i2cLowOf i2cHigh > 0 then
      (i2c_status_t.I2C_SUCCESS,
       wrDIV c (((i2cHigh <<< c.BITP_I2C_DIV_HIGH) ||| (i2cLowOf i2cHigh <<< c.BITP_I2C_DIV_LOW)) % 2 ^ 16) s)
    else (i2c_status_t.I2C_WRONG_FREQUENCY, s)
  else (i2c_status_t.I2C_SILICON_ANOMALY_21000011, s)

/-- The function `i2c_init`.  `fuel` bounds the reads of the unbounded
wait. -/
def i2c_init (c : Consts) (hw : Hw) (fuel : Nat) (p : I2C_parameters_t) (s : Machine) :
    Except Fault (i2c_status_t × Machine) :=
  match waitTCOMP c hw fuel (pinSetup p s) with
  | none => Except.error Fault.hang
  | some s1 =>
    match i2cHighOf p.pclkFrequency p.freq with
    | none => Except.error Fault.undefinedConversion
    | some i2cHigh => Except.ok (initDividers c i2cHigh (disableMaster c s1))

/-! ## The divider rule as the specification words it -/

/-- The specification's divider rule in exact rational arithmetic:
`round(pclk / (2 * freq)) - 2`, where `round` adds one half and truncates. -/
def specHigh (pclkFrequency freq : Nat) : ℤ :=
  ⌊(pclkFrequency : ℚ) / (2 * (freq : ℚ)) + 1 / 2⌋ - 2

/-! ## Sample inputs -/

/-- A machine with every register cleared and an empty log. -/
def machine0 : Machine := ⟨⟨0, 0, 0, 0, 0, 0, 0⟩, fun _ => 0, fun _ => 0, 0, 0, []⟩

/-- Parameters with the given clocks, for a slave at address `0x38`. -/
def paramsOf (pclkFrequency freq : Nat) : I2C_parameters_t := ⟨0, 0, 4, 5, freq, pclkFrequency, 0x38⟩

/-- A peripheral whose status register always reads as `v`. -/
def hwConst (v : Nat) : Hw := ⟨fun _ => v, fun k => k⟩

/-- A peripheral whose status register reads as 0 for the first `n` reads and
as `v` from then on. -/
def hwLate (n v : Nat) : Hw := ⟨fun k => if k < n then 0 else v, fun k => k⟩

/-- The caller's buffer holding the bytes `bs`. -/
def bufOf (bs : List Nat) : Nat → Nat := fun i => bs.getD i 0


/-! ## Observations on the access log -/

/-- The values stored into the transmit register `MTX`, in order. -/
def mtxWrites (tr : List Event) : List Nat :=
  tr.filterMap fun e => match e with
    | Event.write Reg.MTX v => some v
    | _ => none

/-- The values read from the receive register `MRX`, in order. -/
def mrxReads (tr : List Event) : List Nat :=
  tr.filterMap fun e => match e with
    | Event.read Reg.MRX v => some v
    | _ => none

/-- The values stored into register `r`, in order. -/
def regWrites (r : Reg) (tr : List Event) : List Nat :=
  tr.filterMap fun e => match e with
    | Event.write r1 v => if r1 = r then some v else none
    | _ => none

/-- The values returned by the polls of bit `bit`, in order. -/
def pollsOf (bit : Nat) (tr : List Event) : List Nat :=
  tr.filterMap fun e => match e with
    | Event.poll b v => if b = bit then some v else none
    | _ => none

/-! ## MLX90614 driver (`Drivers/MLX90614/MLX90614.c`) -/

inductive MLX90614_status_t where
  | MLX90614_SUCCESS
  | MLX90614_FAILURE
  deriving DecidableEq, Repr

/-- The value of `~x` for an `int` operand `x` (two's complement). -/
def notInt (x : ℤ) : ℤ := -x - 1

/-- The parsing statements of `MLX90614_ReadTemperature` on the two reply
bytes `cmd[0]`, `cmd[1]`.  The bytes are promoted to `int` before `~` and
`+ 1`; the product with `-1.0` and the sums with 0.25, 0.50, 0.75 are exact
in `float` and `double` (quarters below 512), so the value stored in
`Temperature` is given as a rational. -/
def parseTemperature (cmd0 cmd1 : Nat) : ℚ :=
  let t : ℚ :=
    if cmd0 &&& 0b10000000 = 0b00000000 then (cmd0 : ℚ)
    else -1 * ((notInt (cmd0 : ℤ) + 1 : ℤ) : ℚ)
  if cmd1 = 0b00000000 then t
  else if cmd1 = 0b01000000 then t + 1 / 4
  else if cmd1 = 0b10000000 then t + 1 / 2
  else if cmd1 = 0b11000000 then t + 3 / 4
  else t

/-- The function `MLX90614_ReadTemperature`; `msbTemperature` is the command
byte `MLX90614_MSB_TEMPERATURE` of the missing header.  The result holds the
status, the value stored in `myTemperature->Temperature` and the machine. -/
def MLX90614_ReadTemperature (c : Consts) (hw : Hw) (p : I2C_parameters_t) (msbTemperature : Nat)
    (s : Machine) : MLX90614_status_t × ℚ × Machine :=
  let cmd : Nat → Nat := fun i => if i = 0 then msbTemperature else 0
  let w := i2c_write c hw p cmd 1 i2c_stop_bit_t.I2C_NO_STOP_BIT s
  let r := i2c_read c hw p cmd 2 w.2
  (if r.1 = i2c_status_t.I2C_SUCCESS then MLX90614_status_t.MLX90614_SUCCESS
   else MLX90614_status_t.MLX90614_FAILURE,
   parseTemperature (r.2.1 0) (r.2.1 1), r.2.2)

/-- A peripheral with a constant status register whose receive register
returns the bytes of `bs` in turn. -/
def hwReply (v : Nat) (bs : List Nat) : Hw := ⟨fun _ => v, fun k => bs.getD k 0⟩

/-! ## AHT20 driver (`Drivers/AHT20/AHT20.c`) -/

inductive AHT20_status_t where
  | AHT20_SUCCESS
  | AHT20_FAILURE
  deriving DecidableEq, Repr

/-- The fields of `AHT20_user_data_t` that `AHT20_GetAllData` assigns.  The
structure is declared in `AHT20.h`; the two raw values are unsigned fields
whose width in bits is the parameter `w` of `AHT20_parse`. -/
structure AHT20_user_data_t where
  state : Nat
  raw_humidity : Nat
  raw_temperature : Nat
  crc : Nat
  deriving DecidableEq, Repr

/-- The parsing statements of `AHT20_GetAllData` on the buffer `cmd`, one
assignment per line of the source; `w` is the width of the raw fields, to
which every left shift is truncated. -/
def AHT20_parse (w : Nat) (cmd : Nat → Nat) : AHT20_user_data_t :=
  let h1 := cmd 1
  let h2 := (h1 <<< 8) % 2 ^ w
  let h3 := h2 ||| cmd 2
  let h4 := (h3 <<< 8) % 2 ^ w
  let h5 := h4 ||| (cmd 3 &&& 0b11110000)
  let h6 := h5 >>> 4
  let t1 := cmd 3 &&& 0b00001111
  let t2 := (t1 <<< 8) % 2 ^ w
  let t3 := t2 ||| cmd 4
  let t4 := (t3 <<< 8) % 2 ^ w
  let t5 := t4 ||| cmd 5
  { state := cmd 0, raw_humidity := h6, raw_temperature := t5, crc := cmd 6 }

/-- The function `AHT20_GetAllData`: a read of 7 bytes into a cleared buffer,
then the parse.  The result holds the status, the fields stored through
`myAllData` and the machine. -/
def AHT20_GetAllData (c : Consts) (w : Nat) (hw : Hw) (p : I2C_parameters_t) (s : Machine) :
    AHT20_status_t × AHT20_user_data_t × Machine :=
  let r := i2c_read c hw p (fun _ => 0) 7 s
  (if r.1 = i2c_status_t.I2C_SUCCESS then AHT20_status_t.AHT20_SUCCESS
   else AHT20_status_t.AHT20_FAILURE,
   AHT20_parse w r.2.1, r.2.2)

/-! ## Rounding: auxiliary facts -/

theorem roundEven_sub_le (x : ℚ) : (roundEven x : ℚ) - x ≤ 1 / 2 := by
  have h1 := Int.self_sub_floor x
  have h2 := Int.fract_nonneg x
  unfold roundEven
  split_ifs with a b c
  · linarith
  · push_cast; linarith
  · linarith
  · push_cast; linarith

theorem sub_roundEven_le (x : ℚ) : x - (roundEven x : ℚ) ≤ 1 / 2 := by
  have h1 := Int.self_sub_floor x
  have h2 := Int.fract_lt_one x
  unfold roundEven
  split_ifs with a b c
  · linarith
  · push_cast; linarith
  · linarith
  · push_cast; linarith

theorem roundEven_intCast (n : ℤ) : roundEven (n : ℚ) = n := by
  simp [roundEven]

theorem roundEven_mono {x y : ℚ} (h : x ≤ y) : roundEven x ≤ roundEven y := by
  by_contra hc
  push_neg at hc
  have h1 : (roundEven y : ℚ) + 1 ≤ roundEven x := by exact_mod_cast hc
  have h2 := roundEven_sub_le x
  have h3 := sub_roundEven_le y
  have hxy : x = y := by linarith
  rw [hxy] at hc
  exact lt_irrefl _ hc

theorem roundEven_add_half (n : ℤ) :
    roundEven ((n : ℚ) + 1 / 2) = if n % 2 = 0 then n else n + 1 := by
  have hfl : ⌊(n : ℚ) + 1 / 2⌋ = n := by
    rw [Int.floor_eq_iff]
    constructor <;> linarith
  have hfr : Int.fract ((n : ℚ) + 1 / 2) = 1 / 2 := by
    unfold Int.fract
    rw [hfl]
    ring
  unfold roundEven
  rw [hfr, hfl]
  simp

theorem ulp_pos (p : ℕ) (x : ℚ) : 0 < ulp p x := by
  unfold ulp; positivity

theorem fl_zero (p : ℕ) : fl p 0 = 0 := by simp [fl]

/-- A dyadic number whose significand fits in `p` bits is not changed by rounding. -/
theorem fl_dyadic (p : ℕ) (m k : ℤ) (hm : |m| < 2 ^ p) : fl p ((m : ℚ) * 2 ^ k) = (m : ℚ) * 2 ^ k := by
  by_cases hx : (m : ℚ) * 2 ^ k = 0
  · rw [hx, fl_zero]
  · have h2k : (0 : ℚ) < 2 ^ k := by positivity
    have hxpos : 0 < |(m : ℚ) * 2 ^ k| := abs_pos.mpr hx
    have hlo := Int.zpow_log_le_self (b := 2) (by norm_num) hxpos
    have hm' : |(m : ℚ)| < 2 ^ (p : ℤ) := by
      rw [zpow_natCast]; exact_mod_cast hm
    have hlt : ((2 : ℕ) : ℚ) ^ Int.log 2 |(m : ℚ) * 2 ^ k| < ((2 : ℕ) : ℚ) ^ ((p : ℤ) + k) := by
      refine lt_of_le_of_lt hlo ?_
      rw [abs_mul, abs_of_pos h2k, zpow_add₀ (by norm_num)]
      push_cast
      exact mul_lt_mul_of_pos_right hm' h2k
    have he : Int.log 2 |(m : ℚ) * 2 ^ k| < (p : ℤ) + k := by
      by_contra hc
      push_neg at hc
      have := zpow_le_zpow_right₀ (a := ((2 : ℕ) : ℚ)) (by norm_num) hc
      linarith
    obtain ⟨d, hd⟩ := Int.eq_ofNat_of_zero_le (a := k - (Int.log 2 |(m : ℚ) * 2 ^ k| - (p : ℤ) + 1)) (by omega)
    have hk : k = (d : ℤ) + (Int.log 2 |(m : ℚ) * 2 ^ k| - (p : ℤ) + 1) := by omega
    have hu : ulp p ((m : ℚ) * 2 ^ k) ≠ 0 := (ulp_pos _ _).ne'
    have hq : (m : ℚ) * 2 ^ k / ulp p ((m : ℚ) * 2 ^ k) = ((m * 2 ^ d : ℤ) : ℚ) := by
      rw [div_eq_iff hu]
      conv_lhs => rw [hk]
      rw [zpow_add₀ (by norm_num), zpow_natCast]
      unfold ulp
      push_cast
      ring
    unfold fl
    rw [if_neg hx, hq, roundEven_intCast, ← hq, div_mul_cancel₀ _ hu]

theorem fl_of_eq (p : ℕ) (m k : ℤ) {x : ℚ} (hx : x = (m : ℚ) * 2 ^ k) (h1 : -(2 ^ p) < m)
    (h2 : m < 2 ^ p) : fl p x = x := by
  rw [hx]
  exact fl_dyadic p m k (abs_lt.mpr ⟨h1, h2⟩)

theorem int_log_eq {x : ℚ} {e : ℤ} (h1 : (2 : ℚ) ^ e ≤ x) (h2 : x < 2 ^ (e + 1)) : Int.log 2 x = e := by
  have hx : 0 < x := lt_of_lt_of_le (by positivity) h1
  have a : e ≤ Int.log 2 x := by
    rw [← Int.zpow_le_iff_le_log (by norm_num) hx]
    exact_mod_cast h1
  have b : Int.log 2 x < e + 1 := by
    rw [← Int.lt_zpow_iff_log_lt (by norm_num) hx]
    exact_mod_cast h2
  omega
theorem fl_pos_eq (p : ℕ) {x : ℚ} (hx : 0 < x) :
    fl p x = (roundEven (x / 2 ^ (Int.log 2 x - (p : ℤ) + 1)) : ℚ) * 2 ^ (Int.log 2 x - (p : ℤ) + 1) := by
  unfold fl ulp
  rw [if_neg hx.ne', abs_of_pos hx]

theorem fl_le_binade (p : ℕ) {x : ℚ} (hx : 0 < x) : fl p x ≤ 2 ^ (Int.log 2 x + 1) := by
  rw [fl_pos_eq p hx]
  set u : ℚ := 2 ^ (Int.log 2 x - (p : ℤ) + 1) with hu
  have hupos : 0 < u := by positivity
  have hhi := Int.lt_zpow_succ_log_self (b := 2) (by norm_num) x
  have hsplit : (2 : ℚ) ^ (Int.log 2 x + 1) = ((2 ^ p : ℤ) : ℚ) * u := by
    rw [hu]
    push_cast
    rw [← zpow_natCast, ← zpow_add₀ (by norm_num)]
    congr 1
    ring
  have hq : x / u ≤ ((2 ^ p : ℤ) : ℚ) := by
    rw [div_le_iff₀ hupos, ← hsplit]
    have : (((2 : ℕ) : ℚ)) ^ (Int.log 2 x + 1) = (2 : ℚ) ^ (Int.log 2 x + 1) := by norm_num
    linarith
  have hr := roundEven_mono hq
  rw [roundEven_intCast] at hr
  rw [hsplit]
  have hr' : (roundEven (x / u) : ℚ) ≤ ((2 ^ p : ℤ) : ℚ) := by exact_mod_cast hr
  exact mul_le_mul_of_nonneg_right hr' hupos.le

theorem binade_le_fl (p : ℕ) (hp : 1 ≤ p) {x : ℚ} (hx : 0 < x) : 2 ^ (Int.log 2 x) ≤ fl p x := by
  rw [fl_pos_eq p hx]
  set u : ℚ := 2 ^ (Int.log 2 x - (p : ℤ) + 1) with hu
  have hupos : 0 < u := by positivity
  have hlo := Int.zpow_log_le_self (b := 2) (by norm_num) hx
  have hsplit : (2 : ℚ) ^ (Int.log 2 x) = ((2 ^ (p - 1) : ℤ) : ℚ) * u := by
    rw [hu]
    push_cast
    rw [← zpow_natCast, ← zpow_add₀ (by norm_num)]
    congr 1
    have : ((p - 1 : ℕ) : ℤ) = (p : ℤ) - 1 := by omega
    rw [this]
    ring
  have hq : ((2 ^ (p - 1) : ℤ) : ℚ) ≤ x / u := by
    rw [le_div_iff₀ hupos, ← hsplit]
    have : (((2 : ℕ) : ℚ)) ^ (Int.log 2 x) = (2 : ℚ) ^ (Int.log 2 x) := by norm_num
    linarith
  have hr := roundEven_mono hq
  rw [roundEven_intCast] at hr
  rw [hsplit]
  have hr' : ((2 ^ (p - 1) : ℤ) : ℚ) ≤ (roundEven (x / u) : ℚ) := by exact_mod_cast hr
  exact mul_le_mul_of_nonneg_right hr' hupos.le

theorem fl_mono_pos (p : ℕ) (hp : 1 ≤ p) {x y : ℚ} (hx : 0 < x) (hxy : x ≤ y) : fl p x ≤ fl p y := by
  have hy : 0 < y := lt_of_lt_of_le hx hxy
  have hle : Int.log 2 x ≤ Int.log 2 y := Int.log_mono_right hx hxy
  rcases hle.eq_or_lt with heq | hlt
  · rw [fl_pos_eq p hx, fl_pos_eq p hy, heq]
    have hupos : (0 : ℚ) < 2 ^ (Int.log 2 y - (p : ℤ) + 1) := by positivity
    have hq : x / 2 ^ (Int.log 2 y - (p : ℤ) + 1) ≤ y / 2 ^ (Int.log 2 y - (p : ℤ) + 1) :=
      div_le_div_of_nonneg_right hxy hupos.le
    have hr : (roundEven (x / 2 ^ (Int.log 2 y - (p : ℤ) + 1)) : ℚ)
        ≤ (roundEven (y / 2 ^ (Int.log 2 y - (p : ℤ) + 1)) : ℚ) := by
      exact_mod_cast roundEven_mono hq
    exact mul_le_mul_of_nonneg_right hr hupos.le
  · have h1 := fl_le_binade p hx
    have h2 := binade_le_fl p hp hy
    have h3 : (2 : ℚ) ^ (Int.log 2 x + 1) ≤ 2 ^ (Int.log 2 y) :=
      zpow_le_zpow_right₀ (by norm_num) (by omega)
    linarith

/-- Rounding is monotone on the non-negative numbers. -/
theorem fl_mono (p : ℕ) (hp : 1 ≤ p) {x y : ℚ} (hx : 0 ≤ x) (hxy : x ≤ y) : fl p x ≤ fl p y := by
  rcases hx.eq_or_lt with h0 | hpos
  · rw [← h0, fl_zero]
    rcases (le_trans hx hxy).eq_or_lt with hy0 | hypos
    · rw [← hy0, fl_zero]
    · have h2 := binade_le_fl p hp hypos
      have h3 : (0 : ℚ) < 2 ^ (Int.log 2 y) := by positivity
      linarith
  · exact fl_mono_pos p hp hpos hxy

/-- Rounding keeps a value between two representable bounds. -/
theorem fl_between (p : ℕ) (hp : 1 ≤ p) {lo hi x : ℚ} (hlo : fl p lo = lo) (hhi : fl p hi = hi)
    (h0 : 0 ≤ lo) (h1 : lo ≤ x) (h2 : x ≤ hi) : lo ≤ fl p x ∧ fl p x ≤ hi := by
  constructor
  · rw [← hlo]; exact fl_mono p hp h0 h1
  · rw [← hhi]; exact fl_mono p hp (le_trans h0 h1) h2

theorem toUInt8_of_mem {r : ℚ} {n : ℕ} (hn : n ≤ 255) (h1 : (n : ℚ) ≤ r) (h2 : r < (n : ℚ) + 1) :
    toUInt8 r = some n := by
  have h0 : (0 : ℚ) ≤ r := le_trans (Nat.cast_nonneg n) h1
  have hn' : (n : ℚ) ≤ 255 := by exact_mod_cast hn
  have hfl : ⌊r⌋ = (n : ℤ) := by
    rw [Int.floor_eq_iff]
    constructor
    · exact_mod_cast h1
    · exact_mod_cast h2
  unfold toUInt8
  rw [if_pos ⟨by linarith, by linarith⟩, if_pos h0, hfl]
  simp

theorem toUInt8_le {r : ℚ} {h : ℕ} (hr : toUInt8 r = some h) : h ≤ 255 := by
  unfold toUInt8 at hr
  split_ifs at hr with a b
  · have e : ⌊r⌋.toNat = h := by simpa using hr
    have hlt : ⌊r⌋ < 256 := by
      rw [Int.floor_lt]
      exact_mod_cast a.2
    omega
  · have e : 0 = h := by simpa using hr
    omega

/-- Bounds on the exact quotient that are representable at every stage
carry through the four roundings of the divider computation. -/
theorem i2cHighOf_bounds (pclk freq : ℕ) (hf : freq ≠ 0) (a b A B : ℚ)
    (ha0 : 0 ≤ a) (ha : fl 53 a = a) (hb : fl 53 b = b)
    (ha2 : fl 53 (a + 1 / 2) = a + 1 / 2) (hb2 : fl 53 (b + 1 / 2) = b + 1 / 2)
    (hA : fl 24 (a + 1 / 2) = A) (hB : fl 24 (b + 1 / 2) = B)
    (hA2 : fl 53 (A - 2) = A - 2) (hB2 : fl 53 (B - 2) = B - 2) (hA0 : 0 ≤ A - 2)
    (h1 : a ≤ (pclk : ℚ) / (2 * (freq : ℚ))) (h2 : (pclk : ℚ) / (2 * (freq : ℚ)) ≤ b) :
    ∃ r : ℚ, A - 2 ≤ r ∧ r ≤ B - 2 ∧ i2cHighOf pclk freq = toUInt8 r := by
  obtain ⟨d1, d2⟩ := fl_between 53 (by norm_num) ha hb ha0 h1 h2
  obtain ⟨s1, s2⟩ := fl_between 53 (by norm_num) ha2 hb2 (by linarith)
    (show a + 1 / 2 ≤ fl 53 ((pclk : ℚ) / (2 * (freq : ℚ))) + 1 / 2 by linarith)
    (show fl 53 ((pclk : ℚ) / (2 * (freq : ℚ))) + 1 / 2 ≤ b + 1 / 2 by linarith)
  have f1 : A ≤ fl 24 (fl 53 (fl 53 ((pclk : ℚ) / (2 * (freq : ℚ))) + 1 / 2)) := by
    rw [← hA]; exact fl_mono 24 (by norm_num) (by linarith) s1
  have f2 : fl 24 (fl 53 (fl 53 ((pclk : ℚ) / (2 * (freq : ℚ))) + 1 / 2)) ≤ B := by
    rw [← hB]; exact fl_mono 24 (by norm_num) (by linarith) s2
  obtain ⟨r1, r2⟩ := fl_between 53 (by norm_num) hA2 hB2 hA0
    (show A - 2 ≤ fl 24 (fl 53 (fl 53 ((pclk : ℚ) / (2 * (freq : ℚ))) + 1 / 2)) - 2 by linarith)
    (show fl 24 (fl 53 (fl 53 ((pclk : ℚ) / (2 * (freq : ℚ))) + 1 / 2)) - 2 ≤ B - 2 by linarith)
  refine ⟨_, r1, r2, ?_⟩
  unfold i2cHighOf
  rw [if_neg hf]

theorem i2cHighOf_between (pclk freq : ℕ) (hf : freq ≠ 0) (a b A B : ℚ) (n : ℕ)
    (ha0 : 0 ≤ a) (ha : fl 53 a = a) (hb : fl 53 b = b)
    (ha2 : fl 53 (a + 1 / 2) = a + 1 / 2) (hb2 : fl 53 (b + 1 / 2) = b + 1 / 2)
    (hA : fl 24 (a + 1 / 2) = A) (hB : fl 24 (b + 1 / 2) = B)
    (hA2 : fl 53 (A - 2) = A - 2) (hB2 : fl 53 (B - 2) = B - 2)
    (h1 : a ≤ (pclk : ℚ) / (2 * (freq : ℚ))) (h2 : (pclk : ℚ) / (2 * (freq : ℚ)) ≤ b)
    (hn : n ≤ 255) (hnA : (n : ℚ) ≤ A - 2) (hnB : B - 2 < (n : ℚ) + 1) :
    i2cHighOf pclk freq = some n := by
  obtain ⟨r, r1, r2, hr⟩ := i2cHighOf_bounds pclk freq hf a b A B ha0 ha hb ha2 hb2 hA hB hA2 hB2
    (le_trans (Nat.cast_nonneg n) hnA) h1 h2
  rw [hr]
  exact toUInt8_of_mem hn (le_trans hnA r1) (lt_of_le_of_lt r2 hnB)

theorem i2cHighOf_le (pclk freq h : ℕ) (hh : i2cHighOf pclk freq = some h) : h ≤ 255 := by
  unfold i2cHighOf at hh
  split_ifs at hh with a
  exact toUInt8_le hh

/-- The tie `32 - 2 ^ (-20)` between two consecutive `float` values rounds to the even one. -/
theorem fl24_tie_32 : fl 24 (32 - 1 / 2 ^ 20) = 32 := by
  have hx : (0 : ℚ) < 32 - 1 / 2 ^ 20 := by norm_num
  have hl : Int.log 2 ((32 : ℚ) - 1 / 2 ^ 20) = 4 := int_log_eq (by norm_num) (by norm_num)
  rw [fl_pos_eq 24 hx, hl]
  have hq : ((32 : ℚ) - 1 / 2 ^ 20) / 2 ^ ((4 : ℤ) - ((24 : ℕ) : ℤ) + 1) = ((16777215 : ℤ) : ℚ) + 1 / 2 := by
    norm_num
  rw [hq, roundEven_add_half]
  norm_num

theorem i2cHighOf_26M_3250k : i2cHighOf 26000000 3250000 = some 2 := by
  refine i2cHighOf_between 26000000 3250000 (by norm_num) 4 4 (4 + 1 / 2) (4 + 1 / 2) 2 (by norm_num)
    (fl_of_eq 53 4 0 (by norm_num) (by norm_num) (by norm_num))
    (fl_of_eq 53 4 0 (by norm_num) (by norm_num) (by norm_num))
    (fl_of_eq 53 9 (-1) (by norm_num) (by norm_num) (by norm_num))
    (fl_of_eq 53 9 (-1) (by norm_num) (by norm_num) (by norm_num))
    (fl_of_eq 24 9 (-1) (by norm_num) (by norm_num) (by norm_num))
    (fl_of_eq 24 9 (-1) (by norm_num) (by norm_num) (by norm_num))
    (fl_of_eq 53 5 (-1) (by norm_num) (by norm_num) (by norm_num))
    (fl_of_eq 53 5 (-1) (by norm_num) (by norm_num) (by norm_num))
    (by norm_num) (by norm_num) (by norm_num) (by norm_num) (by norm_num)

theorem i2cHighOf_26M_400k : i2cHighOf 26000000 400000 = some 31 := by
  refine i2cHighOf_between 26000000 400000 (by norm_num) (65 / 2) (65 / 2) (65 / 2 + 1 / 2) (65 / 2 + 1 / 2)
    31 (by norm_num)
    (fl_of_eq 53 65 (-1) (by norm_num) (by norm_num) (by norm_num))
    (fl_of_eq 53 65 (-1) (by norm_num) (by norm_num) (by norm_num))
    (fl_of_eq 53 33 0 (by norm_num) (by norm_num) (by norm_num))
    (fl_of_eq 53 33 0 (by norm_num) (by norm_num) (by norm_num))
    (fl_of_eq 24 33 0 (by norm_num) (by norm_num) (by norm_num))
    (fl_of_eq 24 33 0 (by norm_num) (by norm_num) (by norm_num))
    (fl_of_eq 53 31 0 (by norm_num) (by norm_num) (by norm_num))
    (fl_of_eq 53 31 0 (by norm_num) (by norm_num) (by norm_num))
    (by norm_num) (by norm_num) (by norm_num) (by norm_num) (by norm_num)

theorem i2cHighOf_26M_50584 : i2cHighOf 26000000 50584 = some 255 := by
  refine i2cHighOf_between 26000000 50584 (by norm_num) (513 / 2) 257 (513 / 2 + 1 / 2) (257 + 1 / 2)
    255 (by norm_num)
    (fl_of_eq 53 513 (-1) (by norm_num) (by norm_num) (by norm_num))
    (fl_of_eq 53 257 0 (by norm_num) (by norm_num) (by norm_num))
    (fl_of_eq 53 257 0 (by norm_num) (by norm_num) (by norm_num))
    (fl_of_eq 53 515 (-1) (by norm_num) (by norm_num) (by norm_num))
    (fl_of_eq 24 257 0 (by norm_num) (by norm_num) (by norm_num))
    (fl_of_eq 24 515 (-1) (by norm_num) (by norm_num) (by norm_num))
    (fl_of_eq 53 255 0 (by norm_num) (by norm_num) (by norm_num))
    (fl_of_eq 53 511 (-1) (by norm_num) (by norm_num) (by norm_num))
    (by norm_num) (by norm_num) (by norm_num) (by norm_num) (by norm_num)

theorem i2cHighOf_63M_1M : i2cHighOf 62999999 1000000 = some 30 := by
  refine i2cHighOf_between 62999999 1000000 (by norm_num) (63 / 2 - 1 / 2 ^ 20) (63 / 2) 32 32
    30 (by norm_num)
    (fl_of_eq 53 (63 * 2 ^ 19 - 1) (-20) (by norm_num) (by norm_num) (by norm_num))
    (fl_of_eq 53 63 (-1) (by norm_num) (by norm_num) (by norm_num))
    (fl_of_eq 53 (2 ^ 25 - 1) (-20) (by norm_num) (by norm_num) (by norm_num))
    (fl_of_eq 53 32 0 (by norm_num) (by norm_num) (by norm_num))
    ?_ ?_
    (fl_of_eq 53 30 0 (by norm_num) (by norm_num) (by norm_num))
    (fl_of_eq 53 30 0 (by norm_num) (by norm_num) (by norm_num))
    (by norm_num) (by norm_num) (by norm_num) (by norm_num) (by norm_num)
  · have e : (63 : ℚ) / 2 - 1 / 2 ^ 20 + 1 / 2 = 32 - 1 / 2 ^ 20 := by norm_num
    rw [e]
    exact fl24_tie_32
  · have e : (63 : ℚ) / 2 + 1 / 2 = 32 := by norm_num
    rw [e]
    exact fl_of_eq 24 32 0 (by norm_num) (by norm_num) (by norm_num)


/-- When the exact sum `q + 1 / 2` stays `2 ^ (-15)` below the next integer,
the four roundings do not change its integral part. -/
theorem i2cHighOf_of_gap (pclk freq m : ℕ) (hf : freq ≠ 0) (hm : m ≤ 255)
    (h1 : (m : ℚ) + 3 / 2 ≤ (pclk : ℚ) / (2 * (freq : ℚ)))
    (h2 : (pclk : ℚ) / (2 * (freq : ℚ)) ≤ (m : ℚ) + 5 / 2 - 1 / 2 ^ 15) :
    i2cHighOf pclk freq = some m := by
  have hmz : (m : ℤ) ≤ 255 := by exact_mod_cast hm
  have hm0 : (0 : ℤ) ≤ (m : ℤ) := Int.natCast_nonneg m
  have hmq : (0 : ℚ) ≤ (m : ℚ) := Nat.cast_nonneg m
  refine i2cHighOf_between pclk freq hf ((m : ℚ) + 3 / 2) ((m : ℚ) + 5 / 2 - 1 / 2 ^ 15)
    ((m : ℚ) + 3 / 2 + 1 / 2) ((m : ℚ) + 5 / 2 - 1 / 2 ^ 15 + 1 / 2) m (by linarith)
    (fl_of_eq 53 (2 * (m : ℤ) + 3) (-1) ?_ (by norm_num; omega) (by norm_num; omega))
    (fl_of_eq 53 ((2 * (m : ℤ) + 5) * 2 ^ 14 - 1) (-15) ?_ (by norm_num; omega) (by norm_num; omega))
    (fl_of_eq 53 ((m : ℤ) + 2) 0 ?_ (by norm_num; omega) (by norm_num; omega))
    (fl_of_eq 53 (((m : ℤ) + 3) * 2 ^ 15 - 1) (-15) ?_ (by norm_num; omega) (by norm_num; omega))
    (fl_of_eq 24 ((m : ℤ) + 2) 0 ?_ (by norm_num; omega) (by norm_num; omega))
    (fl_of_eq 24 (((m : ℤ) + 3) * 2 ^ 15 - 1) (-15) ?_ (by norm_num; omega) (by norm_num; omega))
    (fl_of_eq 53 (m : ℤ) 0 ?_ (by norm_num; omega) (by norm_num; omega))
    (fl_of_eq 53 (((m : ℤ) + 1) * 2 ^ 15 - 1) (-15) ?_ (by norm_num; omega) (by norm_num; omega))
    h1 h2 hm (by linarith) (by norm_num; linarith)
  all_goals (push_cast; norm_num; ring)

theorem toUInt8_floor {r : ℚ} {h : ℕ} (hr : toUInt8 r = some h) (h0 : 0 ≤ r) : (h : ℤ) = ⌊r⌋ := by
  unfold toUInt8 at hr
  split_ifs at hr with a
  have e : ⌊r⌋.toNat = h := by simpa using hr
  have hfl : 0 ≤ ⌊r⌋ := Int.floor_nonneg.mpr h0
  omega

/-- Without a gap below the next integer the roundings can only carry the
sum up to that integer. -/
theorem i2cHighOf_cases (pclk freq m h : ℕ) (hf : freq ≠ 0) (hm : m ≤ 255)
    (h1 : (m : ℚ) + 3 / 2 ≤ (pclk : ℚ) / (2 * (freq : ℚ)))
    (h2 : (pclk : ℚ) / (2 * (freq : ℚ)) ≤ (m : ℚ) + 5 / 2)
    (hh : i2cHighOf pclk freq = some h) : h = m ∨ h = m + 1 := by
  have hmz : (m : ℤ) ≤ 255 := by exact_mod_cast hm
  have hm0 : (0 : ℤ) ≤ (m : ℤ) := Int.natCast_nonneg m
  have hmq : (0 : ℚ) ≤ (m : ℚ) := Nat.cast_nonneg m
  obtain ⟨r, r1, r2, hr⟩ := i2cHighOf_bounds pclk freq hf ((m : ℚ) + 3 / 2) ((m : ℚ) + 5 / 2)
    ((m : ℚ) + 3 / 2 + 1 / 2) ((m : ℚ) + 5 / 2 + 1 / 2) (by linarith)
    (fl_of_eq 53 (2 * (m : ℤ) + 3) (-1) (by push_cast; norm_num; ring) (by norm_num; omega)
      (by norm_num; omega))
    (fl_of_eq 53 (2 * (m : ℤ) + 5) (-1) (by push_cast; norm_num; ring) (by norm_num; omega)
      (by norm_num; omega))
    (fl_of_eq 53 ((m : ℤ) + 2) 0 (by push_cast; norm_num; ring) (by norm_num; omega)
      (by norm_num; omega))
    (fl_of_eq 53 ((m : ℤ) + 3) 0 (by push_cast; norm_num; ring) (by norm_num; omega)
      (by norm_num; omega))
    (fl_of_eq 24 ((m : ℤ) + 2) 0 (by push_cast; norm_num; ring) (by norm_num; omega)
      (by norm_num; omega))
    (fl_of_eq 24 ((m : ℤ) + 3) 0 (by push_cast; norm_num; ring) (by norm_num; omega)
      (by norm_num; omega))
    (fl_of_eq 53 (m : ℤ) 0 (by push_cast; norm_num; ring) (by norm_num; omega) (by norm_num; omega))
    (fl_of_eq 53 ((m : ℤ) + 1) 0 (by push_cast; norm_num; ring) (by norm_num; omega)
      (by norm_num; omega))
    (by linarith) h1 h2
  rw [hr] at hh
  have hr0 : (0 : ℚ) ≤ r := by linarith
  have e := toUInt8_floor hh hr0
  have l1 : (m : ℤ) ≤ ⌊r⌋ := by
    rw [Int.le_floor]
    push_cast
    linarith
  have l2 : ⌊r⌋ ≤ (m : ℤ) + 1 := by
    have := Int.floor_le r
    have h3 : ((⌊r⌋ : ℤ) : ℚ) ≤ (((m : ℤ) + 1 : ℤ) : ℚ) := by
      push_cast
      linarith
    exact_mod_cast h3
  omega

/-- The unbounded wait of `i2c_init` ends as soon as one of the first `fuel`
reads of the status register shows the transaction-complete bit clear; it
touches nothing but the read counter and the log. -/
theorem waitTCOMP_some (c : Consts) (hw : Hw) (fuel : ℕ) (s : Machine)
    (h : ∃ k, k < fuel ∧ bitIs (hw.MSTAT (s.nMSTAT + k)) c.BITP_I2C_MSTAT_TCOMP = false) :
    ∃ s1, waitTCOMP c hw fuel s = some s1 ∧ s1.i2c = s.i2c ∧ s1.gpCFG = s.gpCFG ∧
      s1.gpDS = s.gpDS ∧ s1.nMRX = s.nMRX := by
  induction fuel generalizing s with
  | zero =>
    obtain ⟨k, hk, _⟩ := h
    omega
  | succ n ih =>
    obtain ⟨k, hk, hb⟩ := h
    unfold waitTCOMP
    by_cases hc : bitIs (rdMSTAT hw c.BITP_I2C_MSTAT_TCOMP s).1 c.BITP_I2C_MSTAT_TCOMP = true
    · rw [if_pos hc]
      have hk0 : k ≠ 0 := by
        rintro rfl
        simp [rdMSTAT] at hc
        simp [hc] at hb
      obtain ⟨s1, e1, e2, e3, e4, e5⟩ := ih (rdMSTAT hw c.BITP_I2C_MSTAT_TCOMP s).2
        ⟨k - 1, by omega, by
          have : (rdMSTAT hw c.BITP_I2C_MSTAT_TCOMP s).2.nMSTAT + (k - 1) = s.nMSTAT + k := by
            simp [rdMSTAT]; omega
          rw [this]; exact hb⟩
      exact ⟨s1, e1, e2, e3, e4, e5⟩
    · rw [if_neg hc]
      exact ⟨_, rfl, rfl, rfl, rfl, rfl⟩


/-! ## Bus configuration: the claims -/

/-- C1: whenever the pre-disable wait ends and the divider computation yields
a pair (high, low), `i2c_init` returns SiliconAnomaly exactly when
high + low ≤ 15, otherwise WrongFrequency exactly when high = 0 or low = 0,
and otherwise Success. -/
theorem i2c_init_status (c : Consts) (hw : Hw) (fuel : ℕ) (p : I2C_parameters_t) (s : Machine)
    (i2cHigh : ℕ)
    (hwait : ∃ k, k < fuel ∧ bitIs (hw.MSTAT (s.nMSTAT + k)) c.BITP_I2C_MSTAT_TCOMP = false)
    (hh : i2cHighOf p.pclkFrequency p.freq = some i2cHigh) :
    (i2c_init c hw fuel p s).map Prod.fst =
      Except.ok
        (if i2cHigh + i2cLowOf i2cHigh ≤ 15 then i2c_status_t.I2C_SILICON_ANOMALY_21000011
         else if i2cHigh = 0 ∨ i2cLowOf i2cHigh = 0 then i2c_status_t.I2C_WRONG_FREQUENCY
         else i2c_status_t.I2C_SUCCESS) := by
  obtain ⟨s1, e1, -⟩ := waitTCOMP_some c hw fuel (pinSetup p s) hwait
  unfold i2c_init
  rw [e1, hh]
  unfold initDividers
  by_cases h15 : i2cHigh + i2cLowOf i2cHigh ≤ 15
  · have n15 : ¬ (i2cHigh + i2cLowOf i2cHigh > 15) := by omega
    simp only [if_neg n15, if_pos h15, Except.map]
  · have p15 : i2cHigh + i2cLowOf i2cHigh > 15 := by omega
    by_cases h0 : i2cHigh = 0 ∨ i2cLowOf i2cHigh = 0
    · have n0 : ¬ (i2cHigh > 0 ∧ i2cLowOf i2cHigh > 0) := by omega
      simp only [if_pos p15, if_neg h15, if_neg n0, if_pos h0, Except.map]
    · have p0 : i2cHigh > 0 ∧ i2cLowOf i2cHigh > 0 := by omega
      simp only [if_pos p15, if_neg h15, if_pos p0, if_neg h0, Except.map]

/-- C1, witness: for pclk = 26,000,000 and freq = 3,250,000 the pair is
high = 2, low = 3, of sum 5, and the call returns SiliconAnomaly. -/
theorem i2c_init_status_witness :
    i2cHighOf 26000000 3250000 = some 2 ∧ i2cLowOf 2 = 3 ∧
    (i2c_init (devConsts 3) (hwConst 0) 1 (paramsOf 26000000 3250000) machine0).map Prod.fst =
      Except.ok i2c_status_t.I2C_SILICON_ANOMALY_21000011 :=
  ⟨i2cHighOf_26M_3250k, rfl,
   i2c_init_status (devConsts 3) (hwConst 0) 1 (paramsOf 26000000 3250000) machine0 2
     ⟨0, by decide, by decide⟩ i2cHighOf_26M_3250k⟩


/-- C2 (as amended): for freq > 0 and a quotient q = pclk / (2 * freq) with
2 ≤ q + 1/2 < 258, the high count equals floor(q + 1/2) - 2 whenever q + 1/2
lies at least 2^(-15) below the next integer; in every case a computed high
count is floor(q + 1/2) - 2 or one more (the roundings to `double` and to
`float` can carry the sum up to the next integer, never further). -/
theorem i2cHigh_vs_specHigh (pclk freq : ℕ) (hf : 0 < freq)
    (h2 : 2 ≤ (pclk : ℚ) / (2 * (freq : ℚ)) + 1 / 2)
    (h258 : (pclk : ℚ) / (2 * (freq : ℚ)) + 1 / 2 < 258) :
    ((pclk : ℚ) / (2 * (freq : ℚ)) + 1 / 2
        ≤ (⌊(pclk : ℚ) / (2 * (freq : ℚ)) + 1 / 2⌋ : ℚ) + 1 - 1 / 2 ^ 15 →
      i2cHighOf pclk freq = some (specHigh pclk freq).toNat) ∧
    (∀ h : ℕ, i2cHighOf pclk freq = some h →
      (h : ℤ) = specHigh pclk freq ∨ (h : ℤ) = specHigh pclk freq + 1) := by
  have hf0 : freq ≠ 0 := by omega
  have hn2 : (2 : ℤ) ≤ ⌊(pclk : ℚ) / (2 * (freq : ℚ)) + 1 / 2⌋ := by
    rw [Int.le_floor]
    exact_mod_cast h2
  have hn258 : ⌊(pclk : ℚ) / (2 * (freq : ℚ)) + 1 / 2⌋ < 258 := by
    rw [Int.floor_lt]
    exact_mod_cast h258
  have hle := Int.floor_le ((pclk : ℚ) / (2 * (freq : ℚ)) + 1 / 2)
  have hlt := Int.lt_floor_add_one ((pclk : ℚ) / (2 * (freq : ℚ)) + 1 / 2)
  obtain ⟨m, hm⟩ := Int.eq_ofNat_of_zero_le (a := specHigh pclk freq) (by unfold specHigh; omega)
  have hm255 : m ≤ 255 := by
    unfold specHigh at hm
    omega
  have hmq : (m : ℚ) = (⌊(pclk : ℚ) / (2 * (freq : ℚ)) + 1 / 2⌋ : ℚ) - 2 := by
    unfold specHigh at hm
    have : ((m : ℤ) : ℚ) = ((⌊(pclk : ℚ) / (2 * (freq : ℚ)) + 1 / 2⌋ - 2 : ℤ) : ℚ) := by rw [← hm]
    push_cast at this
    exact this
  constructor
  · intro hgap
    rw [hm, Int.toNat_ofNat]
    exact i2cHighOf_of_gap pclk freq m hf0 hm255 (by linarith) (by linarith)
  · intro h hh
    rw [hm]
    rcases i2cHighOf_cases pclk freq m h hf0 hm255 (by linarith) (by linarith) hh with e | e
    · left; exact_mod_cast e
    · right; exact_mod_cast e

/-- C2, witness: pclk = 26,000,000 and freq = 400,000 (q + 1/2 = 33). -/
theorem i2cHigh_vs_specHigh_witness :
    ((26000000 : ℕ) : ℚ) / (2 * ((400000 : ℕ) : ℚ)) + 1 / 2 = 33 ∧
    i2cHighOf 26000000 400000 = some (specHigh 26000000 400000).toNat :=
  ⟨by norm_num,
   (i2cHigh_vs_specHigh 26000000 400000 (by norm_num) (by norm_num) (by norm_num)).1 (by
      have e : ((26000000 : ℕ) : ℚ) / (2 * ((400000 : ℕ) : ℚ)) + 1 / 2 = ((33 : ℤ) : ℚ) := by
        norm_num
      rw [e, Int.floor_intCast]
      norm_num)⟩

/-- C2, counterexample: for pclk = 62,999,999 and freq = 1,000,000 the sum
q + 1/2 = 31.9999995 lies in [2, 258) and floor(q + 1/2) - 2 = 29, but the
cast to `float` rounds the sum to 32 and the computed high count is 30. -/
theorem i2cHigh_vs_specHigh_counterexample :
    (2 : ℚ) ≤ ((62999999 : ℕ) : ℚ) / (2 * ((1000000 : ℕ) : ℚ)) + 1 / 2 ∧
    ((62999999 : ℕ) : ℚ) / (2 * ((1000000 : ℕ) : ℚ)) + 1 / 2 < 258 ∧
    specHigh 62999999 1000000 = 29 ∧
    i2cHighOf 62999999 1000000 = some 30 := by
  refine ⟨by norm_num, by norm_num, ?_, i2cHighOf_63M_1M⟩
  have hfl : ⌊((62999999 : ℕ) : ℚ) / (2 * ((1000000 : ℕ) : ℚ)) + 1 / 2⌋ = 31 := by
    rw [Int.floor_eq_iff]
    constructor <;> norm_num
  unfold specHigh
  rw [hfl]
  norm_num


/-- C3 (as amended): every computed divider pair has a high count of at most
255 and a low count equal to (high + 1) mod 256, the sum being stored in an
8-bit variable: low = high + 1 for a high count up to 254 and low = 0 for a
high count of 255. -/
theorem i2cLow_of_i2cHigh (pclk freq i2cHigh : ℕ) (hh : i2cHighOf pclk freq = some i2cHigh) :
    i2cHigh ≤ 255 ∧ (i2cHigh ≤ 254 → i2cLowOf i2cHigh = i2cHigh + 1) ∧
    (i2cHigh = 255 → i2cLowOf i2cHigh = 0) := by
  have h255 := i2cHighOf_le pclk freq i2cHigh hh
  unfold i2cLowOf
  refine ⟨h255, fun h => ?_, fun h => ?_⟩ <;> omega

/-- C3, witness: pclk = 26,000,000 and freq = 3,250,000 give high = 2, low = 3. -/
theorem i2cLow_of_i2cHigh_witness :
    i2cHighOf 26000000 3250000 = some 2 ∧ i2cLowOf 2 = 2 + 1 :=
  ⟨i2cHighOf_26M_3250k,
   (i2cLow_of_i2cHigh 26000000 3250000 2 i2cHighOf_26M_3250k).2.1 (by decide)⟩

/-- C3, counterexample: pclk = 26,000,000 and freq = 50,584 give high = 255
and low = 0, not 256. -/
theorem i2cLow_of_i2cHigh_counterexample :
    i2cHighOf 26000000 50584 = some 255 ∧ i2cLowOf 255 = 0 ∧ i2cLowOf 255 ≠ 255 + 1 :=
  ⟨i2cHighOf_26M_50584, by decide, by decide⟩

/-- C4 (as amended): for pclk = 26,000,000 and freq = 400,000, `i2c_init`
computes high = 31 and low = 32 (sum 63 > 15), stores the two counts into
the divider register and returns Success. -/
theorem i2c_init_26M_400k (c : Consts) (hw : Hw) (fuel : ℕ) (p : I2C_parameters_t) (s : Machine)
    (hwait : ∃ k, k < fuel ∧ bitIs (hw.MSTAT (s.nMSTAT + k)) c.BITP_I2C_MSTAT_TCOMP = false)
    (hp : p.pclkFrequency = 26000000) (hq : p.freq = 400000) :
    i2cHighOf p.pclkFrequency p.freq = some 31 ∧ i2cLowOf 31 = 32 ∧
    ∃ s1, i2c_init c hw fuel p s = Except.ok (i2c_status_t.I2C_SUCCESS, s1) ∧
      s1.i2c.DIV = toReg c (((31 <<< c.BITP_I2C_DIV_HIGH) ||| (32 <<< c.BITP_I2C_DIV_LOW)) % 2 ^ 16) := by
  have hh : i2cHighOf p.pclkFrequency p.freq = some 31 := by
    rw [hp, hq]
    exact i2cHighOf_26M_400k
  obtain ⟨s1, e1, -⟩ := waitTCOMP_some c hw fuel (pinSetup p s) hwait
  refine ⟨hh, rfl, ?_⟩
  unfold i2c_init
  rw [e1, hh]
  exact ⟨_, rfl, rfl⟩

/-- C4, witness: the device constants, an idle status register, cleared registers. -/
theorem i2c_init_26M_400k_witness :
    ∃ s1, i2c_init (devConsts 3) (hwConst 0) 1 (paramsOf 26000000 400000) machine0 =
        Except.ok (i2c_status_t.I2C_SUCCESS, s1) ∧
      s1.i2c.DIV = 31 * 256 + 32 :=
  (i2c_init_26M_400k (devConsts 3) (hwConst 0) 1 (paramsOf 26000000 400000) machine0
    ⟨0, by decide, by decide⟩ rfl rfl).2.2

/-- C4, counterexample: for pclk = 26,000,000 and freq = 400,000 the computed
pair is (31, 32), not (30, 31): the quotient is 32.5 and the sum 33. -/
theorem i2c_init_26M_400k_counterexample :
    i2cHighOf 26000000 400000 = some 31 ∧ i2cHighOf 26000000 400000 ≠ some 30 ∧
    i2cLowOf 31 = 32 := by
  refine ⟨i2cHighOf_26M_400k, ?_, rfl⟩
  rw [i2cHighOf_26M_400k]
  decide


/-! ## Bounded waits and transfer loops: auxiliary facts -/

theorem mtxWrites_append (a b : List Event) : mtxWrites (a ++ b) = mtxWrites a ++ mtxWrites b := by
  simp [mtxWrites, List.filterMap_append]

theorem mrxReads_append (a b : List Event) : mrxReads (a ++ b) = mrxReads a ++ mrxReads b := by
  simp [mrxReads, List.filterMap_append]

/-- A bounded wait changes the read counter of the status register and the
log, where it adds polls only. -/
theorem pollWhile_frame (hw : Hw) (bit : ℕ) (spin : Bool) (t : ℕ) (s : Machine) :
    (pollWhile hw bit spin t s).2.i2c = s.i2c ∧
    (pollWhile hw bit spin t s).2.nMRX = s.nMRX ∧
    (pollWhile hw bit spin t s).2.gpCFG = s.gpCFG ∧
    (pollWhile hw bit spin t s).2.gpDS = s.gpDS ∧
    (pollWhile hw bit spin t s).1 ≤ t ∧
    s.nMSTAT < (pollWhile hw bit spin t s).2.nMSTAT ∧
    (pollWhile hw bit spin t s).2.nMSTAT ≤ s.nMSTAT + t + 1 ∧
    ∃ vs : List ℕ, (pollWhile hw bit spin t s).2.trace = s.trace ++ vs.map (Event.poll bit) := by
  induction t generalizing s with
  | zero =>
    refine ⟨rfl, rfl, rfl, rfl, le_refl _, ?_, ?_, [hw.MSTAT s.nMSTAT], rfl⟩ <;>
      simp [pollWhile, rdMSTAT]
  | succ t ih =>
    unfold pollWhile
    by_cases hc : bitIs (rdMSTAT hw bit s).1 bit = spin
    · rw [if_pos hc]
      obtain ⟨e1, e2, e3, e4, e5, e6, e7, vs, e8⟩ := ih (rdMSTAT hw bit s).2
      have hn : (rdMSTAT hw bit s).2.nMSTAT = s.nMSTAT + 1 := rfl
      refine ⟨e1, e2, e3, e4, by omega, by omega, by omega, hw.MSTAT s.nMSTAT :: vs, ?_⟩
      rw [e8]
      simp [rdMSTAT]
    · rw [if_neg hc]
      refine ⟨rfl, rfl, rfl, rfl, le_refl _, ?_, ?_, [hw.MSTAT s.nMSTAT], rfl⟩ <;>
        simp [rdMSTAT]

/-- A wait whose bit never shows the awaited state ends with the countdown at zero. -/
theorem pollWhile_exhaust (hw : Hw) (bit : ℕ) (spin : Bool) (t : ℕ) (s : Machine)
    (h : ∀ k, bitIs (hw.MSTAT k) bit = spin) : (pollWhile hw bit spin t s).1 = 0 := by
  induction t generalizing s with
  | zero => rfl
  | succ t ih =>
    unfold pollWhile
    have hc : bitIs (rdMSTAT hw bit s).1 bit = spin := h _
    rw [if_pos hc]
    exact ih _

theorem pollWhile_mtxWrites (hw : Hw) (bit : ℕ) (spin : Bool) (t : ℕ) (s : Machine) :
    mtxWrites (pollWhile hw bit spin t s).2.trace = mtxWrites s.trace := by
  obtain ⟨-, -, -, -, -, -, -, vs, e⟩ := pollWhile_frame hw bit spin t s
  rw [e, mtxWrites_append]
  have : mtxWrites (vs.map (Event.poll bit)) = [] := by
    induction vs with
    | nil => rfl
    | cons v vs ih => simp [mtxWrites]
  rw [this, List.append_nil]

theorem pollWhile_mrxReads (hw : Hw) (bit : ℕ) (spin : Bool) (t : ℕ) (s : Machine) :
    mrxReads (pollWhile hw bit spin t s).2.trace = mrxReads s.trace := by
  obtain ⟨-, -, -, -, -, -, -, vs, e⟩ := pollWhile_frame hw bit spin t s
  rw [e, mrxReads_append]
  have : mrxReads (vs.map (Event.poll bit)) = [] := by
    induction vs with
    | nil => rfl
    | cons v vs ih => simp [mrxReads]
  rw [this, List.append_nil]

/-- The transmit loop stores the next `n` bytes of the buffer, in order, and
leaves `MCTL` alone. -/
theorem txLoop_spec (c : Consts) (hw : Hw) (buf : ℕ → ℕ) (n k t : ℕ) (s : Machine) :
    mtxWrites (txLoop c hw buf n k t s).2.trace =
      mtxWrites s.trace ++ (List.range n).map (fun i => toReg c (buf (k + i))) ∧
    (txLoop c hw buf n k t s).2.i2c.MCTL = s.i2c.MCTL := by
  induction n generalizing k t s with
  | zero => simp [txLoop]
  | succ n ih =>
    unfold txLoop
    obtain ⟨a, b⟩ := ih (k + 1) (pollWhile hw c.BITP_I2C_MSTAT_MTXREQ false (timeout0 c) s).1
      (wrMTX c (buf k) (pollWhile hw c.BITP_I2C_MSTAT_MTXREQ false (timeout0 c) s).2)
    have hf := pollWhile_frame hw c.BITP_I2C_MSTAT_MTXREQ false (timeout0 c) s
    constructor
    · rw [a]
      have hw1 : mtxWrites (wrMTX c (buf k)
          (pollWhile hw c.BITP_I2C_MSTAT_MTXREQ false (timeout0 c) s).2).trace =
          mtxWrites s.trace ++ [toReg c (buf k)] := by
        simp only [wrMTX]
        rw [mtxWrites_append, pollWhile_mtxWrites]
        rfl
      rw [hw1, List.range_succ_eq_map, List.map_cons, List.map_map]
      simp [Function.comp, Nat.add_assoc, Nat.add_comm 1]
    · rw [b]
      simp only [wrMTX]
      rw [hf.1]

/-- When the transmit-request bit never asserts, the countdown of the last
byte, which is the one the final check sees, is zero. -/
theorem txLoop_exhaust (c : Consts) (hw : Hw) (buf : ℕ → ℕ) (n k t : ℕ) (s : Machine)
    (h : ∀ j, bitIs (hw.MSTAT j) c.BITP_I2C_MSTAT_MTXREQ = false) (hn : 1 ≤ n) :
    (txLoop c hw buf n k t s).1 = 0 := by
  induction n generalizing k t s with
  | zero => omega
  | succ n ih =>
    unfold txLoop
    rcases Nat.eq_zero_or_pos n with h0 | hpos
    · subst h0
      simp only [txLoop]
      exact pollWhile_exhaust hw _ false _ s h
    · exact ih _ _ _ hpos


/-- A wait that finds the awaited state on its first read keeps its countdown. -/
theorem pollWhile_hit (hw : Hw) (bit : ℕ) (spin : Bool) (t : ℕ) (s : Machine)
    (h : bitIs (hw.MSTAT s.nMSTAT) bit ≠ spin) :
    pollWhile hw bit spin t s = (t, (rdMSTAT hw bit s).2) := by
  cases t with
  | zero => rfl
  | succ t =>
    unfold pollWhile
    have hc : ¬ bitIs (rdMSTAT hw bit s).1 bit = spin := h
    rw [if_neg hc]

/-- A wait whose bit stays away from the awaited state for `t + 1` reads ends
with the countdown at zero after exactly those reads. -/
theorem pollWhile_run (hw : Hw) (bit : ℕ) (spin : Bool) (t : ℕ) (s : Machine)
    (h : ∀ k, k ≤ t → bitIs (hw.MSTAT (s.nMSTAT + k)) bit = spin) :
    (pollWhile hw bit spin t s).1 = 0 ∧ (pollWhile hw bit spin t s).2.nMSTAT = s.nMSTAT + t + 1 := by
  induction t generalizing s with
  | zero => exact ⟨rfl, rfl⟩
  | succ t ih =>
    unfold pollWhile
    have hc : bitIs (rdMSTAT hw bit s).1 bit = spin := h 0 (Nat.zero_le _)
    rw [if_pos hc]
    have hn : (rdMSTAT hw bit s).2.nMSTAT = s.nMSTAT + 1 := rfl
    obtain ⟨a, b⟩ := ih (rdMSTAT hw bit s).2 (fun k hk => by
      rw [hn, Nat.add_assoc, Nat.add_comm 1 k]
      exact h (k + 1) (by omega))
    exact ⟨a, by rw [b, hn]; omega⟩

/-- The defect behind C5: in a write of three bytes without stop, the wait
before the second byte may exhaust its countdown; when the wait before the
third byte succeeds at once, the call still returns Success. -/
theorem i2c_write_forgets_timeout (c : Consts) (hw : Hw) (p : I2C_parameters_t) (buf : ℕ → ℕ)
    (s : Machine) (hT : 0 < timeout0 c)
    (h1 : ∀ k, k ≤ timeout0 c → bitIs (hw.MSTAT (s.nMSTAT + k)) c.BITP_I2C_MSTAT_MTXREQ = false)
    (h2 : bitIs (hw.MSTAT (s.nMSTAT + timeout0 c + 1)) c.BITP_I2C_MSTAT_MTXREQ = true) :
    (pollWhile hw c.BITP_I2C_MSTAT_MTXREQ false (timeout0 c) (writeStart c p buf s)).1 = 0 ∧
    (i2c_write c hw p buf 3 i2c_stop_bit_t.I2C_NO_STOP_BIT s).1 = i2c_status_t.I2C_SUCCESS := by
  have hs : (writeStart c p buf s).nMSTAT = s.nMSTAT := rfl
  obtain ⟨a, b⟩ := pollWhile_run hw c.BITP_I2C_MSTAT_MTXREQ false (timeout0 c) (writeStart c p buf s)
    (by rw [hs]; exact h1)
  refine ⟨a, ?_⟩
  have hn : (wrMTX c (buf 1)
      (pollWhile hw c.BITP_I2C_MSTAT_MTXREQ false (timeout0 c) (writeStart c p buf s)).2).nMSTAT
      = s.nMSTAT + timeout0 c + 1 := by
    simp only [wrMTX]
    rw [b, hs]
  have hit := pollWhile_hit hw c.BITP_I2C_MSTAT_MTXREQ false (timeout0 c) (wrMTX c (buf 1)
      (pollWhile hw c.BITP_I2C_MSTAT_MTXREQ false (timeout0 c) (writeStart c p buf s)).2)
      (by rw [hn, h2]; decide)
  have h3 : pred32 3 = 2 := rfl
  unfold i2c_write
  simp only [h3, txLoop, hit, writeStatus]
  rw [if_neg (by omega)]


/-- The defect behind C6: in a read of two bytes, the wait for the first byte
may exhaust its countdown; when the wait for the second byte and the bus-free
wait succeed at once, the call still returns Success. -/
theorem i2c_read_forgets_timeout (c : Consts) (hw : Hw) (p : I2C_parameters_t) (out : ℕ → ℕ)
    (s : Machine) (hT : 0 < timeout0 c)
    (h1 : ∀ k, k ≤ timeout0 c → bitIs (hw.MSTAT (s.nMSTAT + k)) c.BITP_I2C_MSTAT_MRXREQ = false)
    (h2 : bitIs (hw.MSTAT (s.nMSTAT + timeout0 c + 1)) c.BITP_I2C_MSTAT_MRXREQ = true)
    (h3 : bitIs (hw.MSTAT (s.nMSTAT + timeout0 c + 2)) c.BITP_I2C_MSTAT_MBUSY = false) :
    (pollWhile hw c.BITP_I2C_MSTAT_MRXREQ false (timeout0 c) (readStart c p 2 s)).1 = 0 ∧
    (i2c_read c hw p out 2 s).1 = i2c_status_t.I2C_SUCCESS := by
  have hs : (readStart c p 2 s).nMSTAT = s.nMSTAT := rfl
  obtain ⟨a, b⟩ := pollWhile_run hw c.BITP_I2C_MSTAT_MRXREQ false (timeout0 c) (readStart c p 2 s)
    (by rw [hs]; exact h1)
  refine ⟨a, ?_⟩
  have hn : (rdMRX hw
      (pollWhile hw c.BITP_I2C_MSTAT_MRXREQ false (timeout0 c) (readStart c p 2 s)).2).2.nMSTAT
      = s.nMSTAT + timeout0 c + 1 := by
    simp only [rdMRX]
    rw [b, hs]
  have hit := pollWhile_hit hw c.BITP_I2C_MSTAT_MRXREQ false (timeout0 c) (rdMRX hw
      (pollWhile hw c.BITP_I2C_MSTAT_MRXREQ false (timeout0 c) (readStart c p 2 s)).2).2
      (by rw [hn, h2]; decide)
  have hn2 : (rdMRX hw (rdMSTAT hw c.BITP_I2C_MSTAT_MRXREQ (rdMRX hw
      (pollWhile hw c.BITP_I2C_MSTAT_MRXREQ false (timeout0 c) (readStart c p 2 s)).2).2).2).2.nMSTAT
      = s.nMSTAT + timeout0 c + 2 := by
    simp only [rdMRX, rdMSTAT]
    rw [b, hs]
  have hit2 := pollWhile_hit hw c.BITP_I2C_MSTAT_MBUSY true (timeout0 c) (rdMRX hw
      (rdMSTAT hw c.BITP_I2C_MSTAT_MRXREQ (rdMRX hw
      (pollWhile hw c.BITP_I2C_MSTAT_MRXREQ false (timeout0 c) (readStart c p 2 s)).2).2).2).2
      (by rw [hn2, h3]; decide)
  unfold i2c_read
  simp only [rxLoop, hit, hit2, readStatus]
  rw [if_neg (by omega)]

/-! ## Write and read transactions: the claims -/

/-- C5 (the code departs from the claim): with the countdown at 232323, a
transmit-request bit that stays clear for the first 232324 reads and is set
from then on, a write of the three bytes 0xA5, 0x01, 0x02 without stop
exhausts the countdown of the wait before the second byte and still returns
Success, because the countdown is reloaded before the wait of the third
byte and only its last value reaches the final check. -/
theorem i2c_write_early_timeout_lost :
    (pollWhile (hwLate 232324 4) 2 false 232323
      (writeStart (devConsts 232323) (paramsOf 26000000 400000) (bufOf [0xA5, 1, 2]) machine0)).1 = 0 ∧
    (i2c_write (devConsts 232323) (hwLate 232324 4) (paramsOf 26000000 400000) (bufOf [0xA5, 1, 2]) 3
      i2c_stop_bit_t.I2C_NO_STOP_BIT machine0).1 = i2c_status_t.I2C_SUCCESS :=
  i2c_write_forgets_timeout (devConsts 232323) (hwLate 232324 4) (paramsOf 26000000 400000)
    (bufOf [0xA5, 1, 2]) machine0 (by decide)
    (fun k hk => by
      have e : timeout0 (devConsts 232323) = 232323 := by decide
      have hk2 : k < 232324 := by rw [e] at hk; omega
      have hz : (hwLate 232324 4).MSTAT (machine0.nMSTAT + k) = 0 := by
        simp [hwLate, machine0, hk2]
      rw [hz]
      decide)
    (by decide)

/-- C6 (the code departs from the claim): with the countdown at 232323, a
receive-request bit that stays clear for the first 232324 reads and is set
from then on, and a bus that is never busy, a read of two bytes exhausts the
countdown of the wait for the first byte and still returns Success. -/
theorem i2c_read_early_timeout_lost :
    (pollWhile (hwLate 232324 8) 3 false 232323
      (readStart (devConsts 232323) (paramsOf 26000000 400000) 2 machine0)).1 = 0 ∧
    (i2c_read (devConsts 232323) (hwLate 232324 8) (paramsOf 26000000 400000) (fun _ => 0) 2
      machine0).1 = i2c_status_t.I2C_SUCCESS :=
  i2c_read_forgets_timeout (devConsts 232323) (hwLate 232324 8) (paramsOf 26000000 400000)
    (fun _ => 0) machine0 (by decide)
    (fun k hk => by
      have e : timeout0 (devConsts 232323) = 232323 := by decide
      have hk2 : k < 232324 := by rw [e] at hk; omega
      have hz : (hwLate 232324 8).MSTAT (machine0.nMSTAT + k) = 0 := by
        simp [hwLate, machine0, hk2]
      rw [hz]
      decide)
    (by decide) (by decide)


theorem bufOf_range (bs : List ℕ) : (List.range bs.length).map (bufOf bs) = bs := by
  apply List.ext_getElem
  · simp
  · intro i h1 h2
    simp [bufOf, List.getD_eq_getElem _ _ h2, List.getElem?_eq_getElem h2]

theorem toReg_byte (c : Consts) (hr : 8 ≤ c.REG_BITS) {b : ℕ} (hb : b < 256) : toReg c b = b := by
  unfold toReg
  apply Nat.mod_eq_of_lt
  calc b < 2 ^ 8 := by simpa using hb
    _ ≤ 2 ^ c.REG_BITS := Nat.pow_le_pow_right (by norm_num) hr

theorem writeStart_mtxWrites (c : Consts) (p : I2C_parameters_t) (buf : ℕ → ℕ) (s : Machine) :
    mtxWrites (writeStart c p buf s).trace = mtxWrites s.trace ++ [toReg c (buf 0)] := by
  simp [writeStart, wrADDR1, wrADDR2, wrMTX, flushTx, wrSTAT, enableMaster, wrMCTL, logEv,
    mtxWrites, List.filterMap_append]

theorem stopPhase_mtxWrites (c : Consts) (hw : Hw) (s : Machine) :
    mtxWrites (stopPhase c hw s).2.2.trace = mtxWrites s.trace := by
  simp only [stopPhase, disableMaster, wrMCTL, logEv]
  rw [mtxWrites_append, mtxWrites_append, pollWhile_mtxWrites, pollWhile_mtxWrites]
  simp [mtxWrites]

theorem map_range_succ_shift (c : Consts) (buf : ℕ → ℕ) (m : ℕ) :
    (List.range (m + 1)).map (fun i => toReg c (buf i)) =
      toReg c (buf 0) :: (List.range m).map (fun i => toReg c (buf (1 + i))) := by
  rw [List.range_succ_eq_map, List.map_cons, List.map_map]
  congr 1
  apply List.map_congr_left
  intro i _
  simp [Nat.add_comm 1]

/-- The transmit register receives the bytes of the buffer from offset 0 to
the loop bound, whatever the status register returns. -/
theorem i2c_write_mtxWrites (c : Consts) (hw : Hw) (p : I2C_parameters_t) (buf : ℕ → ℕ)
    (n : ℕ) (stop : i2c_stop_bit_t) (s : Machine) :
    mtxWrites (i2c_write c hw p buf n stop s).2.trace =
      mtxWrites s.trace ++ (List.range (pred32 n + 1)).map (fun i => toReg c (buf i)) := by
  have ht := (txLoop_spec c hw buf (pred32 n) 1 (timeout0 c) (writeStart c p buf s)).1
  rw [map_range_succ_shift]
  cases stop with
  | I2C_NO_STOP_BIT =>
    show mtxWrites (txLoop c hw buf (pred32 n) 1 (timeout0 c) (writeStart c p buf s)).2.trace = _
    rw [ht, writeStart_mtxWrites, List.append_assoc, List.singleton_append]
  | I2C_STOP_BIT =>
    show mtxWrites (stopPhase c hw
      (txLoop c hw buf (pred32 n) 1 (timeout0 c) (writeStart c p buf s)).2).2.2.trace = _
    rw [stopPhase_mtxWrites, ht, writeStart_mtxWrites, List.append_assoc, List.singleton_append]

/-- C7: for every buffer of n bytes with 1 ≤ n < 2^32 and every behaviour of
the status register, the values `i2c_write` stores into `MTX` are exactly the
n bytes of the buffer, in buffer order. -/
theorem i2c_write_stages_buffer (c : Consts) (hw : Hw) (p : I2C_parameters_t) (bs : List ℕ)
    (stop : i2c_stop_bit_t) (s : Machine) (h1 : 1 ≤ bs.length) (_h2 : bs.length < 2 ^ 32)
    (hb : ∀ b ∈ bs, b < 256) (hr : 8 ≤ c.REG_BITS) :
    mtxWrites (i2c_write c hw p (bufOf bs) bs.length stop s).2.trace = mtxWrites s.trace ++ bs := by
  rw [i2c_write_mtxWrites]
  have hn : pred32 bs.length + 1 = bs.length := by
    unfold pred32
    rw [if_neg (by omega)]
    omega
  rw [hn]
  congr 1
  have hm : (List.range bs.length).map (fun i => toReg c (bufOf bs i)) =
      (List.range bs.length).map (bufOf bs) := by
    apply List.map_congr_left
    intro i hi
    have hlt : i < bs.length := List.mem_range.mp hi
    apply toReg_byte c hr
    have : bufOf bs i = bs[i] := by
      simp [bufOf, List.getD_eq_getElem _ _ hlt, List.getElem?_eq_getElem hlt]
    rw [this]
    exact hb _ (List.getElem_mem hlt)
  rw [hm, bufOf_range]

/-- C7, witness: the bytes 0xA5, 0x01, 0x02 written with stop to a peripheral
whose transmit-request and stop-detected bits are always set and whose busy
bit is always clear: the three bytes are staged in order, followed by the
stop-detected poll (bit 11), the bus-free poll (bit 6) and the master
disable, and the call returns Success. -/
theorem i2c_write_stages_buffer_witness :
    mtxWrites (i2c_write (devConsts 232323) (hwConst 0x804) (paramsOf 26000000 400000)
      (bufOf [0xA5, 0x01, 0x02]) 3 i2c_stop_bit_t.I2C_STOP_BIT machine0).2.trace = [0xA5, 0x01, 0x02] ∧
    (i2c_write (devConsts 232323) (hwConst 0x804) (paramsOf 26000000 400000)
      (bufOf [0xA5, 0x01, 0x02]) 3 i2c_stop_bit_t.I2C_STOP_BIT machine0).1 = i2c_status_t.I2C_SUCCESS ∧
    (i2c_write (devConsts 232323) (hwConst 0x804) (paramsOf 26000000 400000)
      (bufOf [0xA5, 0x01, 0x02]) 3 i2c_stop_bit_t.I2C_STOP_BIT machine0).2.trace =
        [Event.read Reg.MCTL 0, Event.write Reg.MCTL 1,
         Event.read Reg.STAT 0, Event.write Reg.STAT 0x200,
         Event.read Reg.STAT 0x200, Event.write Reg.STAT 0,
         Event.write Reg.MTX 0xA5, Event.write Reg.ADDR2 0, Event.write Reg.ADDR1 0x70,
         Event.poll 2 0x804, Event.write Reg.MTX 0x01,
         Event.poll 2 0x804, Event.write Reg.MTX 0x02,
         Event.poll 11 0x804, Event.poll 6 0x804,
         Event.read Reg.MCTL 1, Event.write Reg.MCTL 0] :=
  ⟨i2c_write_stages_buffer (devConsts 232323) (hwConst 0x804) (paramsOf 26000000 400000)
      [0xA5, 0x01, 0x02] i2c_stop_bit_t.I2C_STOP_BIT machine0 (by decide) (by decide)
      (by decide) (by decide),
   by decide, by decide⟩


/-- The receive loop reads `MRX` once per iteration and stores the byte read
by iteration `i` at offset `k + i`; it leaves the register block alone. -/
theorem rxLoop_spec (c : Consts) (hw : Hw) (n k t : ℕ) (out : ℕ → ℕ) (s : Machine) :
    (rxLoop c hw n k t out s).2.2.nMRX = s.nMRX + n ∧
    mrxReads (rxLoop c hw n k t out s).2.2.trace =
      mrxReads s.trace ++ (List.range n).map (fun i => hw.MRX (s.nMRX + i)) ∧
    (∀ i, i < n → (rxLoop c hw n k t out s).2.1 (k + i) = hw.MRX (s.nMRX + i) % 256) ∧
    (∀ j, j < k ∨ k + n ≤ j → (rxLoop c hw n k t out s).2.1 j = out j) ∧
    (rxLoop c hw n k t out s).2.2.i2c = s.i2c := by
  induction n generalizing k t out s with
  | zero =>
    refine ⟨rfl, by simp [rxLoop], fun i hi => by omega, fun j _ => rfl, rfl⟩
  | succ n ih =>
    unfold rxLoop
    dsimp only
    have hf := pollWhile_frame hw c.BITP_I2C_MSTAT_MRXREQ false (timeout0 c) s
    have hr1 : (rdMRX hw (pollWhile hw c.BITP_I2C_MSTAT_MRXREQ false (timeout0 c) s).2).1
        = hw.MRX s.nMRX := by
      simp only [rdMRX]
      rw [hf.2.1]
    have hr2 : (rdMRX hw (pollWhile hw c.BITP_I2C_MSTAT_MRXREQ false (timeout0 c) s).2).2.nMRX
        = s.nMRX + 1 := by
      simp only [rdMRX]
      rw [hf.2.1]
    have hr3 : mrxReads (rdMRX hw
        (pollWhile hw c.BITP_I2C_MSTAT_MRXREQ false (timeout0 c) s).2).2.trace
        = mrxReads s.trace ++ [hw.MRX s.nMRX] := by
      simp only [rdMRX]
      rw [mrxReads_append, pollWhile_mrxReads, hf.2.1]
      rfl
    have hr4 : (rdMRX hw (pollWhile hw c.BITP_I2C_MSTAT_MRXREQ false (timeout0 c) s).2).2.i2c
        = s.i2c := by
      simp only [rdMRX]
      rw [hf.1]
    obtain ⟨a, b, d, e, f⟩ := ih (k + 1)
      (pollWhile hw c.BITP_I2C_MSTAT_MRXREQ false (timeout0 c) s).1
      (Function.update out k
        ((rdMRX hw (pollWhile hw c.BITP_I2C_MSTAT_MRXREQ false (timeout0 c) s).2).1 % 256))
      (rdMRX hw (pollWhile hw c.BITP_I2C_MSTAT_MRXREQ false (timeout0 c) s).2).2
    refine ⟨?_, ?_, ?_, ?_, ?_⟩
    · rw [a, hr2]; omega
    · rw [b, hr3, hr2, List.range_succ_eq_map, List.map_cons, List.map_map, List.append_assoc]
      congr 1
      simp only [List.singleton_append, Nat.add_zero, List.cons.injEq, true_and]
      apply List.map_congr_left
      intro i _
      simp only [Function.comp, Nat.succ_eq_add_one]
      congr 1
      omega
    · intro i hi
      rcases Nat.eq_zero_or_pos i with h0 | hpos
      · subst h0
        simp only [Nat.add_zero]
        rw [e k (Or.inl (Nat.lt_succ_self k)), Function.update_same, hr1]
      · have h1 := d (i - 1) (by omega)
        have hk : k + 1 + (i - 1) = k + i := by omega
        rw [hk, hr2] at h1
        rw [h1]
        congr 2
        omega
    · intro j hj
      rw [e j (by omega), Function.update_noteq (by omega)]
    · rw [f, hr4]

/-- C8: for every count (a 32-bit value) and every behaviour of the
peripheral, `i2c_read` reads the receive register exactly count times and
stores the byte read by the i-th read at output index i; the rest of the
buffer is untouched.  No condition on the returned status is involved. -/
theorem i2c_read_fills_buffer (c : Consts) (hw : Hw) (p : I2C_parameters_t) (out : ℕ → ℕ)
    (count : ℕ) (s : Machine) (_hc : count < 2 ^ 32) :
    (i2c_read c hw p out count s).2.2.nMRX = s.nMRX + count ∧
    mrxReads (i2c_read c hw p out count s).2.2.trace =
      mrxReads s.trace ++ (List.range count).map (fun i => hw.MRX (s.nMRX + i)) ∧
    (∀ i, i < count → (i2c_read c hw p out count s).2.1 i = hw.MRX (s.nMRX + i) % 256) ∧
    (∀ i, count ≤ i → (i2c_read c hw p out count s).2.1 i = out i) := by
  obtain ⟨a, b, d, e, -⟩ := rxLoop_spec c hw count 0 (timeout0 c) out (readStart c p count s)
  have hf := pollWhile_frame hw c.BITP_I2C_MSTAT_MBUSY true (timeout0 c)
    (rxLoop c hw count 0 (timeout0 c) out (readStart c p count s)).2.2
  have hs1 : (readStart c p count s).nMRX = s.nMRX := rfl
  have hs2 : mrxReads (readStart c p count s).trace = mrxReads s.trace := by
    simp [readStart, wrADDR1, wrADDR2, wrMRXCNT, mrxReads, List.filterMap_append]
  unfold i2c_read
  refine ⟨?_, ?_, ?_, ?_⟩
  · show (disableMaster c _).nMRX = _
    simp only [disableMaster, wrMCTL, logEv]
    rw [hf.2.1, a, hs1]
  · show mrxReads (disableMaster c _).trace = _
    simp only [disableMaster, wrMCTL, logEv]
    rw [mrxReads_append, mrxReads_append, pollWhile_mrxReads, b, hs2, hs1]
    simp [mrxReads]
  · intro i hi
    have := d i hi
    rw [Nat.zero_add, hs1] at this
    exact this
  · intro i hi
    exact e i (Or.inr (by omega))

/-- C8, witness: a read of three bytes from a peripheral whose receive-request
bit never asserts returns Failure and still stores the three values read,
0, 1, 2, at indices 0, 1, 2. -/
theorem i2c_read_fills_buffer_witness :
    (i2c_read (devConsts 2) (hwConst 0) (paramsOf 26000000 400000) (fun _ => 0xFF) 3 machine0).1
      = i2c_status_t.I2C_FAILURE ∧
    (i2c_read (devConsts 2) (hwConst 0) (paramsOf 26000000 400000) (fun _ => 0xFF) 3 machine0).2.2.nMRX
      = 0 + 3 ∧
    ∀ i, i < 3 →
      (i2c_read (devConsts 2) (hwConst 0) (paramsOf 26000000 400000) (fun _ => 0xFF) 3 machine0).2.1 i
        = (hwConst 0).MRX (0 + i) % 256 :=
  ⟨by decide,
   (i2c_read_fills_buffer (devConsts 2) (hwConst 0) (paramsOf 26000000 400000) (fun _ => 0xFF) 3
      machine0 (by decide)).1,
   (i2c_read_fills_buffer (devConsts 2) (hwConst 0) (paramsOf 26000000 400000) (fun _ => 0xFF) 3
      machine0 (by decide)).2.2.1⟩


/-! ## Master enable bit: auxiliary facts -/

theorem bitMask_eq {b : ℕ} (hb : b < 32) : bitMask b = 2 ^ b := by
  unfold bitMask
  rw [Nat.one_shiftLeft]
  exact Nat.mod_eq_of_lt (Nat.pow_lt_pow_right (by norm_num) hb)

theorem testBit_ge_width {x R j : ℕ} (hx : x < 2 ^ R) (hj : R ≤ j) : x.testBit j = false :=
  Nat.testBit_lt_two_pow (lt_of_lt_of_le hx (Nat.pow_le_pow_right (by norm_num) hj))

/-- The store of `x | ( 1U << b )` sets bit `b` and keeps the other bits. -/
theorem testBit_set (c : Consts) {x b : ℕ} (j : ℕ) (hb : b < c.REG_BITS) (hR : c.REG_BITS ≤ 32)
    (hx : x < 2 ^ c.REG_BITS) :
    (toReg c (x ||| bitMask b)).testBit j = (x.testBit j || decide (b = j)) := by
  unfold toReg
  rw [bitMask_eq (by omega), Nat.testBit_mod_two_pow, Nat.testBit_or, Nat.testBit_two_pow]
  by_cases hj : j < c.REG_BITS
  · simp [hj]
  · have h1 := testBit_ge_width hx (Nat.le_of_not_lt hj)
    have h2 : ¬ b = j := by omega
    simp [hj, h1, h2]

/-- The store of `x & ~( 1U << b )` clears bit `b` and keeps the other bits. -/
theorem testBit_clear (c : Consts) {x b : ℕ} (j : ℕ) (hb : b < c.REG_BITS) (hR : c.REG_BITS ≤ 32)
    (hx : x < 2 ^ c.REG_BITS) :
    (toReg c (x &&& not32 (bitMask b))).testBit j = (x.testBit j && !decide (b = j)) := by
  unfold toReg not32
  have hlt : (2 : ℕ) ^ b < 2 ^ 32 := Nat.pow_lt_pow_right (by norm_num) (by omega)
  rw [bitMask_eq (by omega), Nat.mod_eq_of_lt hlt, Nat.testBit_mod_two_pow, Nat.testBit_and,
    Nat.testBit_xor, Nat.testBit_two_pow_sub_one, Nat.testBit_two_pow]
  by_cases hj : j < c.REG_BITS
  · have h32 : j < 32 := by omega
    by_cases hbj : b = j <;> simp [hj, h32, hbj]
  · have h1 := testBit_ge_width hx (Nat.le_of_not_lt hj)
    simp [hj, h1]

theorem toReg_lt (c : Consts) (v : ℕ) : toReg c v < 2 ^ c.REG_BITS :=
  Nat.mod_lt _ (Nat.pow_pos (by norm_num))

theorem writeStart_MCTL (c : Consts) (p : I2C_parameters_t) (buf : ℕ → ℕ) (s : Machine) :
    (writeStart c p buf s).i2c.MCTL = toReg c (s.i2c.MCTL ||| bitMask c.BITP_I2C_MCTL_MASEN) := rfl

theorem stopPhase_MCTL (c : Consts) (hw : Hw) (s : Machine) :
    (stopPhase c hw s).2.2.i2c.MCTL =
      toReg c (s.i2c.MCTL &&& not32 (bitMask c.BITP_I2C_MCTL_MASEN)) := by
  have h2 := pollWhile_frame hw c.BITP_I2C_MSTAT_MSTOP false (timeout0 c) s
  have h3 := pollWhile_frame hw c.BITP_I2C_MSTAT_MBUSY true (timeout0 c)
    (pollWhile hw c.BITP_I2C_MSTAT_MSTOP false (timeout0 c) s).2
  simp only [stopPhase, disableMaster, wrMCTL, logEv]
  rw [h3.1, h2.1]

theorem i2c_write_MCTL_stop (c : Consts) (hw : Hw) (p : I2C_parameters_t) (buf : ℕ → ℕ) (n : ℕ)
    (s : Machine) :
    (i2c_write c hw p buf n i2c_stop_bit_t.I2C_STOP_BIT s).2.i2c.MCTL =
      toReg c (toReg c (s.i2c.MCTL ||| bitMask c.BITP_I2C_MCTL_MASEN) &&&
        not32 (bitMask c.BITP_I2C_MCTL_MASEN)) := by
  show (stopPhase c hw (txLoop c hw buf (pred32 n) 1 (timeout0 c)
    (writeStart c p buf s)).2).2.2.i2c.MCTL = _
  rw [stopPhase_MCTL, (txLoop_spec c hw buf (pred32 n) 1 (timeout0 c) (writeStart c p buf s)).2,
    writeStart_MCTL]

theorem i2c_write_MCTL_nostop (c : Consts) (hw : Hw) (p : I2C_parameters_t) (buf : ℕ → ℕ) (n : ℕ)
    (s : Machine) :
    (i2c_write c hw p buf n i2c_stop_bit_t.I2C_NO_STOP_BIT s).2.i2c.MCTL =
      toReg c (s.i2c.MCTL ||| bitMask c.BITP_I2C_MCTL_MASEN) := by
  show (txLoop c hw buf (pred32 n) 1 (timeout0 c) (writeStart c p buf s)).2.i2c.MCTL = _
  rw [(txLoop_spec c hw buf (pred32 n) 1 (timeout0 c) (writeStart c p buf s)).2, writeStart_MCTL]

theorem i2c_read_MCTL (c : Consts) (hw : Hw) (p : I2C_parameters_t) (out : ℕ → ℕ) (n : ℕ)
    (s : Machine) :
    (i2c_read c hw p out n s).2.2.i2c.MCTL =
      toReg c (s.i2c.MCTL &&& not32 (bitMask c.BITP_I2C_MCTL_MASEN)) := by
  have hl := (rxLoop_spec c hw n 0 (timeout0 c) out (readStart c p n s)).2.2.2.2
  have hf := pollWhile_frame hw c.BITP_I2C_MSTAT_MBUSY true (timeout0 c)
    (rxLoop c hw n 0 (timeout0 c) out (readStart c p n s)).2.2
  show (disableMaster c (pollWhile hw c.BITP_I2C_MSTAT_MBUSY true (timeout0 c)
    (rxLoop c hw n 0 (timeout0 c) out (readStart c p n s)).2.2).2).i2c.MCTL = _
  simp only [disableMaster, wrMCTL, logEv]
  rw [hf.1, hl]
  rfl

/-- C9: for every behaviour of the peripheral and every result, the
master-enable bit of `MCTL` is clear after `i2c_write` with stop and after
`i2c_read`, and set after `i2c_write` without stop; every other bit of `MCTL`
is as before the call.  (The bit lies inside the register and `MCTL` holds a
register value before the call.) -/
theorem mctl_masen_on_exit (c : Consts) (hw : Hw) (p : I2C_parameters_t) (buf out : ℕ → ℕ)
    (n : ℕ) (s : Machine) (hb : c.BITP_I2C_MCTL_MASEN < c.REG_BITS) (hR : c.REG_BITS ≤ 32)
    (hx : s.i2c.MCTL < 2 ^ c.REG_BITS) :
    ((i2c_write c hw p buf n i2c_stop_bit_t.I2C_STOP_BIT s).2.i2c.MCTL.testBit
        c.BITP_I2C_MCTL_MASEN = false ∧
      ∀ j, j ≠ c.BITP_I2C_MCTL_MASEN →
        (i2c_write c hw p buf n i2c_stop_bit_t.I2C_STOP_BIT s).2.i2c.MCTL.testBit j =
          s.i2c.MCTL.testBit j) ∧
    ((i2c_write c hw p buf n i2c_stop_bit_t.I2C_NO_STOP_BIT s).2.i2c.MCTL.testBit
        c.BITP_I2C_MCTL_MASEN = true ∧
      ∀ j, j ≠ c.BITP_I2C_MCTL_MASEN →
        (i2c_write c hw p buf n i2c_stop_bit_t.I2C_NO_STOP_BIT s).2.i2c.MCTL.testBit j =
          s.i2c.MCTL.testBit j) ∧
    ((i2c_read c hw p out n s).2.2.i2c.MCTL.testBit c.BITP_I2C_MCTL_MASEN = false ∧
      ∀ j, j ≠ c.BITP_I2C_MCTL_MASEN →
        (i2c_read c hw p out n s).2.2.i2c.MCTL.testBit j = s.i2c.MCTL.testBit j) := by
  rw [i2c_write_MCTL_stop, i2c_write_MCTL_nostop, i2c_read_MCTL]
  refine ⟨⟨?_, fun j hj => ?_⟩, ⟨?_, fun j hj => ?_⟩, ⟨?_, fun j hj => ?_⟩⟩
  · rw [testBit_clear c _ hb hR (toReg_lt c _)]
    simp
  · rw [testBit_clear c _ hb hR (toReg_lt c _), testBit_set c _ hb hR hx]
    have : ¬ c.BITP_I2C_MCTL_MASEN = j := fun h => hj h.symm
    simp [this]
  · rw [testBit_set c _ hb hR hx]
    simp
  · rw [testBit_set c _ hb hR hx]
    have : ¬ c.BITP_I2C_MCTL_MASEN = j := fun h => hj h.symm
    simp [this]
  · rw [testBit_clear c _ hb hR hx]
    simp
  · rw [testBit_clear c _ hb hR hx]
    have : ¬ c.BITP_I2C_MCTL_MASEN = j := fun h => hj h.symm
    simp [this]

/-- C9, witness: the device constants, `MCTL` holding 0x0137 before the calls
that disable the master and 0x0136 before the write without stop, and a
status register that never shows any awaited state (every wait times out):
the three calls leave 0x0136, 0x0137 and 0x0136. -/
theorem mctl_masen_on_exit_witness :
    (i2c_write (devConsts 2) (hwConst 0x40) (paramsOf 26000000 400000) (bufOf [1, 2]) 2
      i2c_stop_bit_t.I2C_STOP_BIT { machine0 with i2c := ⟨0x0137, 0, 0, 0, 0, 0, 0⟩ }).2.i2c.MCTL
      = 0x0136 ∧
    (i2c_write (devConsts 2) (hwConst 0x40) (paramsOf 26000000 400000) (bufOf [1, 2]) 2
      i2c_stop_bit_t.I2C_NO_STOP_BIT { machine0 with i2c := ⟨0x0136, 0, 0, 0, 0, 0, 0⟩ }).2.i2c.MCTL
      = 0x0137 ∧
    (i2c_read (devConsts 2) (hwConst 0x40) (paramsOf 26000000 400000) (fun _ => 0) 2
      { machine0 with i2c := ⟨0x0137, 0, 0, 0, 0, 0, 0⟩ }).2.2.i2c.MCTL = 0x0136 ∧
    (i2c_write (devConsts 2) (hwConst 0x40) (paramsOf 26000000 400000) (bufOf [1, 2]) 2
      i2c_stop_bit_t.I2C_STOP_BIT { machine0 with i2c := ⟨0x0137, 0, 0, 0, 0, 0, 0⟩ }).2.i2c.MCTL.testBit
        0 = false :=
  ⟨by decide, by decide, by decide,
   (mctl_masen_on_exit (devConsts 2) (hwConst 0x40) (paramsOf 26000000 400000) (bufOf [1, 2])
      (fun _ => 0) 2 { machine0 with i2c := ⟨0x0137, 0, 0, 0, 0, 0, 0⟩ } (by decide) (by decide)
      (by decide)).1.1⟩


/-! ## Timeouts: auxiliary facts -/

theorem rxLoop_exhaust (c : Consts) (hw : Hw) (n k t : ℕ) (out : ℕ → ℕ) (s : Machine)
    (h : ∀ j, bitIs (hw.MSTAT j) c.BITP_I2C_MSTAT_MRXREQ = false) (hn : 1 ≤ n) :
    (rxLoop c hw n k t out s).1 = 0 := by
  induction n generalizing k t out s with
  | zero => omega
  | succ n ih =>
    unfold rxLoop
    dsimp only
    rcases Nat.eq_zero_or_pos n with h0 | hpos
    · subst h0
      simp only [rxLoop]
      exact pollWhile_exhaust hw _ false _ s h
    · exact ih _ _ _ _ hpos

/-- The transmit loop reads the status register at most `timeout + 1` times
per byte. -/
theorem txLoop_reads (c : Consts) (hw : Hw) (buf : ℕ → ℕ) (n k t : ℕ) (s : Machine) :
    (txLoop c hw buf n k t s).2.nMSTAT ≤ s.nMSTAT + n * (timeout0 c + 1) := by
  induction n generalizing k t s with
  | zero => simp [txLoop]
  | succ n ih =>
    unfold txLoop
    dsimp only
    have hf := pollWhile_frame hw c.BITP_I2C_MSTAT_MTXREQ false (timeout0 c) s
    have h1 := ih (k + 1) (pollWhile hw c.BITP_I2C_MSTAT_MTXREQ false (timeout0 c) s).1
      (wrMTX c (buf k) (pollWhile hw c.BITP_I2C_MSTAT_MTXREQ false (timeout0 c) s).2)
    have h2 : (wrMTX c (buf k)
        (pollWhile hw c.BITP_I2C_MSTAT_MTXREQ false (timeout0 c) s).2).nMSTAT =
        (pollWhile hw c.BITP_I2C_MSTAT_MTXREQ false (timeout0 c) s).2.nMSTAT := rfl
    rw [h2] at h1
    have h3 := hf.2.2.2.2.2.2.1
    have h4 : (n + 1) * (timeout0 c + 1) = n * (timeout0 c + 1) + (timeout0 c + 1) := by ring
    omega

/-- The receive loop reads the status register at most `timeout + 1` times
per byte. -/
theorem rxLoop_reads (c : Consts) (hw : Hw) (n k t : ℕ) (out : ℕ → ℕ) (s : Machine) :
    (rxLoop c hw n k t out s).2.2.nMSTAT ≤ s.nMSTAT + n * (timeout0 c + 1) := by
  induction n generalizing k t out s with
  | zero => simp [rxLoop]
  | succ n ih =>
    unfold rxLoop
    dsimp only
    have hf := pollWhile_frame hw c.BITP_I2C_MSTAT_MRXREQ false (timeout0 c) s
    have h1 := ih (k + 1) (pollWhile hw c.BITP_I2C_MSTAT_MRXREQ false (timeout0 c) s).1
      (Function.update out k
        ((rdMRX hw (pollWhile hw c.BITP_I2C_MSTAT_MRXREQ false (timeout0 c) s).2).1 % 256))
      (rdMRX hw (pollWhile hw c.BITP_I2C_MSTAT_MRXREQ false (timeout0 c) s).2).2
    have h2 : (rdMRX hw (pollWhile hw c.BITP_I2C_MSTAT_MRXREQ false (timeout0 c) s).2).2.nMSTAT =
        (pollWhile hw c.BITP_I2C_MSTAT_MRXREQ false (timeout0 c) s).2.nMSTAT := rfl
    rw [h2] at h1
    have h3 := hf.2.2.2.2.2.2.1
    have h4 : (n + 1) * (timeout0 c + 1) = n * (timeout0 c + 1) + (timeout0 c + 1) := by ring
    omega

theorem stopPhase_reads (c : Consts) (hw : Hw) (s : Machine) :
    (stopPhase c hw s).2.2.nMSTAT ≤ s.nMSTAT + 2 * (timeout0 c + 1) := by
  have h2 := pollWhile_frame hw c.BITP_I2C_MSTAT_MSTOP false (timeout0 c) s
  have h3 := pollWhile_frame hw c.BITP_I2C_MSTAT_MBUSY true (timeout0 c)
    (pollWhile hw c.BITP_I2C_MSTAT_MSTOP false (timeout0 c) s).2
  have e : (stopPhase c hw s).2.2.nMSTAT = (pollWhile hw c.BITP_I2C_MSTAT_MBUSY true (timeout0 c)
    (pollWhile hw c.BITP_I2C_MSTAT_MSTOP false (timeout0 c) s).2).2.nMSTAT := rfl
  have a := h2.2.2.2.2.2.2.1
  have b := h3.2.2.2.2.2.2.1
  omega

theorem i2c_write_reads (c : Consts) (hw : Hw) (p : I2C_parameters_t) (buf : ℕ → ℕ) (n : ℕ)
    (stop : i2c_stop_bit_t) (s : Machine) :
    (i2c_write c hw p buf n stop s).2.nMSTAT ≤ s.nMSTAT + (pred32 n + 2) * (timeout0 c + 1) := by
  have h1 := txLoop_reads c hw buf (pred32 n) 1 (timeout0 c) (writeStart c p buf s)
  have h0 : (writeStart c p buf s).nMSTAT = s.nMSTAT := rfl
  have h4 : (pred32 n + 2) * (timeout0 c + 1) =
      pred32 n * (timeout0 c + 1) + 2 * (timeout0 c + 1) := by ring
  cases stop with
  | I2C_NO_STOP_BIT =>
    show (txLoop c hw buf (pred32 n) 1 (timeout0 c) (writeStart c p buf s)).2.nMSTAT ≤ _
    omega
  | I2C_STOP_BIT =>
    show (stopPhase c hw (txLoop c hw buf (pred32 n) 1 (timeout0 c)
      (writeStart c p buf s)).2).2.2.nMSTAT ≤ _
    have h2 := stopPhase_reads c hw
      (txLoop c hw buf (pred32 n) 1 (timeout0 c) (writeStart c p buf s)).2
    omega

theorem i2c_read_reads (c : Consts) (hw : Hw) (p : I2C_parameters_t) (out : ℕ → ℕ) (n : ℕ)
    (s : Machine) :
    (i2c_read c hw p out n s).2.2.nMSTAT ≤ s.nMSTAT + (n + 1) * (timeout0 c + 1) := by
  have h1 := rxLoop_reads c hw n 0 (timeout0 c) out (readStart c p n s)
  have h0 : (readStart c p n s).nMSTAT = s.nMSTAT := rfl
  have hf := pollWhile_frame hw c.BITP_I2C_MSTAT_MBUSY true (timeout0 c)
    (rxLoop c hw n 0 (timeout0 c) out (readStart c p n s)).2.2
  have h3 := hf.2.2.2.2.2.2.1
  have h4 : (n + 1) * (timeout0 c + 1) =
      n * (timeout0 c + 1) + (timeout0 c + 1) := by ring
  show (disableMaster c (pollWhile hw c.BITP_I2C_MSTAT_MBUSY true (timeout0 c)
    (rxLoop c hw n 0 (timeout0 c) out (readStart c p n s)).2.2).2).nMSTAT ≤ _
  have e : (disableMaster c (pollWhile hw c.BITP_I2C_MSTAT_MBUSY true (timeout0 c)
    (rxLoop c hw n 0 (timeout0 c) out (readStart c p n s)).2.2).2).nMSTAT =
    (pollWhile hw c.BITP_I2C_MSTAT_MBUSY true (timeout0 c)
    (rxLoop c hw n 0 (timeout0 c) out (readStart c p n s)).2.2).2.nMSTAT := rfl
  omega

theorem writeStatus_zero1 (t2 t3 : ℕ) : writeStatus 0 t2 t3 = i2c_status_t.I2C_FAILURE := by
  simp [writeStatus]

theorem writeStatus_zero2 (t1 t3 : ℕ) : writeStatus t1 0 t3 = i2c_status_t.I2C_FAILURE := by
  simp [writeStatus]

theorem writeStatus_zero3 (t1 t2 : ℕ) : writeStatus t1 t2 0 = i2c_status_t.I2C_FAILURE := by
  simp [writeStatus]

theorem readStatus_zero1 (t2 : ℕ) : readStatus 0 t2 = i2c_status_t.I2C_FAILURE := by
  simp [readStatus]

theorem readStatus_zero2 (t1 : ℕ) : readStatus t1 0 = i2c_status_t.I2C_FAILURE := by
  simp [readStatus]

/-- C10: the calls are total functions of the status sequence and read the
status register a bounded number of times (at most countdown + 1 reads per
wait); against a status register that never shows the awaited state they
return Failure: a write of at least 2 bytes whose transmit-request bit never
asserts, a write with stop whose stop-detected bit never asserts or whose
busy bit never clears, a read of at least 1 byte whose receive-request bit
never asserts or whose busy bit never clears. -/
theorem never_ready_returns_failure (c : Consts) (hw : Hw) (p : I2C_parameters_t) (buf out : ℕ → ℕ)
    (n : ℕ) (s : Machine) :
    (∀ stop, (i2c_write c hw p buf n stop s).2.nMSTAT
        ≤ s.nMSTAT + (pred32 n + 2) * (timeout0 c + 1)) ∧
    ((i2c_read c hw p out n s).2.2.nMSTAT ≤ s.nMSTAT + (n + 1) * (timeout0 c + 1)) ∧
    (2 ≤ n → n < 2 ^ 32 → (∀ k, bitIs (hw.MSTAT k) c.BITP_I2C_MSTAT_MTXREQ = false) →
      ∀ stop, (i2c_write c hw p buf n stop s).1 = i2c_status_t.I2C_FAILURE) ∧
    ((∀ k, bitIs (hw.MSTAT k) c.BITP_I2C_MSTAT_MSTOP = false) →
      (i2c_write c hw p buf n i2c_stop_bit_t.I2C_STOP_BIT s).1 = i2c_status_t.I2C_FAILURE) ∧
    ((∀ k, bitIs (hw.MSTAT k) c.BITP_I2C_MSTAT_MBUSY = true) →
      (i2c_write c hw p buf n i2c_stop_bit_t.I2C_STOP_BIT s).1 = i2c_status_t.I2C_FAILURE) ∧
    (1 ≤ n → n < 2 ^ 32 → (∀ k, bitIs (hw.MSTAT k) c.BITP_I2C_MSTAT_MRXREQ = false) →
      (i2c_read c hw p out n s).1 = i2c_status_t.I2C_FAILURE) ∧
    ((∀ k, bitIs (hw.MSTAT k) c.BITP_I2C_MSTAT_MBUSY = true) →
      (i2c_read c hw p out n s).1 = i2c_status_t.I2C_FAILURE) := by
  refine ⟨fun stop => i2c_write_reads c hw p buf n stop s, i2c_read_reads c hw p out n s,
    ?_, ?_, ?_, ?_, ?_⟩
  · intro h2 _ h stop
    have hp : 1 ≤ pred32 n := by
      unfold pred32
      rw [if_neg (by omega)]
      omega
    have e := txLoop_exhaust c hw buf (pred32 n) 1 (timeout0 c) (writeStart c p buf s) h hp
    cases stop with
    | I2C_NO_STOP_BIT =>
      show writeStatus (txLoop c hw buf (pred32 n) 1 (timeout0 c) (writeStart c p buf s)).1
        (timeout0 c) (timeout0 c) = _
      rw [e, writeStatus_zero1]
    | I2C_STOP_BIT =>
      show writeStatus (txLoop c hw buf (pred32 n) 1 (timeout0 c) (writeStart c p buf s)).1
        _ _ = _
      rw [e, writeStatus_zero1]
  · intro h
    show writeStatus _ (pollWhile hw c.BITP_I2C_MSTAT_MSTOP false (timeout0 c)
      (txLoop c hw buf (pred32 n) 1 (timeout0 c) (writeStart c p buf s)).2).1 _ = _
    rw [pollWhile_exhaust hw _ false _ _ h, writeStatus_zero2]
  · intro h
    show writeStatus _ _ (pollWhile hw c.BITP_I2C_MSTAT_MBUSY true (timeout0 c)
      (pollWhile hw c.BITP_I2C_MSTAT_MSTOP false (timeout0 c)
        (txLoop c hw buf (pred32 n) 1 (timeout0 c) (writeStart c p buf s)).2).2).1 = _
    rw [pollWhile_exhaust hw _ true _ _ h, writeStatus_zero3]
  · intro h1 _ h
    show readStatus (rxLoop c hw n 0 (timeout0 c) out (readStart c p n s)).1 _ = _
    rw [rxLoop_exhaust c hw _ 0 _ out _ h h1, readStatus_zero1]
  · intro h
    show readStatus _ (pollWhile hw c.BITP_I2C_MSTAT_MBUSY true (timeout0 c)
      (rxLoop c hw n 0 (timeout0 c) out (readStart c p n s)).2.2).1 = _
    rw [pollWhile_exhaust hw _ true _ _ h, readStatus_zero2]

/-- C10, witness: with the countdown at 232323 and a status register that
always reads 0 (no request, no stop detected), a write of two bytes and a
read of one byte return Failure; a status register that always reads busy
fails the write with stop. -/
theorem never_ready_returns_failure_witness :
    (i2c_write (devConsts 232323) (hwConst 0) (paramsOf 26000000 400000) (bufOf [1, 2]) 2
      i2c_stop_bit_t.I2C_NO_STOP_BIT machine0).1 = i2c_status_t.I2C_FAILURE ∧
    (i2c_read (devConsts 232323) (hwConst 0) (paramsOf 26000000 400000) (fun _ => 0) 1
      machine0).1 = i2c_status_t.I2C_FAILURE ∧
    (i2c_write (devConsts 232323) (hwConst 0x40) (paramsOf 26000000 400000) (bufOf [1]) 1
      i2c_stop_bit_t.I2C_STOP_BIT machine0).1 = i2c_status_t.I2C_FAILURE :=
  ⟨(never_ready_returns_failure (devConsts 232323) (hwConst 0) (paramsOf 26000000 400000)
      (bufOf [1, 2]) (fun _ => 0) 2 machine0).2.2.1 (by decide) (by decide)
      (fun _ => show bitIs 0 2 = false by decide) i2c_stop_bit_t.I2C_NO_STOP_BIT,
   (never_ready_returns_failure (devConsts 232323) (hwConst 0) (paramsOf 26000000 400000)
      (bufOf [1]) (fun _ => 0) 1 machine0).2.2.2.2.2.1 (by decide) (by decide)
      (fun _ => show bitIs 0 3 = false by decide),
   (never_ready_returns_failure (devConsts 232323) (hwConst 0x40) (paramsOf 26000000 400000)
      (bufOf [1]) (fun _ => 0) 1 machine0).2.2.2.2.1 (fun _ => show bitIs 0x40 6 = true by decide)⟩


/-! ## Bus configuration: frame facts -/

theorem regWrites_append (r : Reg) (a b : List Event) :
    regWrites r (a ++ b) = regWrites r a ++ regWrites r b := by
  simp [regWrites, List.filterMap_append]

theorem regWrites_polls (r : Reg) (bit : ℕ) (vs : List ℕ) :
    regWrites r (vs.map (Event.poll bit)) = [] := by
  induction vs with
  | nil => rfl
  | cons v vs ih => simp [regWrites]

/-- When the unbounded wait ends, it has changed nothing but the read
counter and the log, to which it added polls only. -/
theorem waitTCOMP_frame (c : Consts) (hw : Hw) (fuel : ℕ) (s s1 : Machine)
    (h : waitTCOMP c hw fuel s = some s1) :
    s1.i2c = s.i2c ∧ ∃ vs : List ℕ, s1.trace = s.trace ++ vs.map (Event.poll c.BITP_I2C_MSTAT_TCOMP) := by
  induction fuel generalizing s with
  | zero => simp [waitTCOMP] at h
  | succ n ih =>
    unfold waitTCOMP at h
    by_cases hc : bitIs (rdMSTAT hw c.BITP_I2C_MSTAT_TCOMP s).1 c.BITP_I2C_MSTAT_TCOMP = true
    · rw [if_pos hc] at h
      obtain ⟨e1, vs, e2⟩ := ih _ h
      refine ⟨e1, hw.MSTAT s.nMSTAT :: vs, ?_⟩
      rw [e2]
      simp [rdMSTAT]
    · rw [if_neg hc] at h
      have e : s1 = (rdMSTAT hw c.BITP_I2C_MSTAT_TCOMP s).2 := by
        simpa using h.symm
      subst e
      exact ⟨rfl, [hw.MSTAT s.nMSTAT], rfl⟩

/-- A transaction-complete bit that reads as set on every read keeps the
wait of `i2c_init` going for any number of reads. -/
theorem waitTCOMP_stuck (c : Consts) (hw : Hw) (fuel : ℕ) (s : Machine)
    (h : ∀ k, bitIs (hw.MSTAT k) c.BITP_I2C_MSTAT_TCOMP = true) :
    waitTCOMP c hw fuel s = none := by
  induction fuel generalizing s with
  | zero => rfl
  | succ n ih =>
    unfold waitTCOMP
    have hc : bitIs (rdMSTAT hw c.BITP_I2C_MSTAT_TCOMP s).1 c.BITP_I2C_MSTAT_TCOMP = true := h _
    rw [if_pos hc]
    exact ih _

/-- Every call of `i2c_init` that returns went through the wait, the master
disable and the divider check. -/
theorem i2c_init_returns (c : Consts) (hw : Hw) (fuel : ℕ) (p : I2C_parameters_t) (s s2 : Machine)
    (st : i2c_status_t) (h : i2c_init c hw fuel p s = Except.ok (st, s2)) :
    ∃ s1 i2cHigh, waitTCOMP c hw fuel (pinSetup p s) = some s1 ∧
      i2cHighOf p.pclkFrequency p.freq = some i2cHigh ∧
      (st, s2) = initDividers c i2cHigh (disableMaster c s1) := by
  unfold i2c_init at h
  cases hw1 : waitTCOMP c hw fuel (pinSetup p s) with
  | none => rw [hw1] at h; simp at h
  | some s1 =>
    cases hh : i2cHighOf p.pclkFrequency p.freq with
    | none => rw [hw1, hh] at h; simp at h
    | some i2cHigh =>
      rw [hw1, hh] at h
      refine ⟨s1, i2cHigh, rfl, rfl, ?_⟩
      simpa using h.symm

/-- A call of `i2c_init` whose wait ends and whose divider computation is
defined returns. -/
theorem i2c_init_ok (c : Consts) (hw : Hw) (fuel : ℕ) (p : I2C_parameters_t) (s : Machine)
    (i2cHigh : ℕ)
    (hwait : ∃ k, k < fuel ∧ bitIs (hw.MSTAT (s.nMSTAT + k)) c.BITP_I2C_MSTAT_TCOMP = false)
    (hh : i2cHighOf p.pclkFrequency p.freq = some i2cHigh) :
    ∃ s1, waitTCOMP c hw fuel (pinSetup p s) = some s1 ∧
      i2c_init c hw fuel p s = Except.ok (initDividers c i2cHigh (disableMaster c s1)) := by
  obtain ⟨s1, e1, -⟩ := waitTCOMP_some c hw fuel (pinSetup p s) hwait
  refine ⟨s1, e1, ?_⟩
  unfold i2c_init
  rw [e1, hh]

/-- The status chosen by the divider check, by value of the high count. -/
theorem initDividers_status (c : Consts) (i2cHigh : ℕ) (s : Machine) (h255 : i2cHigh ≤ 255) :
    (initDividers c i2cHigh s).1 =
      if i2cHigh ≤ 7 then i2c_status_t.I2C_SILICON_ANOMALY_21000011
      else if i2cHigh = 255 then i2c_status_t.I2C_WRONG_FREQUENCY
      else i2c_status_t.I2C_SUCCESS := by
  unfold initDividers i2cLowOf
  by_cases h7 : i2cHigh ≤ 7
  · rw [if_neg (by omega), if_pos h7]
  · by_cases hm : i2cHigh = 255
    · subst hm
      simp
    · rw [if_pos (by omega), if_pos (by omega), if_neg h7, if_neg hm]

/-- The divider check leaves `DIV` alone unless it returns Success, and never
touches `MCTL`. -/
theorem initDividers_frame (c : Consts) (i2cHigh : ℕ) (s : Machine) :
    ((initDividers c i2cHigh s).1 ≠ i2c_status_t.I2C_SUCCESS →
      (initDividers c i2cHigh s).2 = s) ∧
    ((initDividers c i2cHigh s).1 = i2c_status_t.I2C_SUCCESS →
      (initDividers c i2cHigh s).2.i2c.DIV = toReg c
        (((i2cHigh <<< c.BITP_I2C_DIV_HIGH) ||| (i2cLowOf i2cHigh <<< c.BITP_I2C_DIV_LOW)) % 2 ^ 16)) ∧
    (initDividers c i2cHigh s).2.i2c.MCTL = s.i2c.MCTL := by
  unfold initDividers
  split_ifs <;> simp [wrDIV]


theorem initDividers_status_indep (c : Consts) (i2cHigh : ℕ) (s t : Machine) :
    (initDividers c i2cHigh s).1 = (initDividers c i2cHigh t).1 := by
  unfold initDividers
  split_ifs <;> rfl

theorem i2c_init_stuck (c : Consts) (hw : Hw) (fuel : ℕ) (p : I2C_parameters_t) (s : Machine)
    (h : ∀ k, bitIs (hw.MSTAT k) c.BITP_I2C_MSTAT_TCOMP = true) :
    i2c_init c hw fuel p s = Except.error Fault.hang := by
  unfold i2c_init
  rw [waitTCOMP_stuck c hw fuel _ h]

theorem disableMaster_DIV (c : Consts) (s : Machine) : (disableMaster c s).i2c.DIV = s.i2c.DIV := rfl

theorem disableMaster_regWrites_DIV (c : Consts) (s : Machine) :
    regWrites Reg.DIV (disableMaster c s).trace = regWrites Reg.DIV s.trace := by
  simp [disableMaster, wrMCTL, logEv, regWrites, List.filterMap_append]

/-- C11: whenever `i2c_init` returns SiliconAnomaly or WrongFrequency, the
divider register holds the value it held before the call, and the call has
made no store into it. -/
theorem i2c_init_rejected_keeps_DIV (c : Consts) (hw : Hw) (fuel : ℕ) (p : I2C_parameters_t)
    (s s2 : Machine) (st : i2c_status_t) (h : i2c_init c hw fuel p s = Except.ok (st, s2))
    (hst : st = i2c_status_t.I2C_SILICON_ANOMALY_21000011 ∨ st = i2c_status_t.I2C_WRONG_FREQUENCY) :
    s2.i2c.DIV = s.i2c.DIV ∧ regWrites Reg.DIV s2.trace = regWrites Reg.DIV s.trace := by
  obtain ⟨s1, i2cHigh, hw1, -, e⟩ := i2c_init_returns c hw fuel p s s2 st h
  obtain ⟨hi, vs, ht⟩ := waitTCOMP_frame c hw fuel _ s1 hw1
  have e1 : st = (initDividers c i2cHigh (disableMaster c s1)).1 := congrArg Prod.fst e
  have e2 : s2 = (initDividers c i2cHigh (disableMaster c s1)).2 := congrArg Prod.snd e
  have hne : (initDividers c i2cHigh (disableMaster c s1)).1 ≠ i2c_status_t.I2C_SUCCESS := by
    rw [← e1]
    rcases hst with r | r <;> rw [r] <;> decide
  have e3 := (initDividers_frame c i2cHigh (disableMaster c s1)).1 hne
  rw [e3] at e2
  subst e2
  constructor
  · rw [disableMaster_DIV, hi]
    rfl
  · rw [disableMaster_regWrites_DIV, ht, regWrites_append, regWrites_polls, List.append_nil]
    rfl

/-- C11, witness: pclk = 26,000,000 and freq = 3,250,000 with `DIV` holding
0x1F20 before the call: SiliconAnomaly, and `DIV` still holds 0x1F20. -/
theorem i2c_init_rejected_keeps_DIV_witness :
    ∃ s2, i2c_init (devConsts 3) (hwConst 0) 1 (paramsOf 26000000 3250000)
        { machine0 with i2c := ⟨0, 0, 0, 0, 0, 0, 0x1F20⟩ } =
        Except.ok (i2c_status_t.I2C_SILICON_ANOMALY_21000011, s2) ∧ s2.i2c.DIV = 0x1F20 := by
  obtain ⟨s1, -, e⟩ := i2c_init_ok (devConsts 3) (hwConst 0) 1 (paramsOf 26000000 3250000)
    { machine0 with i2c := ⟨0, 0, 0, 0, 0, 0, 0x1F20⟩ } 2 ⟨0, by decide, by decide⟩
    i2cHighOf_26M_3250k
  exact ⟨_, e, (i2c_init_rejected_keeps_DIV _ _ _ _ _ _ _ e (Or.inl rfl)).1⟩

/-- C12: on every return path of `i2c_init` the master-enable bit of `MCTL`
is clear and every other bit of `MCTL` is as before the call.  (The bit lies
inside the register and `MCTL` holds a register value before the call.) -/
theorem i2c_init_mctl (c : Consts) (hw : Hw) (fuel : ℕ) (p : I2C_parameters_t)
    (s s2 : Machine) (st : i2c_status_t) (hb : c.BITP_I2C_MCTL_MASEN < c.REG_BITS)
    (hR : c.REG_BITS ≤ 32) (hx : s.i2c.MCTL < 2 ^ c.REG_BITS)
    (h : i2c_init c hw fuel p s = Except.ok (st, s2)) :
    s2.i2c.MCTL.testBit c.BITP_I2C_MCTL_MASEN = false ∧
    ∀ j, j ≠ c.BITP_I2C_MCTL_MASEN → s2.i2c.MCTL.testBit j = s.i2c.MCTL.testBit j := by
  obtain ⟨s1, i2cHigh, hw1, -, e⟩ := i2c_init_returns c hw fuel p s s2 st h
  obtain ⟨hi, -⟩ := waitTCOMP_frame c hw fuel _ s1 hw1
  have e2 : s2 = (initDividers c i2cHigh (disableMaster c s1)).2 := congrArg Prod.snd e
  have hm : s2.i2c.MCTL = toReg c (s.i2c.MCTL &&& not32 (bitMask c.BITP_I2C_MCTL_MASEN)) := by
    rw [e2, (initDividers_frame c i2cHigh (disableMaster c s1)).2.2]
    simp only [disableMaster, wrMCTL, logEv]
    rw [hi]
    rfl
  rw [hm]
  refine ⟨?_, fun j hj => ?_⟩
  · rw [testBit_clear c _ hb hR hx]
    simp
  · rw [testBit_clear c _ hb hR hx]
    have : ¬ c.BITP_I2C_MCTL_MASEN = j := fun h => hj h.symm
    simp [this]

/-- C12, witness: pclk = 26,000,000 and freq = 400,000 with `MCTL` holding
0x0137 before the call: Success, and bit 0 of `MCTL` is clear afterwards. -/
theorem i2c_init_mctl_witness :
    ∃ s2, i2c_init (devConsts 3) (hwConst 0) 1 (paramsOf 26000000 400000)
        { machine0 with i2c := ⟨0x0137, 0, 0, 0, 0, 0, 0⟩ } =
        Except.ok (i2c_status_t.I2C_SUCCESS, s2) ∧ s2.i2c.MCTL.testBit 0 = false := by
  obtain ⟨s1, -, e⟩ := i2c_init_ok (devConsts 3) (hwConst 0) 1 (paramsOf 26000000 400000)
    { machine0 with i2c := ⟨0x0137, 0, 0, 0, 0, 0, 0⟩ } 31 ⟨0, by decide, by decide⟩
    i2cHighOf_26M_400k
  exact ⟨_, e, (i2c_init_mctl (devConsts 3) _ _ _ _ _ _ (by decide) (by decide) (by decide) e).1⟩

/-- C13 (the code departs from the claim): the wait of `i2c_init` for the
transaction-complete bit has no countdown.  Against a status register whose
transaction-complete bit (bit 8) is set on every read, no number of reads
is enough for the call to return. -/
theorem i2c_init_never_returns :
    ∀ fuel : ℕ, i2c_init (devConsts 232323) (hwConst 0x100) fuel (paramsOf 26000000 400000)
      machine0 = Except.error Fault.hang :=
  fun fuel => i2c_init_stuck (devConsts 232323) (hwConst 0x100) fuel (paramsOf 26000000 400000)
    machine0 (fun _ => show bitIs 0x100 8 = true by decide)


/-- C14: when the pre-disable wait always ends (the transaction-complete bit
never stays set for `fuel` reads in a row) and the divider computation is
defined, two calls of `i2c_init` in a row return the same status, the second
call leaves `DIV` as the first call left it, and after a Success `DIV` holds
the pair computed from (pclkFrequency, freq), whatever the registers held
before the first call. -/
theorem i2c_init_twice (c : Consts) (hw : Hw) (fuel : ℕ) (p : I2C_parameters_t) (s : Machine)
    (i2cHigh : ℕ)
    (hwait : ∀ n, ∃ k, k < fuel ∧ bitIs (hw.MSTAT (n + k)) c.BITP_I2C_MSTAT_TCOMP = false)
    (hh : i2cHighOf p.pclkFrequency p.freq = some i2cHigh) :
    ∃ st s1 s2, i2c_init c hw fuel p s = Except.ok (st, s1) ∧
      i2c_init c hw fuel p s1 = Except.ok (st, s2) ∧
      s2.i2c.DIV = s1.i2c.DIV ∧
      (st = i2c_status_t.I2C_SUCCESS → s1.i2c.DIV = toReg c
        (((i2cHigh <<< c.BITP_I2C_DIV_HIGH) ||| (i2cLowOf i2cHigh <<< c.BITP_I2C_DIV_LOW)) % 2 ^ 16)) := by
  obtain ⟨a1, wa, ea⟩ := i2c_init_ok c hw fuel p s i2cHigh (hwait _) hh
  obtain ⟨b1, wb, eb⟩ := i2c_init_ok c hw fuel p (initDividers c i2cHigh (disableMaster c a1)).2
    i2cHigh (hwait _) hh
  obtain ⟨hi, -⟩ := waitTCOMP_frame c hw fuel _ b1 wb
  have hst := initDividers_status_indep c i2cHigh (disableMaster c b1) (disableMaster c a1)
  refine ⟨(initDividers c i2cHigh (disableMaster c a1)).1,
    (initDividers c i2cHigh (disableMaster c a1)).2,
    (initDividers c i2cHigh (disableMaster c b1)).2, ea, ?_, ?_, ?_⟩
  · rw [eb, ← hst]
  · by_cases hs : (initDividers c i2cHigh (disableMaster c a1)).1 = i2c_status_t.I2C_SUCCESS
    · rw [(initDividers_frame c i2cHigh (disableMaster c a1)).2.1 hs,
        (initDividers_frame c i2cHigh (disableMaster c b1)).2.1 (hst.trans hs)]
    · have hs2 : (initDividers c i2cHigh (disableMaster c b1)).1 ≠ i2c_status_t.I2C_SUCCESS :=
        fun h => hs (hst.symm.trans h)
      rw [(initDividers_frame c i2cHigh (disableMaster c b1)).1 hs2, disableMaster_DIV, hi]
      rfl
  · intro hs
    exact (initDividers_frame c i2cHigh (disableMaster c a1)).2.1 hs

/-- C14, witness: pclk = 26,000,000 and freq = 400,000 against an idle
status register, with `DIV` holding 0xFFFF before the first call: both calls
return Success and `DIV` holds 31 * 256 + 32 after each. -/
theorem i2c_init_twice_witness :
    ∃ s1 s2, i2c_init (devConsts 3) (hwConst 0) 1 (paramsOf 26000000 400000)
        { machine0 with i2c := ⟨0, 0, 0, 0, 0, 0, 0xFFFF⟩ } =
          Except.ok (i2c_status_t.I2C_SUCCESS, s1) ∧
      i2c_init (devConsts 3) (hwConst 0) 1 (paramsOf 26000000 400000) s1 =
          Except.ok (i2c_status_t.I2C_SUCCESS, s2) ∧
      s2.i2c.DIV = s1.i2c.DIV ∧ s1.i2c.DIV = 31 * 256 + 32 := by
  obtain ⟨st, s1, s2, e1, e2, e3, e4⟩ := i2c_init_twice (devConsts 3) (hwConst 0) 1
    (paramsOf 26000000 400000) { machine0 with i2c := ⟨0, 0, 0, 0, 0, 0, 0xFFFF⟩ } 31
    (fun _ => ⟨0, by decide, show bitIs 0 8 = false by decide⟩) i2cHighOf_26M_400k
  obtain ⟨a1, i2cHigh, -, hh, e⟩ := i2c_init_returns _ _ _ _ _ _ _ e1
  have hh2 : i2cHighOf 26000000 400000 = some i2cHigh := hh
  rw [i2cHighOf_26M_400k] at hh2
  have h31 : i2cHigh = 31 := (Option.some.inj hh2).symm
  subst h31
  have hst : st = i2c_status_t.I2C_SUCCESS := congrArg Prod.fst e
  subst hst
  exact ⟨s1, s2, e1, e2, e3, e4 rfl⟩

/-- C20: whenever the divider computation yields a high count and the
pre-disable wait ends, `i2c_init` returns WrongFrequency exactly when the
high count is 255 (the 8-bit low count is then 0), returns Success exactly
when 8 ≤ high ≤ 254, and returns SiliconAnomaly for a high count of 0, whose
low count is 1. -/
theorem i2c_init_status_by_high (c : Consts) (hw : Hw) (fuel : ℕ) (p : I2C_parameters_t)
    (s : Machine) (i2cHigh : ℕ)
    (hwait : ∃ k, k < fuel ∧ bitIs (hw.MSTAT (s.nMSTAT + k)) c.BITP_I2C_MSTAT_TCOMP = false)
    (hh : i2cHighOf p.pclkFrequency p.freq = some i2cHigh) :
    ∃ st s2, i2c_init c hw fuel p s = Except.ok (st, s2) ∧
      (st = i2c_status_t.I2C_WRONG_FREQUENCY ↔ i2cHigh = 255) ∧
      (st = i2c_status_t.I2C_SUCCESS ↔ 8 ≤ i2cHigh ∧ i2cHigh ≤ 254) ∧
      (i2cHigh = 255 → i2cLowOf i2cHigh = 0) ∧
      (i2cHigh = 0 → i2cLowOf i2cHigh = 1 ∧ i2cHigh + i2cLowOf i2cHigh = 1 ∧
        st = i2c_status_t.I2C_SILICON_ANOMALY_21000011) := by
  obtain ⟨s1, -, e⟩ := i2c_init_ok c hw fuel p s i2cHigh hwait hh
  have h255 := i2cHighOf_le _ _ _ hh
  have hst := initDividers_status c i2cHigh (disableMaster c s1) h255
  refine ⟨(initDividers c i2cHigh (disableMaster c s1)).1,
    (initDividers c i2cHigh (disableMaster c s1)).2, e, ?_, ?_, ?_, ?_⟩
  · rw [hst]
    by_cases h7 : i2cHigh ≤ 7
    · rw [if_pos h7]
      constructor
      · intro h; cases h
      · intro h; omega
    · by_cases hm : i2cHigh = 255
      · rw [if_neg h7, if_pos hm]
        exact ⟨fun _ => hm, fun _ => rfl⟩
      · rw [if_neg h7, if_neg hm]
        constructor
        · intro h; cases h
        · intro h; exact absurd h hm
  · rw [hst]
    by_cases h7 : i2cHigh ≤ 7
    · rw [if_pos h7]
      constructor
      · intro h; cases h
      · intro h; omega
    · by_cases hm : i2cHigh = 255
      · rw [if_neg h7, if_pos hm]
        constructor
        · intro h; cases h
        · intro h; omega
      · rw [if_neg h7, if_neg hm]
        exact ⟨fun _ => by omega, fun _ => rfl⟩
  · intro h
    subst h
    rfl
  · intro h
    subst h
    exact ⟨rfl, rfl, hst⟩

/-- C20, witness: pclk = 26,000,000 and freq = 50,584 give high = 255,
low = 0 and WrongFrequency. -/
theorem i2c_init_status_by_high_witness :
    i2cHighOf 26000000 50584 = some 255 ∧ i2cLowOf 255 = 0 ∧
    ∃ s2, i2c_init (devConsts 3) (hwConst 0) 1 (paramsOf 26000000 50584) machine0 =
      Except.ok (i2c_status_t.I2C_WRONG_FREQUENCY, s2) := by
  obtain ⟨st, s2, e, hw1, -⟩ := i2c_init_status_by_high (devConsts 3) (hwConst 0) 1
    (paramsOf 26000000 50584) machine0 255 ⟨0, by decide, by decide⟩ i2cHighOf_26M_50584
  have hst : st = i2c_status_t.I2C_WRONG_FREQUENCY := hw1.mpr rfl
  subst hst
  exact ⟨i2cHighOf_26M_50584, rfl, s2, e⟩


/-! ## Write and read transactions: order of the accesses -/

/-- A wait whose bit shows the awaited state for the first time on read
number `k + 1`, with `k` at most the countdown, stops there and has
decremented the countdown `k` times. -/
theorem pollWhile_exit (hw : Hw) (bit : ℕ) (spin : Bool) (k t : ℕ) (s : Machine) (hk : k ≤ t)
    (h1 : ∀ i, i < k → bitIs (hw.MSTAT (s.nMSTAT + i)) bit = spin)
    (h2 : bitIs (hw.MSTAT (s.nMSTAT + k)) bit ≠ spin) :
    (pollWhile hw bit spin t s).1 = t - k ∧
    (pollWhile hw bit spin t s).2.nMSTAT = s.nMSTAT + k + 1 := by
  induction k generalizing t s with
  | zero =>
    rw [pollWhile_hit hw bit spin t s h2]
    exact ⟨rfl, rfl⟩
  | succ k ih =>
    obtain ⟨t1, rfl⟩ : ∃ t1, t = t1 + 1 := ⟨t - 1, by omega⟩
    unfold pollWhile
    have hc : bitIs (rdMSTAT hw bit s).1 bit = spin := h1 0 (Nat.succ_pos k)
    rw [if_pos hc]
    have hn : (rdMSTAT hw bit s).2.nMSTAT = s.nMSTAT + 1 := rfl
    obtain ⟨a, b⟩ := ih t1 (rdMSTAT hw bit s).2 (by omega)
      (fun i hi => by
        rw [hn, Nat.add_assoc, Nat.add_comm 1 i]
        exact h1 (i + 1) (by omega))
      (by
        rw [hn, Nat.add_assoc, Nat.add_comm 1 k]
        exact h2)
    exact ⟨by rw [a]; omega, by rw [b, hn]; omega⟩

/-- The polls a wait adds to the log: at least one, and as many as it read
the status register. -/
theorem pollWhile_polls (hw : Hw) (bit : ℕ) (spin : Bool) (t : ℕ) (s : Machine) :
    ∃ vs : List ℕ, vs ≠ [] ∧
      (pollWhile hw bit spin t s).2.trace = s.trace ++ vs.map (Event.poll bit) ∧
      (pollWhile hw bit spin t s).2.nMSTAT = s.nMSTAT + vs.length := by
  induction t generalizing s with
  | zero => exact ⟨[hw.MSTAT s.nMSTAT], by simp, rfl, rfl⟩
  | succ t ih =>
    unfold pollWhile
    by_cases hc : bitIs (rdMSTAT hw bit s).1 bit = spin
    · rw [if_pos hc]
      obtain ⟨vs, -, e1, e2⟩ := ih (rdMSTAT hw bit s).2
      refine ⟨hw.MSTAT s.nMSTAT :: vs, by simp, ?_, ?_⟩
      · rw [e1]
        simp [rdMSTAT]
      · rw [e2]
        simp [rdMSTAT]
        omega
    · rw [if_neg hc]
      exact ⟨[hw.MSTAT s.nMSTAT], by simp, rfl, rfl⟩

theorem addr7_write {a : ℕ} (ha : a < 128) : ((a <<< 1) &&& 0xFE) % 256 = 2 * a := by
  interval_cases a <;> rfl

theorem addr7_read {a : ℕ} (ha : a < 128) : ((a <<< 1) ||| 0x01) % 256 = 2 * a + 1 := by
  interval_cases a <;> rfl

/-- The log of the statements of `i2c_write` before its loop. -/
theorem writeStart_trace (c : Consts) (p : I2C_parameters_t) (buf : ℕ → ℕ) (s : Machine) :
    (writeStart c p buf s).trace = s.trace ++
      [Event.read Reg.MCTL s.i2c.MCTL,
       Event.write Reg.MCTL (toReg c (s.i2c.MCTL ||| bitMask c.BITP_I2C_MCTL_MASEN)),
       Event.read Reg.STAT s.i2c.STAT,
       Event.write Reg.STAT (toReg c (s.i2c.STAT ||| bitMask c.BITP_I2C_STAT_MFLUSH)),
       Event.read Reg.STAT (toReg c (s.i2c.STAT ||| bitMask c.BITP_I2C_STAT_MFLUSH)),
       Event.write Reg.STAT (toReg c (toReg c (s.i2c.STAT ||| bitMask c.BITP_I2C_STAT_MFLUSH) &&&
         not32 (bitMask c.BITP_I2C_STAT_MFLUSH))),
       Event.write Reg.MTX (toReg c (buf 0)),
       Event.write Reg.ADDR2 (toReg c 0),
       Event.write Reg.ADDR1 (toReg c (((p.addr <<< 1) &&& 0xFE) % 256))] := by
  simp [writeStart, wrADDR1, wrADDR2, wrMTX, flushTx, wrSTAT, enableMaster, wrMCTL, logEv]

/-- The log of the statements of `i2c_read` before its loop. -/
theorem readStart_trace (c : Consts) (p : I2C_parameters_t) (n : ℕ) (s : Machine) :
    (readStart c p n s).trace = s.trace ++
      [Event.write Reg.MRXCNT (toReg c (pred32 n)),
       Event.write Reg.ADDR2 (toReg c 0),
       Event.write Reg.ADDR1 (toReg c (((p.addr <<< 1) ||| 0x01) % 256))] := by
  simp [readStart, wrADDR1, wrADDR2, wrMRXCNT]

/-- The transmit loop writes no register but `MTX`. -/
theorem txLoop_ext (c : Consts) (hw : Hw) (buf : ℕ → ℕ) (n k t : ℕ) (s : Machine) :
    (txLoop c hw buf n k t s).2.i2c.ADDR1 = s.i2c.ADDR1 ∧
    (txLoop c hw buf n k t s).2.i2c.ADDR2 = s.i2c.ADDR2 ∧
    ∃ post, (txLoop c hw buf n k t s).2.trace = s.trace ++ post ∧
      ∀ r, r ≠ Reg.MTX → regWrites r post = [] := by
  induction n generalizing k t s with
  | zero => exact ⟨rfl, rfl, [], by simp [txLoop], fun _ _ => rfl⟩
  | succ n ih =>
    unfold txLoop
    dsimp only
    obtain ⟨a1, a2, post, e, hp⟩ := ih (k + 1)
      (pollWhile hw c.BITP_I2C_MSTAT_MTXREQ false (timeout0 c) s).1
      (wrMTX c (buf k) (pollWhile hw c.BITP_I2C_MSTAT_MTXREQ false (timeout0 c) s).2)
    have hf := pollWhile_frame hw c.BITP_I2C_MSTAT_MTXREQ false (timeout0 c) s
    obtain ⟨vs, -, ev, -⟩ := pollWhile_polls hw c.BITP_I2C_MSTAT_MTXREQ false (timeout0 c) s
    refine ⟨?_, ?_, vs.map (Event.poll c.BITP_I2C_MSTAT_MTXREQ) ++
      [Event.write Reg.MTX (toReg c (buf k))] ++ post, ?_, ?_⟩
    · rw [a1]
      simp only [wrMTX]
      rw [hf.1]
    · rw [a2]
      simp only [wrMTX]
      rw [hf.1]
    · rw [e]
      simp only [wrMTX]
      rw [ev]
      simp [List.append_assoc]
    · intro r hr
      rw [regWrites_append, regWrites_append, regWrites_polls, hp r hr]
      have : regWrites r [Event.write Reg.MTX (toReg c (buf k))] = [] := by
        simp [regWrites, Ne.symm hr]
      rw [this]
      rfl

/-- The stop sequence adds the polls of the stop-detected wait, then the
polls of the bus-free wait, then the read and the store of the master
disable. -/
theorem stopPhase_trace (c : Consts) (hw : Hw) (s : Machine) :
    ∃ vs2 vs3 : List ℕ, vs2 ≠ [] ∧ vs3 ≠ [] ∧
      (stopPhase c hw s).2.2.trace = s.trace ++
        (vs2.map (Event.poll c.BITP_I2C_MSTAT_MSTOP) ++
         vs3.map (Event.poll c.BITP_I2C_MSTAT_MBUSY) ++
         [Event.read Reg.MCTL s.i2c.MCTL,
          Event.write Reg.MCTL (toReg c (s.i2c.MCTL &&& not32 (bitMask c.BITP_I2C_MCTL_MASEN)))]) ∧
      (stopPhase c hw s).2.2.nMSTAT = s.nMSTAT + vs2.length + vs3.length ∧
      (stopPhase c hw s).2.2.i2c = { s.i2c with
        MCTL := toReg c (s.i2c.MCTL &&& not32 (bitMask c.BITP_I2C_MCTL_MASEN)) } := by
  obtain ⟨vs2, n2, e2, m2⟩ := pollWhile_polls hw c.BITP_I2C_MSTAT_MSTOP false (timeout0 c) s
  obtain ⟨vs3, n3, e3, m3⟩ := pollWhile_polls hw c.BITP_I2C_MSTAT_MBUSY true (timeout0 c)
    (pollWhile hw c.BITP_I2C_MSTAT_MSTOP false (timeout0 c) s).2
  have h2 := pollWhile_frame hw c.BITP_I2C_MSTAT_MSTOP false (timeout0 c) s
  have h3 := pollWhile_frame hw c.BITP_I2C_MSTAT_MBUSY true (timeout0 c)
    (pollWhile hw c.BITP_I2C_MSTAT_MSTOP false (timeout0 c) s).2
  have hi : (pollWhile hw c.BITP_I2C_MSTAT_MBUSY true (timeout0 c)
      (pollWhile hw c.BITP_I2C_MSTAT_MSTOP false (timeout0 c) s).2).2.i2c = s.i2c := by
    rw [h3.1, h2.1]
  refine ⟨vs2, vs3, n2, n3, ?_, ?_, ?_⟩
  · simp only [stopPhase, disableMaster, wrMCTL, logEv]
    rw [e3, e2, hi]
    simp [List.append_assoc]
  · show (pollWhile hw c.BITP_I2C_MSTAT_MBUSY true (timeout0 c)
      (pollWhile hw c.BITP_I2C_MSTAT_MSTOP false (timeout0 c) s).2).2.nMSTAT = _
    rw [m3, m2]
  · simp only [stopPhase, disableMaster, wrMCTL, logEv]
    rw [hi]


/-- After its prologue `i2c_write` writes no register but `MTX` and `MCTL`. -/
theorem i2c_write_ext (c : Consts) (hw : Hw) (p : I2C_parameters_t) (buf : ℕ → ℕ) (n : ℕ)
    (stop : i2c_stop_bit_t) (s : Machine) :
    (i2c_write c hw p buf n stop s).2.i2c.ADDR1 = (writeStart c p buf s).i2c.ADDR1 ∧
    (i2c_write c hw p buf n stop s).2.i2c.ADDR2 = (writeStart c p buf s).i2c.ADDR2 ∧
    ∃ post, (i2c_write c hw p buf n stop s).2.trace = (writeStart c p buf s).trace ++ post ∧
      ∀ r, r ≠ Reg.MTX → r ≠ Reg.MCTL → regWrites r post = [] := by
  obtain ⟨a1, a2, post, e, hp⟩ := txLoop_ext c hw buf (pred32 n) 1 (timeout0 c)
    (writeStart c p buf s)
  cases stop with
  | I2C_NO_STOP_BIT =>
    exact ⟨a1, a2, post, e, fun r h1 _ => hp r h1⟩
  | I2C_STOP_BIT =>
    obtain ⟨vs2, vs3, -, -, et, -, ei⟩ := stopPhase_trace c hw
      (txLoop c hw buf (pred32 n) 1 (timeout0 c) (writeStart c p buf s)).2
    refine ⟨?_, ?_, post ++ (vs2.map (Event.poll c.BITP_I2C_MSTAT_MSTOP) ++
         vs3.map (Event.poll c.BITP_I2C_MSTAT_MBUSY) ++
         [Event.read Reg.MCTL
            (txLoop c hw buf (pred32 n) 1 (timeout0 c) (writeStart c p buf s)).2.i2c.MCTL,
          Event.write Reg.MCTL (toReg c
            ((txLoop c hw buf (pred32 n) 1 (timeout0 c) (writeStart c p buf s)).2.i2c.MCTL &&&
              not32 (bitMask c.BITP_I2C_MCTL_MASEN)))]), ?_, ?_⟩
    · show (stopPhase c hw
        (txLoop c hw buf (pred32 n) 1 (timeout0 c) (writeStart c p buf s)).2).2.2.i2c.ADDR1 = _
      rw [ei]
      exact a1
    · show (stopPhase c hw
        (txLoop c hw buf (pred32 n) 1 (timeout0 c) (writeStart c p buf s)).2).2.2.i2c.ADDR2 = _
      rw [ei]
      exact a2
    · show (stopPhase c hw
        (txLoop c hw buf (pred32 n) 1 (timeout0 c) (writeStart c p buf s)).2).2.2.trace = _
      rw [et, e, List.append_assoc]
    · intro r h1 h2
      rw [regWrites_append, regWrites_append, regWrites_append, regWrites_polls, regWrites_polls,
        hp r h1]
      simp [regWrites, Ne.symm h2]

/-- The receive loop writes no register. -/
theorem rxLoop_ext (c : Consts) (hw : Hw) (n k t : ℕ) (out : ℕ → ℕ) (s : Machine) :
    ∃ post, (rxLoop c hw n k t out s).2.2.trace = s.trace ++ post ∧
      ∀ r, regWrites r post = [] := by
  induction n generalizing k t out s with
  | zero => exact ⟨[], by simp [rxLoop], fun _ => rfl⟩
  | succ n ih =>
    unfold rxLoop
    dsimp only
    obtain ⟨post, e, hp⟩ := ih (k + 1)
      (pollWhile hw c.BITP_I2C_MSTAT_MRXREQ false (timeout0 c) s).1
      (Function.update out k
        ((rdMRX hw (pollWhile hw c.BITP_I2C_MSTAT_MRXREQ false (timeout0 c) s).2).1 % 256))
      (rdMRX hw (pollWhile hw c.BITP_I2C_MSTAT_MRXREQ false (timeout0 c) s).2).2
    obtain ⟨vs, -, ev, -⟩ := pollWhile_polls hw c.BITP_I2C_MSTAT_MRXREQ false (timeout0 c) s
    refine ⟨vs.map (Event.poll c.BITP_I2C_MSTAT_MRXREQ) ++
      [Event.read Reg.MRX (hw.MRX
        (pollWhile hw c.BITP_I2C_MSTAT_MRXREQ false (timeout0 c) s).2.nMRX)] ++ post, ?_, ?_⟩
    · rw [e]
      simp only [rdMRX]
      rw [ev]
      simp [List.append_assoc]
    · intro r
      rw [regWrites_append, regWrites_append, regWrites_polls, hp r]
      rfl

/-- After its prologue `i2c_read` writes no register but `MCTL`. -/
theorem i2c_read_ext (c : Consts) (hw : Hw) (p : I2C_parameters_t) (out : ℕ → ℕ) (n : ℕ)
    (s : Machine) :
    (i2c_read c hw p out n s).2.2.i2c.ADDR1 = (readStart c p n s).i2c.ADDR1 ∧
    (i2c_read c hw p out n s).2.2.i2c.ADDR2 = (readStart c p n s).i2c.ADDR2 ∧
    (i2c_read c hw p out n s).2.2.i2c.MRXCNT = (readStart c p n s).i2c.MRXCNT ∧
    ∃ post, (i2c_read c hw p out n s).2.2.trace = (readStart c p n s).trace ++ post ∧
      ∀ r, r ≠ Reg.MCTL → regWrites r post = [] := by
  obtain ⟨post, e, hp⟩ := rxLoop_ext c hw n 0 (timeout0 c) out (readStart c p n s)
  have hl := (rxLoop_spec c hw n 0 (timeout0 c) out (readStart c p n s)).2.2.2.2
  have hf := pollWhile_frame hw c.BITP_I2C_MSTAT_MBUSY true (timeout0 c)
    (rxLoop c hw n 0 (timeout0 c) out (readStart c p n s)).2.2
  obtain ⟨vs, -, ev, -⟩ := pollWhile_polls hw c.BITP_I2C_MSTAT_MBUSY true (timeout0 c)
    (rxLoop c hw n 0 (timeout0 c) out (readStart c p n s)).2.2
  have hi : (pollWhile hw c.BITP_I2C_MSTAT_MBUSY true (timeout0 c)
      (rxLoop c hw n 0 (timeout0 c) out (readStart c p n s)).2.2).2.i2c =
      (readStart c p n s).i2c := by rw [hf.1, hl]
  refine ⟨?_, ?_, ?_, post ++ (vs.map (Event.poll c.BITP_I2C_MSTAT_MBUSY) ++
    [Event.read Reg.MCTL (readStart c p n s).i2c.MCTL,
     Event.write Reg.MCTL (toReg c ((readStart c p n s).i2c.MCTL &&&
       not32 (bitMask c.BITP_I2C_MCTL_MASEN)))]), ?_, ?_⟩
  · show (disableMaster c (pollWhile hw c.BITP_I2C_MSTAT_MBUSY true (timeout0 c)
      (rxLoop c hw n 0 (timeout0 c) out (readStart c p n s)).2.2).2).i2c.ADDR1 = _
    simp only [disableMaster, wrMCTL, logEv]
    rw [hi]
  · show (disableMaster c (pollWhile hw c.BITP_I2C_MSTAT_MBUSY true (timeout0 c)
      (rxLoop c hw n 0 (timeout0 c) out (readStart c p n s)).2.2).2).i2c.ADDR2 = _
    simp only [disableMaster, wrMCTL, logEv]
    rw [hi]
  · show (disableMaster c (pollWhile hw c.BITP_I2C_MSTAT_MBUSY true (timeout0 c)
      (rxLoop c hw n 0 (timeout0 c) out (readStart c p n s)).2.2).2).i2c.MRXCNT = _
    simp only [disableMaster, wrMCTL, logEv]
    rw [hi]
  · show (disableMaster c (pollWhile hw c.BITP_I2C_MSTAT_MBUSY true (timeout0 c)
      (rxLoop c hw n 0 (timeout0 c) out (readStart c p n s)).2.2).2).trace = _
    simp only [disableMaster, wrMCTL, logEv]
    rw [ev, e, hi]
    simp [List.append_assoc]
  · intro r hr
    rw [regWrites_append, regWrites_append, regWrites_polls, hp r]
    simp [regWrites, Ne.symm hr]

/-- C15: for every 7-bit slave address a, `i2c_write` programs ADDR2 = 0 and
ADDR1 = 2 * a, `i2c_read` programs ADDR2 = 0 and ADDR1 = 2 * a + 1, these
are the only stores into the two address registers, and in `i2c_write` the
first byte is stored into `MTX` before the address registers are written
(no earlier store into `MTX`).  (The registers are at least 8 bits wide.) -/
theorem slave_address_programming (c : Consts) (hw : Hw) (p : I2C_parameters_t) (buf out : ℕ → ℕ)
    (n : ℕ) (stop : i2c_stop_bit_t) (s : Machine) (ha : p.addr < 128) (hr : 8 ≤ c.REG_BITS) :
    ((i2c_write c hw p buf n stop s).2.i2c.ADDR2 = 0 ∧
      (i2c_write c hw p buf n stop s).2.i2c.ADDR1 = 2 * p.addr ∧
      ∃ pre post, (i2c_write c hw p buf n stop s).2.trace =
          s.trace ++ pre ++
            [Event.write Reg.MTX (toReg c (buf 0)), Event.write Reg.ADDR2 0,
             Event.write Reg.ADDR1 (2 * p.addr)] ++ post ∧
        regWrites Reg.MTX pre = [] ∧ regWrites Reg.ADDR1 pre = [] ∧
        regWrites Reg.ADDR2 pre = [] ∧ regWrites Reg.ADDR1 post = [] ∧
        regWrites Reg.ADDR2 post = []) ∧
    ((i2c_read c hw p out n s).2.2.i2c.ADDR2 = 0 ∧
      (i2c_read c hw p out n s).2.2.i2c.ADDR1 = 2 * p.addr + 1 ∧
      regWrites Reg.ADDR2 (i2c_read c hw p out n s).2.2.trace = regWrites Reg.ADDR2 s.trace ++ [0] ∧
      regWrites Reg.ADDR1 (i2c_read c hw p out n s).2.2.trace =
        regWrites Reg.ADDR1 s.trace ++ [2 * p.addr + 1]) := by
  have hz : toReg c 0 = 0 := toReg_byte c hr (by norm_num)
  have hw1 : toReg c (((p.addr <<< 1) &&& 0xFE) % 256) = 2 * p.addr := by
    rw [addr7_write ha]
    exact toReg_byte c hr (by omega)
  have hr1 : toReg c (((p.addr <<< 1) ||| 0x01) % 256) = 2 * p.addr + 1 := by
    rw [addr7_read ha]
    exact toReg_byte c hr (by omega)
  obtain ⟨a1, a2, post, e, hp⟩ := i2c_write_ext c hw p buf n stop s
  obtain ⟨b1, b2, -, rpost, re, rhp⟩ := i2c_read_ext c hw p out n s
  refine ⟨⟨?_, ?_, ?_⟩, ?_, ?_, ?_, ?_⟩
  · rw [a2]
    exact hz
  · rw [a1]
    exact hw1
  · refine ⟨[Event.read Reg.MCTL s.i2c.MCTL,
       Event.write Reg.MCTL (toReg c (s.i2c.MCTL ||| bitMask c.BITP_I2C_MCTL_MASEN)),
       Event.read Reg.STAT s.i2c.STAT,
       Event.write Reg.STAT (toReg c (s.i2c.STAT ||| bitMask c.BITP_I2C_STAT_MFLUSH)),
       Event.read Reg.STAT (toReg c (s.i2c.STAT ||| bitMask c.BITP_I2C_STAT_MFLUSH)),
       Event.write Reg.STAT (toReg c (toReg c (s.i2c.STAT ||| bitMask c.BITP_I2C_STAT_MFLUSH) &&&
         not32 (bitMask c.BITP_I2C_STAT_MFLUSH)))], post, ?_, by simp [regWrites],
       by simp [regWrites], by simp [regWrites], hp _ (by decide) (by decide),
       hp _ (by decide) (by decide)⟩
    rw [e, writeStart_trace, hz, hw1]
    simp [List.append_assoc]
  · rw [b2]
    exact hz
  · rw [b1]
    exact hr1
  · rw [re, readStart_trace, regWrites_append, regWrites_append, rhp _ (by decide), hz]
    simp [regWrites]
  · rw [re, readStart_trace, regWrites_append, regWrites_append, rhp _ (by decide), hr1]
    simp [regWrites]

/-- C15, witness: the slave address 0x38 gives ADDR1 = 0x70 for a write and
ADDR1 = 0x71 for a read. -/
theorem slave_address_programming_witness :
    (i2c_write (devConsts 3) (hwConst 0x804) (paramsOf 26000000 400000) (bufOf [0xA5, 1]) 2
      i2c_stop_bit_t.I2C_STOP_BIT machine0).2.i2c.ADDR1 = 2 * 0x38 ∧
    (i2c_read (devConsts 3) (hwConst 0x008) (paramsOf 26000000 400000) (fun _ => 0) 2
      machine0).2.2.i2c.ADDR1 = 2 * 0x38 + 1 :=
  ⟨(slave_address_programming (devConsts 3) (hwConst 0x804) (paramsOf 26000000 400000)
      (bufOf [0xA5, 1]) (fun _ => 0) 2 i2c_stop_bit_t.I2C_STOP_BIT machine0 (by decide)
      (by decide)).1.2.1,
   (slave_address_programming (devConsts 3) (hwConst 0x008) (paramsOf 26000000 400000)
      (bufOf [0xA5, 1]) (fun _ => 0) 2 i2c_stop_bit_t.I2C_STOP_BIT machine0 (by decide)
      (by decide)).2.2.1⟩


/-- C17: in `i2c_write` with stop the status is computed from the countdown
of the last per-byte wait and from the countdowns of the stop-detected wait
and of the bus-free wait, each started at the full `I2C_TIMEOUT`.  A
stop-detected wait that ends with its countdown at zero gives Failure
whatever the two other countdowns are; a stop-detected wait that sees the
stop bit after k < `I2C_TIMEOUT` polls ends with countdown `I2C_TIMEOUT - k`
and the bus-free wait that follows still tolerates any j < `I2C_TIMEOUT`
busy polls, ending with countdown `I2C_TIMEOUT - j`. -/
theorem stop_waits_independent (c : Consts) (hw : Hw) (p : I2C_parameters_t) (buf : ℕ → ℕ) (n : ℕ)
    (s : Machine) :
    (i2c_write c hw p buf n i2c_stop_bit_t.I2C_STOP_BIT s).1 =
      writeStatus (txLoop c hw buf (pred32 n) 1 (timeout0 c) (writeStart c p buf s)).1
        (pollWhile hw c.BITP_I2C_MSTAT_MSTOP false (timeout0 c)
          (txLoop c hw buf (pred32 n) 1 (timeout0 c) (writeStart c p buf s)).2).1
        (pollWhile hw c.BITP_I2C_MSTAT_MBUSY true (timeout0 c)
          (pollWhile hw c.BITP_I2C_MSTAT_MSTOP false (timeout0 c)
            (txLoop c hw buf (pred32 n) 1 (timeout0 c) (writeStart c p buf s)).2).2).1 ∧
    ((pollWhile hw c.BITP_I2C_MSTAT_MSTOP false (timeout0 c)
          (txLoop c hw buf (pred32 n) 1 (timeout0 c) (writeStart c p buf s)).2).1 = 0 →
      (i2c_write c hw p buf n i2c_stop_bit_t.I2C_STOP_BIT s).1 = i2c_status_t.I2C_FAILURE) ∧
    (∀ (m : Machine) (k j : ℕ), k < timeout0 c → j < timeout0 c →
      (∀ i, i < k → bitIs (hw.MSTAT (m.nMSTAT + i)) c.BITP_I2C_MSTAT_MSTOP = false) →
      bitIs (hw.MSTAT (m.nMSTAT + k)) c.BITP_I2C_MSTAT_MSTOP = true →
      (∀ i, i < j → bitIs (hw.MSTAT (m.nMSTAT + k + 1 + i)) c.BITP_I2C_MSTAT_MBUSY = true) →
      bitIs (hw.MSTAT (m.nMSTAT + k + 1 + j)) c.BITP_I2C_MSTAT_MBUSY = false →
      (stopPhase c hw m).1 = timeout0 c - k ∧ (stopPhase c hw m).2.1 = timeout0 c - j ∧
        0 < (stopPhase c hw m).2.1) := by
  refine ⟨rfl, ?_, ?_⟩
  · intro h0
    show writeStatus _ (pollWhile hw c.BITP_I2C_MSTAT_MSTOP false (timeout0 c)
      (txLoop c hw buf (pred32 n) 1 (timeout0 c) (writeStart c p buf s)).2).1 _ = _
    rw [h0, writeStatus_zero2]
  · intro m k j hk hj a1 a2 b1 b2
    obtain ⟨e1, e2⟩ := pollWhile_exit hw c.BITP_I2C_MSTAT_MSTOP false k (timeout0 c) m
      (Nat.le_of_lt hk) a1 (by rw [a2]; decide)
    obtain ⟨f1, -⟩ := pollWhile_exit hw c.BITP_I2C_MSTAT_MBUSY true j (timeout0 c)
      (pollWhile hw c.BITP_I2C_MSTAT_MSTOP false (timeout0 c) m).2 (Nat.le_of_lt hj)
      (fun i hi => by rw [e2]; exact b1 i hi) (by rw [e2, b2]; decide)
    have g1 : (stopPhase c hw m).1 =
      (pollWhile hw c.BITP_I2C_MSTAT_MSTOP false (timeout0 c) m).1 := rfl
    have g2 : (stopPhase c hw m).2.1 = (pollWhile hw c.BITP_I2C_MSTAT_MBUSY true (timeout0 c)
      (pollWhile hw c.BITP_I2C_MSTAT_MSTOP false (timeout0 c) m).2).1 := rfl
    rw [g1, g2, e1, f1]
    exact ⟨rfl, rfl, by omega⟩

/-- C17, witness: with the countdown at 232323, a status register that always
shows the transmit request and a free bus but never the stop bit fails a
write of three bytes with stop. -/
theorem stop_waits_independent_witness :
    (i2c_write (devConsts 232323) (hwConst 0x004) (paramsOf 26000000 400000) (bufOf [1, 2, 3]) 3
      i2c_stop_bit_t.I2C_STOP_BIT machine0).1 = i2c_status_t.I2C_FAILURE :=
  (stop_waits_independent (devConsts 232323) (hwConst 0x004) (paramsOf 26000000 400000)
    (bufOf [1, 2, 3]) 3 machine0).2.1
    (pollWhile_exhaust (hwConst 0x004) 11 false _ _ (fun _ => show bitIs 0x004 11 = false by decide))


theorem pollsOf_append (bit : ℕ) (a b : List Event) :
    pollsOf bit (a ++ b) = pollsOf bit a ++ pollsOf bit b := by
  simp [pollsOf, List.filterMap_append]

theorem pollsOf_other (bit b : ℕ) (vs : List ℕ) (h : b ≠ bit) :
    pollsOf bit (vs.map (Event.poll b)) = [] := by
  induction vs with
  | nil => rfl
  | cons v vs ih => simp [pollsOf, h]

theorem writeStart_pollsOf (c : Consts) (p : I2C_parameters_t) (buf : ℕ → ℕ) (s : Machine)
    (bit : ℕ) : pollsOf bit (writeStart c p buf s).trace = pollsOf bit s.trace := by
  rw [writeStart_trace, pollsOf_append]
  simp [pollsOf]

/-- C18: a write of exactly 1 byte stores exactly one byte, the only byte of
the buffer, into `MTX` and never polls the transmit-request bit.  Without
stop the call ends after the prologue, having read the status register zero
times; with stop the prologue is followed by the polls of the stop-detected
wait (at least one), then the polls of the bus-free wait (at least one),
then the read and the store that clear the master-enable bit.  (The three
status bits are distinct; the master-enable bit lies inside the register.) -/
theorem write_one_byte (c : Consts) (hw : Hw) (p : I2C_parameters_t) (buf : ℕ → ℕ) (s : Machine)
    (hd1 : c.BITP_I2C_MSTAT_MSTOP ≠ c.BITP_I2C_MSTAT_MTXREQ)
    (hd2 : c.BITP_I2C_MSTAT_MBUSY ≠ c.BITP_I2C_MSTAT_MTXREQ)
    (hb : c.BITP_I2C_MCTL_MASEN < c.REG_BITS) (hR : c.REG_BITS ≤ 32) :
    (∀ stop, mtxWrites (i2c_write c hw p buf 1 stop s).2.trace =
      mtxWrites s.trace ++ [toReg c (buf 0)]) ∧
    (∀ stop, pollsOf c.BITP_I2C_MSTAT_MTXREQ (i2c_write c hw p buf 1 stop s).2.trace =
      pollsOf c.BITP_I2C_MSTAT_MTXREQ s.trace) ∧
    (i2c_write c hw p buf 1 i2c_stop_bit_t.I2C_NO_STOP_BIT s).2 = writeStart c p buf s ∧
    (i2c_write c hw p buf 1 i2c_stop_bit_t.I2C_NO_STOP_BIT s).2.nMSTAT = s.nMSTAT ∧
    (∃ vs2 vs3 : List ℕ, vs2 ≠ [] ∧ vs3 ≠ [] ∧
      (i2c_write c hw p buf 1 i2c_stop_bit_t.I2C_STOP_BIT s).2.trace =
        (writeStart c p buf s).trace ++
          (vs2.map (Event.poll c.BITP_I2C_MSTAT_MSTOP) ++
           vs3.map (Event.poll c.BITP_I2C_MSTAT_MBUSY) ++
           [Event.read Reg.MCTL (writeStart c p buf s).i2c.MCTL,
            Event.write Reg.MCTL (toReg c ((writeStart c p buf s).i2c.MCTL &&&
              not32 (bitMask c.BITP_I2C_MCTL_MASEN)))])) ∧
    (i2c_write c hw p buf 1 i2c_stop_bit_t.I2C_STOP_BIT s).2.i2c.MCTL.testBit
      c.BITP_I2C_MCTL_MASEN = false := by
  obtain ⟨vs2, vs3, n2, n3, et, -, ei⟩ := stopPhase_trace c hw (writeStart c p buf s)
  have hstop : (i2c_write c hw p buf 1 i2c_stop_bit_t.I2C_STOP_BIT s).2 =
      (stopPhase c hw (writeStart c p buf s)).2.2 := rfl
  have hno : (i2c_write c hw p buf 1 i2c_stop_bit_t.I2C_NO_STOP_BIT s).2 =
      writeStart c p buf s := rfl
  refine ⟨?_, ?_, hno, ?_, ⟨vs2, vs3, n2, n3, ?_⟩, ?_⟩
  · intro stop
    rw [i2c_write_mtxWrites]
    rfl
  · intro stop
    cases stop with
    | I2C_NO_STOP_BIT => rw [hno, writeStart_pollsOf]
    | I2C_STOP_BIT =>
      rw [hstop, et, pollsOf_append, pollsOf_append, pollsOf_append, pollsOf_other _ _ _ hd1,
        pollsOf_other _ _ _ hd2, writeStart_pollsOf]
      simp [pollsOf]
  · rw [hno]
    rfl
  · rw [hstop, et]
  · rw [hstop, ei]
    show (toReg c ((writeStart c p buf s).i2c.MCTL &&&
      not32 (bitMask c.BITP_I2C_MCTL_MASEN))).testBit c.BITP_I2C_MCTL_MASEN = false
    rw [writeStart_MCTL, testBit_clear c _ hb hR (toReg_lt c _)]
    simp

/-- C18, witness: one command byte, 0xBA, written with stop (the call made by
`AHT20_SoftReset`), against a peripheral that shows stop and a free bus at
once: the byte is staged, the stop-detected bit and the busy bit are polled once each,
the master is disabled and the call returns Success. -/
theorem write_one_byte_witness :
    (∀ stop, mtxWrites (i2c_write (devConsts 232323) (hwConst 0x800) (paramsOf 26000000 400000)
      (bufOf [0xBA]) 1 stop machine0).2.trace = mtxWrites machine0.trace ++ [0xBA]) ∧
    i2c_write (devConsts 232323) (hwConst 0x800) (paramsOf 26000000 400000) (bufOf [0xBA]) 1
      i2c_stop_bit_t.I2C_STOP_BIT machine0 =
      (i2c_status_t.I2C_SUCCESS,
       (i2c_write (devConsts 232323) (hwConst 0x800) (paramsOf 26000000 400000) (bufOf [0xBA]) 1
          i2c_stop_bit_t.I2C_STOP_BIT machine0).2) ∧
    (i2c_write (devConsts 232323) (hwConst 0x800) (paramsOf 26000000 400000) (bufOf [0xBA]) 1
      i2c_stop_bit_t.I2C_STOP_BIT machine0).2.trace =
        [Event.read Reg.MCTL 0, Event.write Reg.MCTL 1,
         Event.read Reg.STAT 0, Event.write Reg.STAT 0x200,
         Event.read Reg.STAT 0x200, Event.write Reg.STAT 0,
         Event.write Reg.MTX 0xBA, Event.write Reg.ADDR2 0, Event.write Reg.ADDR1 0x70,
         Event.poll 11 0x800, Event.poll 6 0x800,
         Event.read Reg.MCTL 1, Event.write Reg.MCTL 0] :=
  ⟨(write_one_byte (devConsts 232323) (hwConst 0x800) (paramsOf 26000000 400000) (bufOf [0xBA])
      machine0 (by decide) (by decide) (by decide) (by decide)).1,
   by
     have h : (i2c_write (devConsts 232323) (hwConst 0x800) (paramsOf 26000000 400000)
       (bufOf [0xBA]) 1 i2c_stop_bit_t.I2C_STOP_BIT machine0).1 = i2c_status_t.I2C_SUCCESS := by
       decide
     exact Prod.ext h rfl,
   by decide⟩

/-! ## MLX90614 temperature decoding -/

/-- What the parsing statements compute: the first byte taken as an unsigned
number, for either state of its bit 7, plus the quarter selected by the
second byte. -/
theorem parseTemperature_eq (cmd0 cmd1 : ℕ) :
    parseTemperature cmd0 cmd1 = (cmd0 : ℚ) +
      (if cmd1 = 0x40 then 1 / 4 else if cmd1 = 0x80 then 1 / 2
       else if cmd1 = 0xC0 then 3 / 4 else 0) := by
  have ht : (if cmd0 &&& 0b10000000 = 0b00000000 then (cmd0 : ℚ)
      else -1 * ((notInt (cmd0 : ℤ) + 1 : ℤ) : ℚ)) = (cmd0 : ℚ) := by
    split_ifs
    · rfl
    · unfold notInt
      push_cast
      ring
  unfold parseTemperature
  simp only [ht]
  split_ifs <;> simp_all

/-- The value `MLX90614_ReadTemperature` stores is the parse of the two bytes
that its call of `i2c_read` left in the buffer. -/
theorem MLX90614_ReadTemperature_value (c : Consts) (hw : Hw) (p : I2C_parameters_t) (m : ℕ)
    (s : Machine) :
    (MLX90614_ReadTemperature c hw p m s).2.1 =
      parseTemperature
        ((i2c_read c hw p (fun i => if i = 0 then m else 0) 2
          (i2c_write c hw p (fun i => if i = 0 then m else 0) 1
            i2c_stop_bit_t.I2C_NO_STOP_BIT s).2).2.1 0)
        ((i2c_read c hw p (fun i => if i = 0 then m else 0) 2
          (i2c_write c hw p (fun i => if i = 0 then m else 0) 1
            i2c_stop_bit_t.I2C_NO_STOP_BIT s).2).2.1 1) := rfl

/-- C19 (the code departs from the claim): with the reply bytes 0xFF, 0x00
(bit 7 of the first byte set) `MLX90614_ReadTemperature` returns Success and
stores 255 in `Temperature`, where the claim, like the comment
`Negative value` of the code, expects the two's-complement value
0xFF - 256 = -1: the byte is promoted to `int` before `~`, so
`( ~cmd[0] ) + 1` is -255 and the product with -1.0 is +255. -/
theorem MLX90614_negative_reads_positive :
    (MLX90614_ReadTemperature (devConsts 232323) (hwReply 0x008 [0xFF, 0x00])
      (paramsOf 26000000 400000) 0x11 machine0).1 = MLX90614_status_t.MLX90614_SUCCESS ∧
    (MLX90614_ReadTemperature (devConsts 232323) (hwReply 0x008 [0xFF, 0x00])
      (paramsOf 26000000 400000) 0x11 machine0).2.1 = 255 ∧
    (255 : ℚ) ≠ 0xFF - 256 := by
  have h0 : (i2c_read (devConsts 232323) (hwReply 0x008 [0xFF, 0x00]) (paramsOf 26000000 400000)
      (fun i => if i = 0 then 0x11 else 0) 2
      (i2c_write (devConsts 232323) (hwReply 0x008 [0xFF, 0x00]) (paramsOf 26000000 400000)
        (fun i => if i = 0 then 0x11 else 0) 1 i2c_stop_bit_t.I2C_NO_STOP_BIT machine0).2).2.1 0
      = 0xFF := by decide
  have h1 : (i2c_read (devConsts 232323) (hwReply 0x008 [0xFF, 0x00]) (paramsOf 26000000 400000)
      (fun i => if i = 0 then 0x11 else 0) 2
      (i2c_write (devConsts 232323) (hwReply 0x008 [0xFF, 0x00]) (paramsOf 26000000 400000)
        (fun i => if i = 0 then 0x11 else 0) 1 i2c_stop_bit_t.I2C_NO_STOP_BIT machine0).2).2.1 1
      = 0x00 := by decide
  refine ⟨by decide, ?_, by norm_num⟩
  rw [MLX90614_ReadTemperature_value, h0, h1, parseTemperature_eq]
  norm_num


/-! ## Single-byte writes, countdown semantics and the empty write -/

/-- C21: with a positive `I2C_TIMEOUT` (a 32-bit constant), a write of
exactly 1 byte without stop returns Success whatever the status register
would show: the call ends after the prologue, the read counter of the
status register is as before the call and the log holds no new poll of any
bit. -/
theorem write_one_byte_no_stop (c : Consts) (hw : Hw) (p : I2C_parameters_t) (buf : ℕ → ℕ)
    (s : Machine) (h0 : 0 < c.I2C_TIMEOUT) (h32 : c.I2C_TIMEOUT < 2 ^ 32) :
    i2c_write c hw p buf 1 i2c_stop_bit_t.I2C_NO_STOP_BIT s =
      (i2c_status_t.I2C_SUCCESS, writeStart c p buf s) ∧
    (i2c_write c hw p buf 1 i2c_stop_bit_t.I2C_NO_STOP_BIT s).2.nMSTAT = s.nMSTAT ∧
    ∀ bit, pollsOf bit (i2c_write c hw p buf 1 i2c_stop_bit_t.I2C_NO_STOP_BIT s).2.trace =
      pollsOf bit s.trace := by
  have hT : timeout0 c = c.I2C_TIMEOUT := Nat.mod_eq_of_lt h32
  have hno : (i2c_write c hw p buf 1 i2c_stop_bit_t.I2C_NO_STOP_BIT s).2 =
      writeStart c p buf s := rfl
  have hst : (i2c_write c hw p buf 1 i2c_stop_bit_t.I2C_NO_STOP_BIT s).1 =
      writeStatus (timeout0 c) (timeout0 c) (timeout0 c) := rfl
  refine ⟨Prod.ext ?_ hno, ?_, ?_⟩
  · rw [hst, hT]
    unfold writeStatus
    rw [if_neg (by omega)]
  · rw [hno]
    rfl
  · intro bit
    rw [hno, writeStart_pollsOf]

/-- C21, witness: the call made by `AHT20_TriggerStatus`, one command byte
without stop, against a bus that is busy for ever and never requests a
byte: Success. -/
theorem write_one_byte_no_stop_witness :
    i2c_write (devConsts 232323) (hwConst 0x040) (paramsOf 26000000 400000) (bufOf [0x71]) 1
      i2c_stop_bit_t.I2C_NO_STOP_BIT machine0 =
      (i2c_status_t.I2C_SUCCESS,
       writeStart (devConsts 232323) (paramsOf 26000000 400000) (bufOf [0x71]) machine0) :=
  (write_one_byte_no_stop (devConsts 232323) (hwConst 0x040) (paramsOf 26000000 400000)
    (bufOf [0x71]) machine0 (by decide) (by decide)).1

/-- A wait ends with its countdown at zero exactly when the awaited state was
absent in each of the first `t` reads, `t` being the initial countdown. -/
theorem pollWhile_zero_iff (hw : Hw) (bit : ℕ) (spin : Bool) (t : ℕ) (s : Machine) :
    (pollWhile hw bit spin t s).1 = 0 ↔
      ∀ i, i < t → bitIs (hw.MSTAT (s.nMSTAT + i)) bit = spin := by
  induction t generalizing s with
  | zero => exact ⟨fun _ i hi => absurd hi (Nat.not_lt_zero i), fun _ => rfl⟩
  | succ t ih =>
    unfold pollWhile
    have hn : (rdMSTAT hw bit s).2.nMSTAT = s.nMSTAT + 1 := rfl
    by_cases hc : bitIs (rdMSTAT hw bit s).1 bit = spin
    · rw [if_pos hc, ih, hn]
      constructor
      · intro h i hi
        rcases Nat.eq_zero_or_pos i with rfl | hpos
        · exact hc
        · have := h (i - 1) (by omega)
          have e : s.nMSTAT + 1 + (i - 1) = s.nMSTAT + i := by omega
          rw [e] at this
          exact this
      · intro h i hi
        have := h (i + 1) (by omega)
        have e : s.nMSTAT + 1 + i = s.nMSTAT + (i + 1) := by omega
        rw [e]
        exact this
    · rw [if_neg hc]
      constructor
      · intro h
        exact absurd h (Nat.succ_ne_zero t)
      · intro h
        exact absurd (h 0 (Nat.succ_pos t)) hc

theorem writeStatus_failure_iff (t1 t2 t3 : ℕ) :
    writeStatus t1 t2 t3 = i2c_status_t.I2C_FAILURE ↔ t1 = 0 ∨ t2 = 0 ∨ t3 = 0 := by
  unfold writeStatus
  split_ifs with h
  · exact ⟨fun _ => by omega, fun _ => rfl⟩
  · constructor
    · intro e; cases e
    · intro e; omega

theorem readStatus_failure_iff (t1 t2 : ℕ) :
    readStatus t1 t2 = i2c_status_t.I2C_FAILURE ↔ t1 = 0 ∨ t2 = 0 := by
  unfold readStatus
  split_ifs with h
  · exact ⟨fun _ => by omega, fun _ => rfl⟩
  · constructor
    · intro e; cases e
    · intro e; omega

/-- The countdown of a wait started at `I2C_TIMEOUT`.  The wait reads the
status register at least once and at most `I2C_TIMEOUT + 1` times; its
countdown ends at zero exactly when the awaited state was absent in each of
the first `I2C_TIMEOUT` reads.  A bit that shows the awaited state for the
first time on read k + 1 ends the wait on that read with the countdown at
`I2C_TIMEOUT - k`: zero for k = `I2C_TIMEOUT`, positive for every smaller k.
The final checks return Failure exactly when a countdown they are given is
zero. -/
theorem pollWhile_countdown (c : Consts) (hw : Hw) (bit : ℕ) (spin : Bool) (s : Machine) :
    (s.nMSTAT < (pollWhile hw bit spin (timeout0 c) s).2.nMSTAT ∧
      (pollWhile hw bit spin (timeout0 c) s).2.nMSTAT ≤ s.nMSTAT + timeout0 c + 1) ∧
    ((pollWhile hw bit spin (timeout0 c) s).1 = 0 ↔
      ∀ i, i < timeout0 c → bitIs (hw.MSTAT (s.nMSTAT + i)) bit = spin) ∧
    (∀ k, k ≤ timeout0 c →
      (∀ i, i < k → bitIs (hw.MSTAT (s.nMSTAT + i)) bit = spin) →
      bitIs (hw.MSTAT (s.nMSTAT + k)) bit ≠ spin →
      (pollWhile hw bit spin (timeout0 c) s).2.nMSTAT = s.nMSTAT + k + 1 ∧
      (pollWhile hw bit spin (timeout0 c) s).1 = timeout0 c - k ∧
      ((pollWhile hw bit spin (timeout0 c) s).1 = 0 ↔ k = timeout0 c)) ∧
    (∀ t1 t2 t3, writeStatus t1 t2 t3 = i2c_status_t.I2C_FAILURE ↔ t1 = 0 ∨ t2 = 0 ∨ t3 = 0) ∧
    (∀ t1 t2, readStatus t1 t2 = i2c_status_t.I2C_FAILURE ↔ t1 = 0 ∨ t2 = 0) := by
  have hf := pollWhile_frame hw bit spin (timeout0 c) s
  refine ⟨⟨hf.2.2.2.2.2.1, hf.2.2.2.2.2.2.1⟩, pollWhile_zero_iff hw bit spin (timeout0 c) s, ?_,
    writeStatus_failure_iff, readStatus_failure_iff⟩
  intro k hk h1 h2
  obtain ⟨a, b⟩ := pollWhile_exit hw bit spin k (timeout0 c) s hk h1 h2
  refine ⟨b, a, ?_⟩
  rw [a]
  omega

/-- With the countdown at 3, a write of two bytes without stop whose
transmit-request bit is first set on read 4 polls four times and returns
Failure; set on read 3 it polls three times and returns Success. -/
theorem pollWhile_countdown_sample :
    (pollWhile (hwLate 3 4) 2 false (timeout0 (devConsts 3))
      (writeStart (devConsts 3) (paramsOf 26000000 400000) (bufOf [1, 2]) machine0)).1 = 0 ∧
    i2c_write (devConsts 3) (hwLate 3 4) (paramsOf 26000000 400000) (bufOf [1, 2]) 2
      i2c_stop_bit_t.I2C_NO_STOP_BIT machine0 =
      (i2c_status_t.I2C_FAILURE,
       (i2c_write (devConsts 3) (hwLate 3 4) (paramsOf 26000000 400000) (bufOf [1, 2]) 2
         i2c_stop_bit_t.I2C_NO_STOP_BIT machine0).2) ∧
    pollsOf 2 (i2c_write (devConsts 3) (hwLate 3 4) (paramsOf 26000000 400000) (bufOf [1, 2]) 2
      i2c_stop_bit_t.I2C_NO_STOP_BIT machine0).2.trace = [0, 0, 0, 4] ∧
    (i2c_write (devConsts 3) (hwLate 2 4) (paramsOf 26000000 400000) (bufOf [1, 2]) 2
      i2c_stop_bit_t.I2C_NO_STOP_BIT machine0).1 = i2c_status_t.I2C_SUCCESS ∧
    pollsOf 2 (i2c_write (devConsts 3) (hwLate 2 4) (paramsOf 26000000 400000) (bufOf [1, 2]) 2
      i2c_stop_bit_t.I2C_NO_STOP_BIT machine0).2.trace = [0, 0, 4] :=
  ⟨(pollWhile_countdown (devConsts 3) (hwLate 3 4) 2 false
      (writeStart (devConsts 3) (paramsOf 26000000 400000) (bufOf [1, 2]) machine0)).2.1.mpr
      (by decide),
   Prod.ext (by decide) rfl, by decide, by decide, by decide⟩

/-- C23: for `i2c_data_length` = 0 the loop bound `i2c_data_length - 1UL` is
2^32 - 1: the call stages the byte at offset 0 and then runs the transmit
loop 2^32 - 1 times, so that `MTX` receives the 2^32 bytes found at offsets
0 to 2^32 - 1 from the buffer pointer, whatever the status register shows
and with or without stop. -/
theorem write_of_length_zero (c : Consts) (hw : Hw) (p : I2C_parameters_t) (buf : ℕ → ℕ)
    (stop : i2c_stop_bit_t) (s : Machine) :
    pred32 0 = 2 ^ 32 - 1 ∧
    mtxWrites (i2c_write c hw p buf 0 stop s).2.trace =
      mtxWrites s.trace ++ (List.range (2 ^ 32)).map (fun i => toReg c (buf i)) ∧
    (mtxWrites (i2c_write c hw p buf 0 stop s).2.trace).length =
      (mtxWrites s.trace).length + 2 ^ 32 := by
  have hb : pred32 0 + 1 = 2 ^ 32 := rfl
  have hm := i2c_write_mtxWrites c hw p buf 0 stop s
  rw [hb] at hm
  refine ⟨rfl, hm, ?_⟩
  rw [hm, List.length_append, List.length_map, List.length_range]


/-! ## AHT20 reply decoding -/

theorem shl8_or {x y : ℕ} (hy : y < 256) : (x <<< 8) ||| y = x * 256 + y := by
  have h : y < 2 ^ 8 := by simpa using hy
  have e := Nat.mul_add_lt_is_or h x
  rw [Nat.shiftLeft_eq, Nat.mul_comm x (2 ^ 8), ← e]

theorem and_F0 {b : ℕ} (hb : b < 256) : b &&& 0b11110000 = b / 16 * 16 := by
  interval_cases b <;> rfl

theorem and_0F {b : ℕ} (hb : b < 256) : b &&& 0b00001111 = b % 16 := by
  interval_cases b <;> rfl

theorem shl8_mod {w x : ℕ} (hw : 24 ≤ w) (hx : x < 2 ^ 16) : (x <<< 8) % 2 ^ w = x <<< 8 := by
  have h24 : 2 ^ 24 ≤ 2 ^ w := Nat.pow_le_pow_right (by norm_num) hw
  rw [Nat.shiftLeft_eq]
  apply Nat.mod_eq_of_lt
  have h : x * 2 ^ 8 < 2 ^ 24 := by
    norm_num
    norm_num at hx
    omega
  exact lt_of_lt_of_le h h24

/-- The parse of a buffer of bytes, in arithmetic terms, for raw fields of
at least 24 bits. -/
theorem AHT20_parse_eq (w : ℕ) (cmd : ℕ → ℕ) (hw : 24 ≤ w) (h : ∀ i, i < 7 → cmd i < 256) :
    AHT20_parse w cmd =
      { state := cmd 0
        raw_humidity := (cmd 1 * 2 ^ 16 + cmd 2 * 2 ^ 8 + cmd 3) / 16
        raw_temperature := (cmd 3 % 16) * 2 ^ 16 + cmd 4 * 2 ^ 8 + cmd 5
        crc := cmd 6 } := by
  have b1 := h 1 (by norm_num)
  have b2 := h 2 (by norm_num)
  have b3 := h 3 (by norm_num)
  have b4 := h 4 (by norm_num)
  have b5 := h 5 (by norm_num)
  have e1 : (cmd 1 <<< 8) % 2 ^ w = cmd 1 <<< 8 := shl8_mod hw (by norm_num; omega)
  have e2 : cmd 1 <<< 8 ||| cmd 2 = cmd 1 * 256 + cmd 2 := shl8_or b2
  have e3 : ((cmd 1 * 256 + cmd 2) <<< 8) % 2 ^ w = (cmd 1 * 256 + cmd 2) <<< 8 :=
    shl8_mod hw (by norm_num; omega)
  have hF0 : cmd 3 &&& 0b11110000 < 256 := by
    rw [and_F0 b3]
    omega
  have e4 : (cmd 1 * 256 + cmd 2) <<< 8 ||| (cmd 3 &&& 0b11110000) =
      (cmd 1 * 256 + cmd 2) * 256 + cmd 3 / 16 * 16 := by
    rw [shl8_or hF0, and_F0 b3]
  have f0 : cmd 3 &&& 0b00001111 = cmd 3 % 16 := and_0F b3
  have f1 : ((cmd 3 % 16) <<< 8) % 2 ^ w = (cmd 3 % 16) <<< 8 :=
    shl8_mod hw (by norm_num; omega)
  have f2 : (cmd 3 % 16) <<< 8 ||| cmd 4 = cmd 3 % 16 * 256 + cmd 4 := shl8_or b4
  have f3 : ((cmd 3 % 16 * 256 + cmd 4) <<< 8) % 2 ^ w = (cmd 3 % 16 * 256 + cmd 4) <<< 8 :=
    shl8_mod hw (by norm_num; omega)
  have f4 : (cmd 3 % 16 * 256 + cmd 4) <<< 8 ||| cmd 5 =
      (cmd 3 % 16 * 256 + cmd 4) * 256 + cmd 5 := shl8_or b5
  have hh : (AHT20_parse w cmd).raw_humidity =
      ((((cmd 1 <<< 8) % 2 ^ w ||| cmd 2) <<< 8) % 2 ^ w |||
        (cmd 3 &&& 0b11110000)) >>> 4 := rfl
  have ht : (AHT20_parse w cmd).raw_temperature =
      ((((cmd 3 &&& 0b00001111) <<< 8) % 2 ^ w ||| cmd 4) <<< 8) % 2 ^ w ||| cmd 5 := rfl
  have hs : (AHT20_parse w cmd).state = cmd 0 := rfl
  have hc : (AHT20_parse w cmd).crc = cmd 6 := rfl
  rw [e1, e2, e3, e4, Nat.shiftRight_eq_div_pow] at hh
  rw [f0, f1, f2, f3, f4] at ht
  have hh2 : (AHT20_parse w cmd).raw_humidity =
      (cmd 1 * 2 ^ 16 + cmd 2 * 2 ^ 8 + cmd 3) / 16 := by
    rw [hh]
    norm_num
    omega
  have ht2 : (AHT20_parse w cmd).raw_temperature =
      (cmd 3 % 16) * 2 ^ 16 + cmd 4 * 2 ^ 8 + cmd 5 := by
    rw [ht]
    norm_num
    omega
  cases hp : AHT20_parse w cmd with
  | mk st rh rt cr =>
    rw [hp] at hh2 ht2 hs hc
    simp only at hh2 ht2 hs hc
    rw [hh2, ht2, hs, hc]

/-- The bytes `i2c_read` leaves in the buffer are the values read from `MRX`,
reduced to 8 bits. -/
theorem i2c_read_out (c : Consts) (hw : Hw) (p : I2C_parameters_t) (out : ℕ → ℕ) (n : ℕ)
    (s : Machine) (i : ℕ) (hi : i < n) :
    (i2c_read c hw p out n s).2.1 i = hw.MRX (s.nMRX + i) % 256 := by
  have h := (rxLoop_spec c hw n 0 (timeout0 c) out (readStart c p n s)).2.2.1 i hi
  rw [Nat.zero_add] at h
  exact h

/-- C24: for every 7-byte reply b0..b6 (the values read from `MRX`, as
bytes) and whatever status the read returns, `AHT20_GetAllData` sets
state = b0, crc = b6, raw_humidity = (b1 * 2^16 + b2 * 2^8 + b3) div 16 and
raw_temperature = (b3 mod 16) * 2^16 + b4 * 2^8 + b5; both raw values are
below 2^20 and raw_humidity * 2^20 + raw_temperature is the 40-bit
big-endian number b1 b2 b3 b4 b5.  The raw fields are at least 24 bits
wide. -/
theorem AHT20_GetAllData_fields (c : Consts) (w : ℕ) (hw : Hw) (p : I2C_parameters_t)
    (s : Machine) (hwd : 24 ≤ w) :
    (AHT20_GetAllData c w hw p s).2.1.state = hw.MRX (s.nMRX + 0) % 256 ∧
    (AHT20_GetAllData c w hw p s).2.1.crc = hw.MRX (s.nMRX + 6) % 256 ∧
    (AHT20_GetAllData c w hw p s).2.1.raw_humidity =
      (hw.MRX (s.nMRX + 1) % 256 * 2 ^ 16 + hw.MRX (s.nMRX + 2) % 256 * 2 ^ 8 +
        hw.MRX (s.nMRX + 3) % 256) / 16 ∧
    (AHT20_GetAllData c w hw p s).2.1.raw_temperature =
      (hw.MRX (s.nMRX + 3) % 256 % 16) * 2 ^ 16 + hw.MRX (s.nMRX + 4) % 256 * 2 ^ 8 +
        hw.MRX (s.nMRX + 5) % 256 ∧
    (AHT20_GetAllData c w hw p s).2.1.raw_humidity < 2 ^ 20 ∧
    (AHT20_GetAllData c w hw p s).2.1.raw_temperature < 2 ^ 20 ∧
    (AHT20_GetAllData c w hw p s).2.1.raw_humidity * 2 ^ 20 +
        (AHT20_GetAllData c w hw p s).2.1.raw_temperature =
      hw.MRX (s.nMRX + 1) % 256 * 2 ^ 32 + hw.MRX (s.nMRX + 2) % 256 * 2 ^ 24 +
        hw.MRX (s.nMRX + 3) % 256 * 2 ^ 16 + hw.MRX (s.nMRX + 4) % 256 * 2 ^ 8 +
        hw.MRX (s.nMRX + 5) % 256 ∧
    ((AHT20_GetAllData c w hw p s).1 = AHT20_status_t.AHT20_SUCCESS ↔
      (i2c_read c hw p (fun _ => 0) 7 s).1 = i2c_status_t.I2C_SUCCESS) := by
  have hv : (AHT20_GetAllData c w hw p s).2.1 =
      AHT20_parse w (i2c_read c hw p (fun _ => 0) 7 s).2.1 := rfl
  have hst : (AHT20_GetAllData c w hw p s).1 =
      if (i2c_read c hw p (fun _ => 0) 7 s).1 = i2c_status_t.I2C_SUCCESS
      then AHT20_status_t.AHT20_SUCCESS else AHT20_status_t.AHT20_FAILURE := rfl
  have hb : ∀ i, i < 7 → (i2c_read c hw p (fun _ => 0) 7 s).2.1 i < 256 := by
    intro i hi
    rw [i2c_read_out c hw p _ 7 s i hi]
    exact Nat.mod_lt _ (by norm_num)
  rw [hv, AHT20_parse_eq w _ hwd hb]
  simp only [i2c_read_out c hw p _ 7 s 0 (by norm_num), i2c_read_out c hw p _ 7 s 1 (by norm_num),
    i2c_read_out c hw p _ 7 s 2 (by norm_num), i2c_read_out c hw p _ 7 s 3 (by norm_num),
    i2c_read_out c hw p _ 7 s 4 (by norm_num), i2c_read_out c hw p _ 7 s 5 (by norm_num),
    i2c_read_out c hw p _ 7 s 6 (by norm_num)]
  have m1 : hw.MRX (s.nMRX + 1) % 256 < 256 := Nat.mod_lt _ (by norm_num)
  have m2 : hw.MRX (s.nMRX + 2) % 256 < 256 := Nat.mod_lt _ (by norm_num)
  have m3 : hw.MRX (s.nMRX + 3) % 256 < 256 := Nat.mod_lt _ (by norm_num)
  have m4 : hw.MRX (s.nMRX + 4) % 256 < 256 := Nat.mod_lt _ (by norm_num)
  have m5 : hw.MRX (s.nMRX + 5) % 256 < 256 := Nat.mod_lt _ (by norm_num)
  refine ⟨trivial, trivial, trivial, trivial, ?_, ?_, ?_, ?_⟩
  · norm_num
    omega
  · norm_num
    omega
  · norm_num
    omega
  · rw [hst]
    by_cases h : (i2c_read c hw p (fun _ => 0) 7 s).1 = i2c_status_t.I2C_SUCCESS
    · rw [if_pos h]
      exact ⟨fun _ => h, fun _ => rfl⟩
    · rw [if_neg h]
      exact ⟨fun e => (by cases e), fun e => absurd e h⟩

/-- C24, witness: 32-bit raw fields and the reply 1C 12 34 56 78 9A BC while
every wait of the read times out: the call returns `AHT20_FAILURE` and the
fields are state 0x1C, raw_humidity 0x12345, raw_temperature 0x6789A and
crc 0xBC. -/
theorem AHT20_GetAllData_fields_witness :
    24 ≤ 32 ∧
    (AHT20_GetAllData (devConsts 3) 32 (hwReply 0x040 [0x1C, 0x12, 0x34, 0x56, 0x78, 0x9A, 0xBC])
        (paramsOf 26000000 400000) machine0).1 = AHT20_status_t.AHT20_FAILURE ∧
    (AHT20_GetAllData (devConsts 3) 32 (hwReply 0x040 [0x1C, 0x12, 0x34, 0x56, 0x78, 0x9A, 0xBC])
        (paramsOf 26000000 400000) machine0).2.1 = ⟨0x1C, 0x12345, 0x6789A, 0xBC⟩ ∧
    (AHT20_GetAllData (devConsts 3) 32 (hwReply 0x040 [0x1C, 0x12, 0x34, 0x56, 0x78, 0x9A, 0xBC])
        (paramsOf 26000000 400000) machine0).2.1.raw_humidity * 2 ^ 20 +
      (AHT20_GetAllData (devConsts 3) 32 (hwReply 0x040 [0x1C, 0x12, 0x34, 0x56, 0x78, 0x9A, 0xBC])
        (paramsOf 26000000 400000) machine0).2.1.raw_temperature = 0x123456789A :=
  ⟨by decide, by decide, by decide,
   ((AHT20_GetAllData_fields (devConsts 3) 32
      (hwReply 0x040 [0x1C, 0x12, 0x34, 0x56, 0x78, 0x9A, 0xBC])
      (paramsOf 26000000 400000) machine0 (by decide)).2.2.2.2.2.2.1).trans (by decide)⟩

/-- With the reply 1C 12 34 56 78 9A BC and a read that returns Success the
fields are the same as when the read fails. -/
theorem AHT20_GetAllData_sample_success :
    (AHT20_GetAllData (devConsts 3) 32 (hwReply 0x008 [0x1C, 0x12, 0x34, 0x56, 0x78, 0x9A, 0xBC])
        (paramsOf 26000000 400000) machine0).1 = AHT20_status_t.AHT20_SUCCESS ∧
    (AHT20_GetAllData (devConsts 3) 32 (hwReply 0x008 [0x1C, 0x12, 0x34, 0x56, 0x78, 0x9A, 0xBC])
        (paramsOf 26000000 400000) machine0).2.1 = ⟨0x1C, 0x12345, 0x6789A, 0xBC⟩ :=
  ⟨by decide, by decide⟩


/-! ## A late awaited state and the final check -/

/-- In a write without stop whose transmit-request bit shows the awaited
state for the first time on read `I2C_TIMEOUT + 1` and keeps it on the next
read: the wait before the second byte ends on that read with its countdown at
zero; a write of two bytes returns Failure and one of three bytes returns
Success after `I2C_TIMEOUT + 2` reads of the status register. -/
theorem i2c_write_late_state (c : Consts) (hw : Hw) (p : I2C_parameters_t) (buf : ℕ → ℕ)
    (s : Machine) (hT : 0 < timeout0 c)
    (h1 : ∀ k, k < timeout0 c → bitIs (hw.MSTAT (s.nMSTAT + k)) c.BITP_I2C_MSTAT_MTXREQ = false)
    (h2 : bitIs (hw.MSTAT (s.nMSTAT + timeout0 c)) c.BITP_I2C_MSTAT_MTXREQ = true)
    (h3 : bitIs (hw.MSTAT (s.nMSTAT + timeout0 c + 1)) c.BITP_I2C_MSTAT_MTXREQ = true) :
    (pollWhile hw c.BITP_I2C_MSTAT_MTXREQ false (timeout0 c) (writeStart c p buf s)).1 = 0 ∧
    (pollWhile hw c.BITP_I2C_MSTAT_MTXREQ false (timeout0 c) (writeStart c p buf s)).2.nMSTAT =
      s.nMSTAT + timeout0 c + 1 ∧
    (i2c_write c hw p buf 2 i2c_stop_bit_t.I2C_NO_STOP_BIT s).1 = i2c_status_t.I2C_FAILURE ∧
    (i2c_write c hw p buf 3 i2c_stop_bit_t.I2C_NO_STOP_BIT s).1 = i2c_status_t.I2C_SUCCESS ∧
    (i2c_write c hw p buf 3 i2c_stop_bit_t.I2C_NO_STOP_BIT s).2.nMSTAT =
      s.nMSTAT + timeout0 c + 2 := by
  have hs : (writeStart c p buf s).nMSTAT = s.nMSTAT := rfl
  obtain ⟨a, b⟩ := pollWhile_exit hw c.BITP_I2C_MSTAT_MTXREQ false (timeout0 c) (timeout0 c)
    (writeStart c p buf s) (le_refl _) (by rw [hs]; exact h1) (by rw [hs, h2]; decide)
  rw [Nat.sub_self] at a
  rw [hs] at b
  have hn : (wrMTX c (buf 1)
      (pollWhile hw c.BITP_I2C_MSTAT_MTXREQ false (timeout0 c) (writeStart c p buf s)).2).nMSTAT
      = s.nMSTAT + timeout0 c + 1 := by
    simp only [wrMTX]
    rw [b]
  have hit := pollWhile_hit hw c.BITP_I2C_MSTAT_MTXREQ false (timeout0 c) (wrMTX c (buf 1)
      (pollWhile hw c.BITP_I2C_MSTAT_MTXREQ false (timeout0 c) (writeStart c p buf s)).2)
      (by rw [hn, h3]; decide)
  have e2 : (i2c_write c hw p buf 2 i2c_stop_bit_t.I2C_NO_STOP_BIT s).1 =
      writeStatus
        (pollWhile hw c.BITP_I2C_MSTAT_MTXREQ false (timeout0 c) (writeStart c p buf s)).1
        (timeout0 c) (timeout0 c) := rfl
  have p3 : pred32 3 = 2 := rfl
  refine ⟨a, b, ?_, ?_, ?_⟩
  · rw [e2, a]
    exact writeStatus_zero1 _ _
  · unfold i2c_write
    simp only [p3, txLoop, hit, writeStatus]
    rw [if_neg (by omega)]
  · have e3 : (i2c_write c hw p buf 3 i2c_stop_bit_t.I2C_NO_STOP_BIT s).2 =
        wrMTX c (buf 2) (pollWhile hw c.BITP_I2C_MSTAT_MTXREQ false (timeout0 c) (wrMTX c (buf 1)
          (pollWhile hw c.BITP_I2C_MSTAT_MTXREQ false (timeout0 c)
            (writeStart c p buf s)).2)).2 := rfl
    rw [e3, hit]
    show (wrMTX c (buf 1)
      (pollWhile hw c.BITP_I2C_MSTAT_MTXREQ false (timeout0 c)
        (writeStart c p buf s)).2).nMSTAT + 1 = _
    rw [hn]

/-- In a read whose receive-request bit shows the awaited state for the first
time on read `I2C_TIMEOUT + 1` and keeps it on the next read, the bus being
free afterwards: the wait for the first byte ends on that read with its
countdown at zero; a read of one byte returns Failure and one of two bytes
returns Success after `I2C_TIMEOUT + 3` reads of the status register. -/
theorem i2c_read_late_state (c : Consts) (hw : Hw) (p : I2C_parameters_t) (out : ℕ → ℕ)
    (s : Machine) (hT : 0 < timeout0 c)
    (h1 : ∀ k, k < timeout0 c → bitIs (hw.MSTAT (s.nMSTAT + k)) c.BITP_I2C_MSTAT_MRXREQ = false)
    (h2 : bitIs (hw.MSTAT (s.nMSTAT + timeout0 c)) c.BITP_I2C_MSTAT_MRXREQ = true)
    (h3 : bitIs (hw.MSTAT (s.nMSTAT + timeout0 c + 1)) c.BITP_I2C_MSTAT_MRXREQ = true)
    (h4 : bitIs (hw.MSTAT (s.nMSTAT + timeout0 c + 2)) c.BITP_I2C_MSTAT_MBUSY = false) :
    (pollWhile hw c.BITP_I2C_MSTAT_MRXREQ false (timeout0 c) (readStart c p 2 s)).1 = 0 ∧
    (pollWhile hw c.BITP_I2C_MSTAT_MRXREQ false (timeout0 c) (readStart c p 2 s)).2.nMSTAT =
      s.nMSTAT + timeout0 c + 1 ∧
    (i2c_read c hw p out 1 s).1 = i2c_status_t.I2C_FAILURE ∧
    (i2c_read c hw p out 2 s).1 = i2c_status_t.I2C_SUCCESS ∧
    (i2c_read c hw p out 2 s).2.2.nMSTAT = s.nMSTAT + timeout0 c + 3 := by
  have hs : (readStart c p 2 s).nMSTAT = s.nMSTAT := rfl
  have hs1 : (readStart c p 1 s).nMSTAT = s.nMSTAT := rfl
  obtain ⟨a, b⟩ := pollWhile_exit hw c.BITP_I2C_MSTAT_MRXREQ false (timeout0 c) (timeout0 c)
    (readStart c p 2 s) (le_refl _) (by rw [hs]; exact h1) (by rw [hs, h2]; decide)
  obtain ⟨a1, -⟩ := pollWhile_exit hw c.BITP_I2C_MSTAT_MRXREQ false (timeout0 c) (timeout0 c)
    (readStart c p 1 s) (le_refl _) (by rw [hs1]; exact h1) (by rw [hs1, h2]; decide)
  rw [Nat.sub_self] at a a1
  rw [hs] at b
  have hn : (rdMRX hw
      (pollWhile hw c.BITP_I2C_MSTAT_MRXREQ false (timeout0 c) (readStart c p 2 s)).2).2.nMSTAT
      = s.nMSTAT + timeout0 c + 1 := by
    simp only [rdMRX]
    rw [b]
  have hit := pollWhile_hit hw c.BITP_I2C_MSTAT_MRXREQ false (timeout0 c) (rdMRX hw
      (pollWhile hw c.BITP_I2C_MSTAT_MRXREQ false (timeout0 c) (readStart c p 2 s)).2).2
      (by rw [hn, h3]; decide)
  have hn2 : (rdMRX hw (rdMSTAT hw c.BITP_I2C_MSTAT_MRXREQ (rdMRX hw
      (pollWhile hw c.BITP_I2C_MSTAT_MRXREQ false (timeout0 c) (readStart c p 2 s)).2).2).2).2.nMSTAT
      = s.nMSTAT + timeout0 c + 2 := by
    simp only [rdMRX, rdMSTAT]
    rw [b]
  have hit2 := pollWhile_hit hw c.BITP_I2C_MSTAT_MBUSY true (timeout0 c) (rdMRX hw
      (rdMSTAT hw c.BITP_I2C_MSTAT_MRXREQ (rdMRX hw
      (pollWhile hw c.BITP_I2C_MSTAT_MRXREQ false (timeout0 c) (readStart c p 2 s)).2).2).2).2
      (by rw [hn2, h4]; decide)
  have e1 : (i2c_read c hw p out 1 s).1 =
      readStatus
        (pollWhile hw c.BITP_I2C_MSTAT_MRXREQ false (timeout0 c) (readStart c p 1 s)).1
        (pollWhile hw c.BITP_I2C_MSTAT_MBUSY true (timeout0 c)
          (rxLoop c hw 1 0 (timeout0 c) out (readStart c p 1 s)).2.2).1 := rfl
  refine ⟨a, b, ?_, ?_, ?_⟩
  · rw [e1, a1]
    exact readStatus_zero1 _
  · unfold i2c_read
    simp only [rxLoop, hit, hit2, readStatus]
    rw [if_neg (by omega)]
  · have e3 : (i2c_read c hw p out 2 s).2.2 =
        disableMaster c (pollWhile hw c.BITP_I2C_MSTAT_MBUSY true (timeout0 c)
          (rdMRX hw (pollWhile hw c.BITP_I2C_MSTAT_MRXREQ false (timeout0 c) (rdMRX hw
            (pollWhile hw c.BITP_I2C_MSTAT_MRXREQ false (timeout0 c)
              (readStart c p 2 s)).2).2).2).2).2 := rfl
    rw [e3]
    simp only [hit, hit2]
    show (rdMRX hw (rdMSTAT hw c.BITP_I2C_MSTAT_MRXREQ (rdMRX hw
      (pollWhile hw c.BITP_I2C_MSTAT_MRXREQ false (timeout0 c)
        (readStart c p 2 s)).2).2).2).2.nMSTAT + 1 = _
    rw [hn2]

/-- C22 (the code departs from the claim): let the awaited bit of the first
per-byte wait show its state for the first time on read `I2C_TIMEOUT + 1`
(the 32-bit countdown being positive) and keep it afterwards.  That wait
ends on that read with its countdown at zero, a timeout, and the same late
state is reported as Failure when the wait is the last one of the loop (a
write of two bytes, a read of one byte).  In a write of three bytes without
stop, and in a read of two bytes, the countdown is reloaded before the next
wait and the call returns Success: the timeout is not reported. -/
theorem late_awaited_state_not_reported (c : Consts) (hw hr : Hw) (p : I2C_parameters_t)
    (buf out : ℕ → ℕ) (s : Machine) (hT : 0 < timeout0 c)
    (w1 : ∀ k, k < timeout0 c → bitIs (hw.MSTAT (s.nMSTAT + k)) c.BITP_I2C_MSTAT_MTXREQ = false)
    (w2 : bitIs (hw.MSTAT (s.nMSTAT + timeout0 c)) c.BITP_I2C_MSTAT_MTXREQ = true)
    (w3 : bitIs (hw.MSTAT (s.nMSTAT + timeout0 c + 1)) c.BITP_I2C_MSTAT_MTXREQ = true)
    (r1 : ∀ k, k < timeout0 c → bitIs (hr.MSTAT (s.nMSTAT + k)) c.BITP_I2C_MSTAT_MRXREQ = false)
    (r2 : bitIs (hr.MSTAT (s.nMSTAT + timeout0 c)) c.BITP_I2C_MSTAT_MRXREQ = true)
    (r3 : bitIs (hr.MSTAT (s.nMSTAT + timeout0 c + 1)) c.BITP_I2C_MSTAT_MRXREQ = true)
    (r4 : bitIs (hr.MSTAT (s.nMSTAT + timeout0 c + 2)) c.BITP_I2C_MSTAT_MBUSY = false) :
    ((pollWhile hw c.BITP_I2C_MSTAT_MTXREQ false (timeout0 c) (writeStart c p buf s)).1 = 0 ∧
     (pollWhile hw c.BITP_I2C_MSTAT_MTXREQ false (timeout0 c) (writeStart c p buf s)).2.nMSTAT =
       s.nMSTAT + timeout0 c + 1 ∧
     (i2c_write c hw p buf 2 i2c_stop_bit_t.I2C_NO_STOP_BIT s).1 = i2c_status_t.I2C_FAILURE ∧
     (i2c_write c hw p buf 3 i2c_stop_bit_t.I2C_NO_STOP_BIT s).1 = i2c_status_t.I2C_SUCCESS ∧
     (i2c_write c hw p buf 3 i2c_stop_bit_t.I2C_NO_STOP_BIT s).2.nMSTAT =
       s.nMSTAT + timeout0 c + 2) ∧
    ((pollWhile hr c.BITP_I2C_MSTAT_MRXREQ false (timeout0 c) (readStart c p 2 s)).1 = 0 ∧
     (pollWhile hr c.BITP_I2C_MSTAT_MRXREQ false (timeout0 c) (readStart c p 2 s)).2.nMSTAT =
       s.nMSTAT + timeout0 c + 1 ∧
     (i2c_read c hr p out 1 s).1 = i2c_status_t.I2C_FAILURE ∧
     (i2c_read c hr p out 2 s).1 = i2c_status_t.I2C_SUCCESS ∧
     (i2c_read c hr p out 2 s).2.2.nMSTAT = s.nMSTAT + timeout0 c + 3) :=
  ⟨i2c_write_late_state c hw p buf s hT w1 w2 w3,
   i2c_read_late_state c hr p out s hT r1 r2 r3 r4⟩

/-- C22, witness: with the countdown at 232323 and a status register that
reads 0 on its first 232323 reads and shows the request bit from read 232324
on, the wait before the second byte ends with its countdown at zero; the
write of the three bytes 0x0A, 0x0B, 0x0C without stop and the
read of two bytes return Success, the write of two bytes and the read of one
byte return Failure. -/
theorem late_awaited_state_not_reported_witness :
    bitIs ((hwLate 232323 4).MSTAT 232322) 2 = false ∧
    bitIs ((hwLate 232323 4).MSTAT 232323) 2 = true ∧
    (pollWhile (hwLate 232323 4) 2 false 232323
      (writeStart (devConsts 232323) (paramsOf 26000000 400000) (bufOf [0x0A, 0x0B, 0x0C])
        machine0)).1 = 0 ∧
    (i2c_write (devConsts 232323) (hwLate 232323 4) (paramsOf 26000000 400000)
      (bufOf [0x0A, 0x0B, 0x0C]) 2 i2c_stop_bit_t.I2C_NO_STOP_BIT machine0).1 =
      i2c_status_t.I2C_FAILURE ∧
    (i2c_write (devConsts 232323) (hwLate 232323 4) (paramsOf 26000000 400000)
      (bufOf [0x0A, 0x0B, 0x0C]) 3 i2c_stop_bit_t.I2C_NO_STOP_BIT machine0).1 =
      i2c_status_t.I2C_SUCCESS ∧
    (i2c_write (devConsts 232323) (hwLate 232323 4) (paramsOf 26000000 400000)
      (bufOf [0x0A, 0x0B, 0x0C]) 3 i2c_stop_bit_t.I2C_NO_STOP_BIT machine0).2.nMSTAT = 232325 ∧
    (i2c_read (devConsts 232323) (hwLate 232323 8) (paramsOf 26000000 400000) (fun _ => 0) 1
      machine0).1 = i2c_status_t.I2C_FAILURE ∧
    (i2c_read (devConsts 232323) (hwLate 232323 8) (paramsOf 26000000 400000) (fun _ => 0) 2
      machine0).1 = i2c_status_t.I2C_SUCCESS ∧
    (i2c_read (devConsts 232323) (hwLate 232323 8) (paramsOf 26000000 400000) (fun _ => 0) 2
      machine0).2.2.nMSTAT = 232326 :=
  have h := late_awaited_state_not_reported (devConsts 232323) (hwLate 232323 4)
    (hwLate 232323 8) (paramsOf 26000000 400000) (bufOf [0x0A, 0x0B, 0x0C]) (fun _ => 0) machine0
    (by decide)
    (fun k hk => by
      have e : timeout0 (devConsts 232323) = 232323 := by decide
      have hk2 : k < 232323 := by rw [e] at hk; exact hk
      have hz : (hwLate 232323 4).MSTAT (machine0.nMSTAT + k) = 0 := by
        simp [hwLate, machine0, hk2]
      rw [hz]
      decide)
    (by decide) (by decide)
    (fun k hk => by
      have e : timeout0 (devConsts 232323) = 232323 := by decide
      have hk2 : k < 232323 := by rw [e] at hk; exact hk
      have hz : (hwLate 232323 8).MSTAT (machine0.nMSTAT + k) = 0 := by
        simp [hwLate, machine0, hk2]
      rw [hz]
      decide)
    (by decide) (by decide) (by decide)
  ⟨by decide, by decide, h.1.1, h.1.2.2.1, h.1.2.2.2.1,
   h.1.2.2.2.2.trans (by decide), h.2.2.2.1, h.2.2.2.2.1, h.2.2.2.2.2.trans (by decide)⟩

end I2C
